import Mathlib

/-!
# Transform estimation (cilantro, `transform_estimation.hpp`)

A shallow embedding of the point-set alignment estimators of
`include/cilantro/transform_estimation.hpp` and theorems about them.

Modelling conventions.

* The scalar type `ScalarT` is an arbitrary linearly ordered field `K`
  (exact arithmetic); concrete evaluations are carried out over `ℚ`.
* A `ConstVectorSetMatrixMap<ScalarT,Dim>` (a `Dim × N` matrix whose columns
  are the points) is the list of its columns; `cols()` is the length.
  `col(i)` of an index that is out of range is outside the contract of the
  source (no bounds check there); the model reads the zero vector.
* The in/out parameter `tform` is passed in and the written transform is
  returned next to the boolean result.
* Library routines of Eigen that the source calls are parameters of the
  model: `svd` (`JacobiSVD`, giving `matrixU()` and `matrixV()`), `solve`
  (`AtA.ldlt().solve(Atb)`), `cos`/`sin` (behind `Rotation2D` and
  `AngleAxis`) and `rotationOf` (`Transform::rotation()`).
* The OpenMP reduction is the sequential sum, in the order of the loop.
-/

namespace Cilantro

open Matrix

variable {K : Type} [LinearOrderedField K] {D : ℕ}

/-! ## Data model -/

/-- A set of `D`-dimensional points, stored as the list of the columns. -/
abbrev VectorSet (K : Type) (D : ℕ) := List (Fin D → K)

/-- Column access `ps.col(i)`. -/
def VectorSet.col (ps : VectorSet K D) (i : ℕ) : Fin D → K := ps.getD i 0

/-- A correspondence `(indexInFirst, indexInSecond, value)`. -/
structure Correspondence (V : Type) where
  indexInFirst : ℕ
  indexInSecond : ℕ
  value : V
deriving DecidableEq

/-- A correspondence set is a `std::vector` of correspondences. -/
abbrev CorrespondenceSet (V : Type) := List (Correspondence V)

/-- The two parts of an `Eigen::Transform` the estimators read and write. -/
structure Transform (K : Type) (D : ℕ) where
  linear : Matrix (Fin D) (Fin D) K
  translation : Fin D → K

/-- The effect of `tform.setIdentity()`. -/
def Transform.setIdentity (_tform : Transform K D) : Transform K D :=
  { linear := 1, translation := 0 }

/-- Applying a transform to a point, `tform*p`. -/
def Transform.apply (tform : Transform K D) (p : Fin D → K) : Fin D → K :=
  tform.linear.mulVec p + tform.translation

/-- The value of `NumUnknowns` in the affine estimators. -/
abbrev NumUnknowns (D : ℕ) : ℕ := D * (D + 1)

/-! ## Rigid point-to-point estimator (lines 10-42) -/

/-- The mean of the columns, `ps.rowwise().mean()`. -/
def rowwiseMean (ps : VectorSet K D) : Fin D → K :=
  fun a => ps.sum a / (ps.length : K)

/-- The columns minus a fixed vector, `ps.colwise() - mu`. -/
def colwiseSub (ps : VectorSet K D) (mu : Fin D → K) : VectorSet K D :=
  ps.map (fun p => p - mu)

/-- The product `a * b.transpose()` of two point sets seen as `D × N`
matrices with the same number of columns: the sum of the outer products of
corresponding columns. -/
def mulTranspose (a b : VectorSet K D) : Matrix (Fin D) (Fin D) K :=
  (List.zipWith (fun p q => vecMulVec p q) a b).sum

/-- The cross-covariance `sigma` of line 29. -/
def crossCovariance (dst src : VectorSet K D) : Matrix (Fin D) (Fin D) K :=
  ((1 : K) / (dst.length : K)) •
    mulTranspose (colwiseSub dst (rowwiseMean dst)) (colwiseSub src (rowwiseMean src))

/-- The effect of `U.col(c) *= -1`. -/
def negateCol (U : Matrix (Fin D) (Fin D) K) (c : ℕ) : Matrix (Fin D) (Fin D) K :=
  fun i j => if j.val = c then -U i j else U i j

/-- The linear part written at lines 32-38 from the SVD factors `U`, `V`. -/
def rigidLinear (U V : Matrix (Fin D) (Fin D) K) : Matrix (Fin D) (Fin D) K :=
  if (U * V).det < 0 then negateCol U (D - 1) * Vᵀ else U * Vᵀ

/-- The rigid point-to-point estimator,
`estimateTransformPointToPointMetric` for `Mode == Isometry`. -/
def estimateTransformPointToPointMetricRigid
    (svd : Matrix (Fin D) (Fin D) K → Matrix (Fin D) (Fin D) K × Matrix (Fin D) (Fin D) K)
    (dst src : VectorSet K D) (tform : Transform K D) : Bool × Transform K D :=
  if src.length ≠ dst.length ∨ src.length = 0 then
    (false, tform.setIdentity)
  else
    let mu_dst := rowwiseMean dst
    let mu_src := rowwiseMean src
    let sigma := crossCovariance dst src
    let lin := rigidLinear (svd sigma).1 (svd sigma).2
    (decide (D ≤ src.length),
      { linear := lin, translation := mu_dst - lin.mulVec mu_src })

/-! ## Affine point-to-point estimator (lines 45-91) -/

/-- The design matrix `eq_vecs` of the affine estimators for the source point
`s`: rows `j*D .. j*D + D - 1` hold `s` in column `j` (and zero elsewhere),
the last `D` rows are the identity. -/
def affineEqVecs (s : Fin D → K) : Matrix (Fin (NumUnknowns D)) (Fin D) K :=
  fun r c =>
    if r.val < D * D then
      (if r.val / D = c.val then s ⟨r.val % D, Nat.mod_lt _ (Fin.pos c)⟩ else 0)
    else
      (if r.val - D * D = c.val then 1 else 0)

/-- One pass of the loop body of lines 72-82. -/
def affinePointStep (acc : Matrix (Fin (NumUnknowns D)) (Fin (NumUnknowns D)) K ×
      (Fin (NumUnknowns D) → K)) (ds : (Fin D → K) × (Fin D → K)) :
    Matrix (Fin (NumUnknowns D)) (Fin (NumUnknowns D)) K × (Fin (NumUnknowns D) → K) :=
  let eq_vecs := affineEqVecs ds.2
  (acc.1 + eq_vecs * eq_vecsᵀ, acc.2 + eq_vecs.mulVec ds.1)

/-- The system `(AtA, Atb)` accumulated at lines 62-83. -/
def affinePointSystem (dst src : VectorSet K D) :
    Matrix (Fin (NumUnknowns D)) (Fin (NumUnknowns D)) K × (Fin (NumUnknowns D) → K) :=
  (List.zip dst src).foldl affinePointStep (0, 0)

/-- Position `j*D + k` of a vector of `NumUnknowns` entries: where entry
`(j, k)` of a row-major `D × D` matrix lies. -/
def linIndex (j k : Fin D) : Fin (NumUnknowns D) :=
  ⟨j.val * D + k.val, by
    have hj := j.isLt
    have hk := k.isLt
    calc j.val * D + k.val < j.val * D + D := by omega
      _ = (j.val + 1) * D := by ring
      _ ≤ D * D := Nat.mul_le_mul_right D hj
      _ ≤ D * (D + 1) := Nat.mul_le_mul_left D (Nat.le_succ D)⟩

/-- Position `D*D + j` of a vector of `NumUnknowns` entries: entry `j` of
its last `D` entries, `tail<Dim>()`. -/
def tailIndex (j : Fin D) : Fin (NumUnknowns D) :=
  ⟨D * D + j.val, by
    have hj := j.isLt
    calc D * D + j.val < D * D + D := by omega
      _ = D * (D + 1) := by ring⟩

/-- The unpacking of lines 87-88 (and 416-417): the first `D*D` entries of
`theta`, read row-major, are the linear part and the last `D` entries are the
translation. -/
def unpackAffine (theta : Fin (NumUnknowns D) → K) (_tform : Transform K D) :
    Transform K D :=
  { linear := fun j k => theta (linIndex j k)
    translation := fun j => theta (tailIndex j) }

/-- The packing that the unpacking is compared with: the linear part in
row-major order followed by the translation. -/
def packAffine (A : Matrix (Fin D) (Fin D) K) (t : Fin D → K) : Fin (NumUnknowns D) → K :=
  fun r =>
    if h : r.val < D * D then
      A ⟨r.val / D, Nat.div_lt_of_lt_mul h⟩
        ⟨r.val % D, Nat.mod_lt _ (Nat.pos_of_ne_zero (by rintro rfl; simp at h))⟩
    else
      t ⟨r.val - D * D, by
        have hr : r.val < D * D + D := r.isLt
        omega⟩

/-- The affine point-to-point estimator,
`estimateTransformPointToPointMetric` for `Mode == Affine`. -/
def estimateTransformPointToPointMetricAffine
    (solve : Matrix (Fin (NumUnknowns D)) (Fin (NumUnknowns D)) K →
      (Fin (NumUnknowns D) → K) → (Fin (NumUnknowns D) → K))
    (dst src : VectorSet K D) (tform : Transform K D) : Bool × Transform K D :=
  if src.length ≠ dst.length ∨ src.length = 0 then
    (false, tform.setIdentity)
  else
    let sys := affinePointSystem dst src
    let theta := solve sys.1 sys.2
    (decide (D + 1 ≤ src.length), unpackAffine theta tform)

/-! ## Correspondence-set overload (lines 93-102) -/

/-- Modelled from the spec: `selectCorrespondingPoints` of
`correspondence.hpp`, which is not among the sources. For the closed-form
estimators "over a correspondence set", column `i` of the two selected sets is
the destination point `dst.col(corr[i].indexInFirst)` and the source point
`src.col(corr[i].indexInSecond)`. -/
def selectCorrespondingPoints {V : Type} (corr : CorrespondenceSet V)
    (dst src : VectorSet K D) : VectorSet K D × VectorSet K D :=
  (corr.map (fun c => dst.col c.indexInFirst), corr.map (fun c => src.col c.indexInSecond))

/-- The correspondence-set overload instantiated with the rigid estimator. -/
def estimateTransformPointToPointMetricRigidCorr {V : Type}
    (svd : Matrix (Fin D) (Fin D) K → Matrix (Fin D) (Fin D) K × Matrix (Fin D) (Fin D) K)
    (dst src : VectorSet K D) (corr : CorrespondenceSet V) (tform : Transform K D) :
    Bool × Transform K D :=
  let sel := selectCorrespondingPoints corr dst src
  estimateTransformPointToPointMetricRigid svd sel.1 sel.2 tform

/-- The correspondence-set overload instantiated with the affine estimator. -/
def estimateTransformPointToPointMetricAffineCorr {V : Type}
    (solve : Matrix (Fin (NumUnknowns D)) (Fin (NumUnknowns D)) K →
      (Fin (NumUnknowns D) → K) → (Fin (NumUnknowns D) → K))
    (dst src : VectorSet K D) (corr : CorrespondenceSet V) (tform : Transform K D) :
    Bool × Transform K D :=
  let sel := selectCorrespondingPoints corr dst src
  estimateTransformPointToPointMetricAffine solve sel.1 sel.2 tform

/-! ## Stand-ins for the library routines in evaluations -/

/-- The rule of Cramer, an exact solver of non-singular systems; it stands in for
`ldlt().solve` where an estimator is evaluated on a concrete input. -/
def cramerSolve {n : ℕ} (M : Matrix (Fin n) (Fin n) K) (b : Fin n → K) : Fin n → K :=
  (M.det)⁻¹ • M.cramer b

/-- The cosine of the rational parametrisation of the circle; with `circleSin`
it stands in for `cos` where an estimator is evaluated over `ℚ`. -/
def circleCos (x : K) : K := (1 - x * x) / (1 + x * x)

/-- The sine of the rational parametrisation of the circle. -/
def circleSin (x : K) : K := 2 * x / (1 + x * x)

/-! ## Combined-metric estimators: arguments and precondition check -/

/-- The arguments of `estimateTransformCombinedMetric` other than `tform`,
under the names of the source. The weight evaluators are functions of
`(indexInFirst, indexInSecond, value)`. -/
structure CombinedArgs (K : Type) (D : ℕ) (V W : Type) where
  dst_p : VectorSet K D
  dst_n : VectorSet K D
  src_p : VectorSet K D
  point_to_point_correspondences : CorrespondenceSet V
  point_to_point_weight : K
  point_to_plane_correspondences : CorrespondenceSet W
  point_to_plane_weight : K
  max_iter : ℕ
  convergence_tol : K
  point_corr_evaluator : ℕ → ℕ → V → K
  plane_corr_evaluator : ℕ → ℕ → W → K

variable {V W : Type}

/-- The flag `has_point_to_point_terms` (lines 124, 231, 354). -/
def has_point_to_point_terms (a : CombinedArgs K D V W) : Bool :=
  !a.point_to_point_correspondences.isEmpty && decide (0 < a.point_to_point_weight)

/-- The flag `has_point_to_plane_terms` (lines 125, 232, 355). -/
def has_point_to_plane_terms (a : CombinedArgs K D V W) : Bool :=
  !a.point_to_plane_correspondences.isEmpty && decide (0 < a.point_to_plane_weight)

/-- The condition of the early return (lines 127-128, 234-235, 357-358). -/
def preconditionViolated (a : CombinedArgs K D V W) : Bool :=
  (!has_point_to_point_terms a && !has_point_to_plane_terms a) ||
    (has_point_to_plane_terms a && decide (a.dst_p.length ≠ a.dst_n.length))

/-- A weight evaluator whose output for the correspondence `c` is doubled and
whose output for every other correspondence is that of `e`. -/
def doubledAt {U : Type} [DecidableEq U] (e : ℕ → ℕ → U → K) (c : Correspondence U) :
    ℕ → ℕ → U → K :=
  fun i j v =>
    if i = c.indexInFirst ∧ j = c.indexInSecond ∧ v = c.value then 2 * e i j v else e i j v

/-- The test `v.norm() < tol`, stated without the square root: the norm is
non-negative, so it is below `tol` exactly when `tol` is positive and the
squared norm is below `tol*tol`. -/
def normLt {n : ℕ} (v : Fin n → K) (tol : K) : Bool :=
  decide (0 < tol ∧ v ⬝ᵥ v < tol * tol)

/-- The loop `while (iter < max_iter) { ...; iter++; if (...) return true; }
return false;` of the rigid combined-metric estimators. `step` is the loop
body up to the update of `tform` and gives the solved `d_theta` and the updated
transform. The first argument is `max_iter - iter`. The result holds the
returned flag, the transform and the final value of `iter`. -/
def gaussNewtonLoop {n : ℕ} (step : Transform K D → (Fin n → K) × Transform K D)
    (convergence_tol : K) : ℕ → ℕ → Transform K D → Bool × Transform K D × ℕ
  | 0, iter, tform => (false, tform, iter)
  | r + 1, iter, tform =>
    let res := step tform
    if normLt res.1 convergence_tol then (true, res.2, iter + 1)
    else gaussNewtonLoop step convergence_tol r (iter + 1) res.2

/-- The transform after `k` passes of the loop body started at `tform`,
the convergence test left aside. -/
def updatesFrom {n : ℕ} (step : Transform K D → (Fin n → K) × Transform K D)
    (tform : Transform K D) : ℕ → Transform K D
  | 0 => tform
  | k + 1 => (step (updatesFrom step tform k)).2

/-- The vector `d_theta` solved in pass `k` (counted from 1) of the loop
body started at `tform`: it is computed from the transform after `k - 1`
passes. -/
def incrementAt {n : ℕ} (step : Transform K D → (Fin n → K) × Transform K D)
    (tform : Transform K D) (k : ℕ) : Fin n → K :=
  (step (updatesFrom step tform (k - 1))).1

/-! ## Rigid combined-metric estimator, 2D (lines 104-209) -/

/-- One pass of the point-to-point loop body (lines 153-165). -/
def pointStep2D (a : CombinedArgs K 2 V W) (tform : Transform K 2)
    (acc : Matrix (Fin 3) (Fin 3) K × (Fin 3 → K)) (corr : Correspondence V) :
    Matrix (Fin 3) (Fin 3) K × (Fin 3 → K) :=
  let d := a.dst_p.col corr.indexInFirst
  let weight := a.point_to_point_weight *
    a.point_corr_evaluator corr.indexInFirst corr.indexInSecond corr.value
  let s := tform.apply (a.src_p.col corr.indexInSecond)
  let eq_vecs : Matrix (Fin 3) (Fin 2) K := !![-s 1, s 0; 1, 0; 0, 1]
  (acc.1 + (weight • eq_vecs) * eq_vecsᵀ, acc.2 + eq_vecs.mulVec (weight • (d - s)))

/-- One pass of the point-to-plane loop body (lines 174-188). -/
def planeStep2D (a : CombinedArgs K 2 V W) (tform : Transform K 2)
    (acc : Matrix (Fin 3) (Fin 3) K × (Fin 3 → K)) (corr : Correspondence W) :
    Matrix (Fin 3) (Fin 3) K × (Fin 3 → K) :=
  let d := a.dst_p.col corr.indexInFirst
  let n := a.dst_n.col corr.indexInFirst
  let weight := a.point_to_plane_weight *
    a.plane_corr_evaluator corr.indexInFirst corr.indexInSecond corr.value
  let s := tform.apply (a.src_p.col corr.indexInSecond)
  let eq_vec : Fin 3 → K := ![s 0 * n 1 - s 1 * n 0, n 0, n 1]
  (acc.1 + vecMulVec (weight • eq_vec) eq_vec, acc.2 + (weight * (n ⬝ᵥ (d - s))) • eq_vec)

/-- The system `(AtA, Atb)` of one iteration (lines 142-191). -/
def rigidSystem2D (a : CombinedArgs K 2 V W) (tform : Transform K 2) :
    Matrix (Fin 3) (Fin 3) K × (Fin 3 → K) :=
  let acc0 : Matrix (Fin 3) (Fin 3) K × (Fin 3 → K) := (0, 0)
  let acc1 := if has_point_to_point_terms a then
    a.point_to_point_correspondences.foldl (pointStep2D a tform) acc0 else acc0
  if has_point_to_plane_terms a then
    a.point_to_plane_correspondences.foldl (planeStep2D a tform) acc1 else acc1

/-- The matrix of `Eigen::Rotation2D<ScalarT>(angle).toRotationMatrix()`. -/
def rotation2D (cos sin : K → K) (angle : K) : Matrix (Fin 2) (Fin 2) K :=
  !![cos angle, -sin angle; sin angle, cos angle]

/-- The update of lines 196-200. `rotationOf` is `tform.rotation()` as a
function of the linear part. -/
def update2D (cos sin : K → K)
    (rotationOf : Matrix (Fin 2) (Fin 2) K → Matrix (Fin 2) (Fin 2) K)
    (tform : Transform K 2) (d_theta : Fin 3 → K) : Transform K 2 :=
  let rot_mat_iter := rotation2D cos sin (d_theta 0)
  { linear := rotationOf (rot_mat_iter * tform.linear)
    translation := rot_mat_iter.mulVec tform.translation + ![d_theta 1, d_theta 2] }

/-- The loop body of lines 141-200: the solved `d_theta` and the updated
transform. -/
def iterStep2D (solve : Matrix (Fin 3) (Fin 3) K → (Fin 3 → K) → (Fin 3 → K))
    (cos sin : K → K) (rotationOf : Matrix (Fin 2) (Fin 2) K → Matrix (Fin 2) (Fin 2) K)
    (a : CombinedArgs K 2 V W) (tform : Transform K 2) : (Fin 3 → K) × Transform K 2 :=
  let sys := rigidSystem2D a tform
  let d_theta := solve sys.1 sys.2
  (d_theta, update2D cos sin rotationOf tform d_theta)

/-- The 2D rigid combined-metric estimator together with the final value of
the loop counter `iter`. -/
def estimateTransformCombinedMetric2DTrace
    (solve : Matrix (Fin 3) (Fin 3) K → (Fin 3 → K) → (Fin 3 → K))
    (cos sin : K → K) (rotationOf : Matrix (Fin 2) (Fin 2) K → Matrix (Fin 2) (Fin 2) K)
    (a : CombinedArgs K 2 V W) (tform : Transform K 2) : Bool × Transform K 2 × ℕ :=
  let tform0 := tform.setIdentity
  if preconditionViolated a then (false, tform0, 0)
  else gaussNewtonLoop (iterStep2D solve cos sin rotationOf a) a.convergence_tol
    a.max_iter 0 tform0

/-- The 2D rigid combined-metric estimator, `estimateTransformCombinedMetric`
for `Mode == Isometry`, `Dim == 2`. -/
def estimateTransformCombinedMetric2D
    (solve : Matrix (Fin 3) (Fin 3) K → (Fin 3 → K) → (Fin 3 → K))
    (cos sin : K → K) (rotationOf : Matrix (Fin 2) (Fin 2) K → Matrix (Fin 2) (Fin 2) K)
    (a : CombinedArgs K 2 V W) (tform : Transform K 2) : Bool × Transform K 2 :=
  let res := estimateTransformCombinedMetric2DTrace solve cos sin rotationOf a tform
  (res.1, res.2.1)

/-! ## Rigid combined-metric estimator, 3D (lines 211-330) -/

/-- One pass of the point-to-point loop body (lines 260-281). -/
def pointStep3D (a : CombinedArgs K 3 V W) (tform : Transform K 3)
    (acc : Matrix (Fin 6) (Fin 6) K × (Fin 6 → K)) (corr : Correspondence V) :
    Matrix (Fin 6) (Fin 6) K × (Fin 6 → K) :=
  let d := a.dst_p.col corr.indexInFirst
  let weight := a.point_to_point_weight *
    a.point_corr_evaluator corr.indexInFirst corr.indexInSecond corr.value
  let s := tform.apply (a.src_p.col corr.indexInSecond)
  let eq_vecs : Matrix (Fin 6) (Fin 3) K :=
    !![0, -s 2, s 1; s 2, 0, -s 0; -s 1, s 0, 0; 1, 0, 0; 0, 1, 0; 0, 0, 1]
  (acc.1 + (weight • eq_vecs) * eq_vecsᵀ, acc.2 + eq_vecs.mulVec (weight • (d - s)))

/-- One pass of the point-to-plane loop body (lines 290-307). -/
def planeStep3D (a : CombinedArgs K 3 V W) (tform : Transform K 3)
    (acc : Matrix (Fin 6) (Fin 6) K × (Fin 6 → K)) (corr : Correspondence W) :
    Matrix (Fin 6) (Fin 6) K × (Fin 6 → K) :=
  let d := a.dst_p.col corr.indexInFirst
  let n := a.dst_n.col corr.indexInFirst
  let weight := a.point_to_plane_weight *
    a.plane_corr_evaluator corr.indexInFirst corr.indexInSecond corr.value
  let s := tform.apply (a.src_p.col corr.indexInSecond)
  let eq_vec : Fin 6 → K :=
    ![n 2 * s 1 - n 1 * s 2, n 0 * s 2 - n 2 * s 0, n 1 * s 0 - n 0 * s 1, n 0, n 1, n 2]
  (acc.1 + vecMulVec (weight • eq_vec) eq_vec, acc.2 + (weight * (n ⬝ᵥ (d - s))) • eq_vec)

/-- The system `(AtA, Atb)` of one iteration (lines 249-310). -/
def rigidSystem3D (a : CombinedArgs K 3 V W) (tform : Transform K 3) :
    Matrix (Fin 6) (Fin 6) K × (Fin 6 → K) :=
  let acc0 : Matrix (Fin 6) (Fin 6) K × (Fin 6 → K) := (0, 0)
  let acc1 := if has_point_to_point_terms a then
    a.point_to_point_correspondences.foldl (pointStep3D a tform) acc0 else acc0
  if has_point_to_plane_terms a then
    a.point_to_plane_correspondences.foldl (planeStep3D a tform) acc1 else acc1

/-- The rotation matrix of `AngleAxis(angle, UnitX())`. -/
def angleAxisX (cos sin : K → K) (angle : K) : Matrix (Fin 3) (Fin 3) K :=
  !![1, 0, 0; 0, cos angle, -sin angle; 0, sin angle, cos angle]

/-- The rotation matrix of `AngleAxis(angle, UnitY())`. -/
def angleAxisY (cos sin : K → K) (angle : K) : Matrix (Fin 3) (Fin 3) K :=
  !![cos angle, 0, sin angle; 0, 1, 0; -sin angle, 0, cos angle]

/-- The rotation matrix of `AngleAxis(angle, UnitZ())`. -/
def angleAxisZ (cos sin : K → K) (angle : K) : Matrix (Fin 3) (Fin 3) K :=
  !![cos angle, -sin angle, 0; sin angle, cos angle, 0; 0, 0, 1]

/-- The update of lines 315-321. The product of the three `AngleAxis` values
is the composition of the three rotations (Eigen forms it through unit
quaternions), and `.matrix()` is its rotation matrix. -/
def update3D (cos sin : K → K)
    (rotationOf : Matrix (Fin 3) (Fin 3) K → Matrix (Fin 3) (Fin 3) K)
    (tform : Transform K 3) (d_theta : Fin 6 → K) : Transform K 3 :=
  let rot_mat_iter := angleAxisZ cos sin (d_theta 2) * angleAxisY cos sin (d_theta 1) *
    angleAxisX cos sin (d_theta 0)
  { linear := rotationOf (rot_mat_iter * tform.linear)
    translation := rot_mat_iter.mulVec tform.translation + ![d_theta 3, d_theta 4, d_theta 5] }

/-- The loop body of lines 248-321: the solved `d_theta` and the updated
transform. -/
def iterStep3D (solve : Matrix (Fin 6) (Fin 6) K → (Fin 6 → K) → (Fin 6 → K))
    (cos sin : K → K) (rotationOf : Matrix (Fin 3) (Fin 3) K → Matrix (Fin 3) (Fin 3) K)
    (a : CombinedArgs K 3 V W) (tform : Transform K 3) : (Fin 6 → K) × Transform K 3 :=
  let sys := rigidSystem3D a tform
  let d_theta := solve sys.1 sys.2
  (d_theta, update3D cos sin rotationOf tform d_theta)

/-- The 3D rigid combined-metric estimator together with the final value of
the loop counter `iter`. -/
def estimateTransformCombinedMetric3DTrace
    (solve : Matrix (Fin 6) (Fin 6) K → (Fin 6 → K) → (Fin 6 → K))
    (cos sin : K → K) (rotationOf : Matrix (Fin 3) (Fin 3) K → Matrix (Fin 3) (Fin 3) K)
    (a : CombinedArgs K 3 V W) (tform : Transform K 3) : Bool × Transform K 3 × ℕ :=
  let tform0 := tform.setIdentity
  if preconditionViolated a then (false, tform0, 0)
  else gaussNewtonLoop (iterStep3D solve cos sin rotationOf a) a.convergence_tol
    a.max_iter 0 tform0

/-- The 3D rigid combined-metric estimator, `estimateTransformCombinedMetric`
for `Mode == Isometry`, `Dim == 3`. -/
def estimateTransformCombinedMetric3D
    (solve : Matrix (Fin 6) (Fin 6) K → (Fin 6 → K) → (Fin 6 → K))
    (cos sin : K → K) (rotationOf : Matrix (Fin 3) (Fin 3) K → Matrix (Fin 3) (Fin 3) K)
    (a : CombinedArgs K 3 V W) (tform : Transform K 3) : Bool × Transform K 3 :=
  let res := estimateTransformCombinedMetric3DTrace solve cos sin rotationOf a tform
  (res.1, res.2.1)

/-! ## Affine combined-metric estimator (lines 332-420) -/

/-- One pass of the point-to-point loop body (lines 376-387). -/
def pointStepAffine (a : CombinedArgs K D V W)
    (acc : Matrix (Fin (NumUnknowns D)) (Fin (NumUnknowns D)) K × (Fin (NumUnknowns D) → K))
    (corr : Correspondence V) :
    Matrix (Fin (NumUnknowns D)) (Fin (NumUnknowns D)) K × (Fin (NumUnknowns D) → K) :=
  let weight := a.point_to_point_weight *
    a.point_corr_evaluator corr.indexInFirst corr.indexInSecond corr.value
  let eq_vecs := affineEqVecs (a.src_p.col corr.indexInSecond)
  (acc.1 + (weight • eq_vecs) * eq_vecsᵀ,
    acc.2 + eq_vecs.mulVec (weight • a.dst_p.col corr.indexInFirst))

/-- The design vector `eq_vec` of lines 400-403 for the normal `n` and the
source point `s`: entry `j*D + k` is `n[j]*s[k]`, the last `D` entries are
`n`. -/
def affineEqVec (n s : Fin D → K) : Fin (NumUnknowns D) → K :=
  fun r =>
    if h : r.val < D * D then
      n ⟨r.val / D, Nat.div_lt_of_lt_mul h⟩ *
        s ⟨r.val % D, Nat.mod_lt _ (Nat.pos_of_ne_zero (by rintro rfl; simp at h))⟩
    else
      n ⟨r.val - D * D, by
        have hr : r.val < D * D + D := r.isLt
        omega⟩

/-- One pass of the point-to-plane loop body (lines 396-409). -/
def planeStepAffine (a : CombinedArgs K D V W)
    (acc : Matrix (Fin (NumUnknowns D)) (Fin (NumUnknowns D)) K × (Fin (NumUnknowns D) → K))
    (corr : Correspondence W) :
    Matrix (Fin (NumUnknowns D)) (Fin (NumUnknowns D)) K × (Fin (NumUnknowns D) → K) :=
  let n := a.dst_n.col corr.indexInFirst
  let weight := a.point_to_plane_weight *
    a.plane_corr_evaluator corr.indexInFirst corr.indexInSecond corr.value
  let eq_vec := affineEqVec n (a.src_p.col corr.indexInSecond)
  (acc.1 + vecMulVec (weight • eq_vec) eq_vec,
    acc.2 + (weight * (n ⬝ᵥ a.dst_p.col corr.indexInFirst)) • eq_vec)

/-- The system `(AtA, Atb)` accumulated at lines 364-412. -/
def affineSystem (a : CombinedArgs K D V W) :
    Matrix (Fin (NumUnknowns D)) (Fin (NumUnknowns D)) K × (Fin (NumUnknowns D) → K) :=
  let acc0 : Matrix (Fin (NumUnknowns D)) (Fin (NumUnknowns D)) K ×
    (Fin (NumUnknowns D) → K) := (0, 0)
  let acc1 := if has_point_to_point_terms a then
    a.point_to_point_correspondences.foldl (pointStepAffine a) acc0 else acc0
  if has_point_to_plane_terms a then
    a.point_to_plane_correspondences.foldl (planeStepAffine a) acc1 else acc1

/-- The number compared with `Dim + 1` at line 419: each flag, converted to
an integer, times the size of its correspondence set. Both sizes are sizes of
`std::vector`s of 24-byte elements at least, so the `size_t` sum does not
wrap. -/
def activeCorrespondenceCount (a : CombinedArgs K D V W) : ℕ :=
  (has_point_to_point_terms a).toNat * a.point_to_point_correspondences.length +
    (has_point_to_plane_terms a).toNat * a.point_to_plane_correspondences.length

/-- The affine combined-metric estimator, `estimateTransformCombinedMetric`
for `Mode == Affine`. The arguments `max_iter` and `convergence_tol` are
unnamed in the source and not read. -/
def estimateTransformCombinedMetricAffine
    (solve : Matrix (Fin (NumUnknowns D)) (Fin (NumUnknowns D)) K →
      (Fin (NumUnknowns D) → K) → (Fin (NumUnknowns D) → K))
    (a : CombinedArgs K D V W) (tform : Transform K D) : Bool × Transform K D :=
  if preconditionViolated a then
    (false, tform.setIdentity)
  else
    let sys := affineSystem a
    let theta := solve sys.1 sys.2
    (decide (D + 1 ≤ activeCorrespondenceCount a), unpackAffine theta tform)

/-! ## Concrete inputs used in the evaluations -/

/-- Modelled from the spec: the default weight evaluator
`UnityWeightEvaluator` of `common_pair_evaluators.hpp`, which is not among the
sources: "Default: constant weight 1". -/
def UnityWeightEvaluator {U : Type} : ℕ → ℕ → U → K := fun _ _ _ => 1

/-- Four points of the plane with centroid at the origin. -/
def examplePoints : VectorSet ℚ 2 := [![1, 0], ![-1, 0], ![0, 1], ![0, -1]]

/-- The points `examplePoints` mirrored in the first axis. -/
def exampleMirrored : VectorSet ℚ 2 := [![1, 0], ![-1, 0], ![0, -1], ![0, 1]]

/-- One unit normal for each point of `examplePoints`. -/
def exampleNormals : VectorSet ℚ 2 := [![1, 0], ![1, 0], ![0, 1], ![0, 1]]

/-- The correspondence `0 ↔ 0` with value `1`. -/
def exampleFirstCorr : Correspondence ℚ := ⟨0, 0, 1⟩

/-- The identity correspondence `i ↔ i` on four points. -/
def exampleIdentityCorr : CorrespondenceSet ℚ :=
  [⟨0, 0, 1⟩, ⟨1, 1, 1⟩, ⟨2, 2, 1⟩, ⟨3, 3, 1⟩]

/-- A 2D input with `examplePoints` as destination and source, the identity
correspondence for the point-to-point terms and one point-to-plane term. -/
def exampleArgs2D : CombinedArgs ℚ 2 ℚ ℚ :=
  { dst_p := examplePoints, dst_n := exampleNormals, src_p := examplePoints
    point_to_point_correspondences := exampleIdentityCorr
    point_to_point_weight := 1
    point_to_plane_correspondences := [⟨0, 0, 1⟩]
    point_to_plane_weight := 1
    max_iter := 1
    convergence_tol := 1 / 100000
    point_corr_evaluator := UnityWeightEvaluator
    plane_corr_evaluator := UnityWeightEvaluator }

/-- The input `exampleArgs2D` without normals and with the point-to-plane
weight set to zero: the counts of points and normals differ while the
point-to-plane terms are inactive. -/
def exampleArgsMismatch : CombinedArgs ℚ 2 ℚ ℚ :=
  { exampleArgs2D with dst_n := [], point_to_plane_weight := 0 }

/-- The input `exampleArgs2D` with two point-to-point correspondences and
five point-to-plane correspondences of global weight zero. -/
def exampleArgsInactivePlane : CombinedArgs ℚ 2 ℚ ℚ :=
  { exampleArgs2D with
    point_to_point_correspondences := [⟨0, 0, 1⟩, ⟨1, 1, 1⟩]
    point_to_plane_correspondences := [⟨0, 0, 1⟩, ⟨1, 1, 1⟩, ⟨2, 2, 1⟩, ⟨3, 3, 1⟩, ⟨0, 0, 2⟩]
    point_to_plane_weight := 0 }

/-- The input `exampleArgs2D` with a point-to-point set that holds the same
correspondence twice and no point-to-plane correspondence. -/
def exampleArgsRepeated : CombinedArgs ℚ 2 ℚ ℚ :=
  { exampleArgs2D with
    point_to_point_correspondences := [⟨0, 0, 1⟩, ⟨0, 0, 1⟩]
    point_to_plane_correspondences := [] }

/-- Four points of space. -/
def examplePoints3D : VectorSet ℚ 3 := [![1, 0, 0], ![0, 1, 0], ![0, 0, 1], ![0, 0, 0]]

/-- A 3D input with `examplePoints3D` as destination and source and the
identity correspondence. -/
def exampleArgs3D : CombinedArgs ℚ 3 ℚ ℚ :=
  { dst_p := examplePoints3D
    dst_n := [![1, 0, 0], ![0, 1, 0], ![0, 0, 1], ![0, 0, 1]]
    src_p := examplePoints3D
    point_to_point_correspondences := exampleIdentityCorr
    point_to_point_weight := 1
    point_to_plane_correspondences := [⟨0, 0, 1⟩]
    point_to_plane_weight := 1
    max_iter := 1
    convergence_tol := 1 / 100000
    point_corr_evaluator := UnityWeightEvaluator
    plane_corr_evaluator := UnityWeightEvaluator }

/-- Two source points of the plane, symmetric about the origin. -/
def exampleSegment : VectorSet ℚ 2 := [![1, 0], ![-1, 0]]

/-- Two equal source points. -/
def exampleCoincident : VectorSet ℚ 2 := [![1, 0], ![1, 0]]

/-- Three points of the plane that are not on a line. -/
def exampleTriangle : VectorSet ℚ 2 := [![0, 0], ![1, 0], ![0, 1]]

/-- Three equal points. -/
def exampleOrigins : VectorSet ℚ 2 := [0, 0, 0]

/-- The rotation of the plane by a quarter turn. -/
def exampleQuarterTurn : Matrix (Fin 2) (Fin 2) ℚ := !![0, -1; 1, 0]

/-- The reflection of the plane that swaps the two axes. -/
def exampleSwap : Matrix (Fin 2) (Fin 2) ℚ := !![0, 1; 1, 0]

/-- The reflection of the plane in the first axis. -/
def exampleMirror : Matrix (Fin 2) (Fin 2) ℚ := !![1, 0; 0, -1]

/-- An invertible linear map of the plane. -/
def exampleLinear : Matrix (Fin 2) (Fin 2) ℚ := !![1, 2; 3, 4]

/-! ## Predicates, design vectors and further concrete inputs -/

/-- A loop `for x in l: acc = step(acc, x)` started at zero accumulates a plain
sum: its result is the sum of the contributions `step 0 x` of the elements, it
is the same for every permutation of the list, and the result over two chunks
put one after the other is the sum of the results over the chunks. -/
def AccumulatesPlainSum {α M : Type} [AddCommMonoid M] (step : M → α → M) : Prop :=
  (∀ l : List α, l.foldl step 0 = (l.map (step 0)).sum) ∧
    (∀ l l2 : List α, l.Perm l2 → l.foldl step 0 = l2.foldl step 0) ∧
    (∀ xs ys : List α, (xs ++ ys).foldl step 0 = xs.foldl step 0 + ys.foldl step 0)

/-- The design matrix `eq_vecs` of the 2D point-to-point terms (lines 148-159)
for the transformed source point `s`. -/
def eqVecs2D (s : Fin 2 → K) : Matrix (Fin 3) (Fin 2) K := !![-s 1, s 0; 1, 0; 0, 1]

/-- The design vector `eq_vec` of the 2D point-to-plane terms (lines 180-182)
for the normal `n` and the transformed source point `s`. -/
def eqVec2D (n s : Fin 2 → K) : Fin 3 → K := ![s 0 * n 1 - s 1 * n 0, n 0, n 1]

/-- The design matrix `eq_vecs` of the 3D point-to-point terms (lines 255-275)
for the transformed source point `s`. -/
def eqVecs3D (s : Fin 3 → K) : Matrix (Fin 6) (Fin 3) K :=
  !![0, -s 2, s 1; s 2, 0, -s 0; -s 1, s 0, 0; 1, 0, 0; 0, 1, 0; 0, 0, 1]

/-- The design vector `eq_vec` of the 3D point-to-plane terms (lines 296-301)
for the normal `n` and the transformed source point `s`. -/
def eqVec3D (n s : Fin 3 → K) : Fin 6 → K :=
  ![n 2 * s 1 - n 1 * s 2, n 0 * s 2 - n 2 * s 0, n 1 * s 0 - n 0 * s 1, n 0, n 1, n 2]

/-- A proper rotation: an orthogonal matrix of determinant `+1`. -/
def IsProperRotation (M : Matrix (Fin D) (Fin D) K) : Prop :=
  M * Mᵀ = 1 ∧ Mᵀ * M = 1 ∧ M.det = 1

/-- The input `exampleArgs2D` with no point-to-point correspondence and the
four point-to-plane correspondences `i ↔ i`. -/
def exampleArgsPlaneOnly : CombinedArgs ℚ 2 ℚ ℚ :=
  { exampleArgs2D with
    point_to_point_correspondences := []
    point_to_plane_correspondences := exampleIdentityCorr }

/-- The transform applied to every point of a set, `tform * ps`. -/
def transformPoints (tform : Transform K D) (ps : VectorSet K D) : VectorSet K D :=
  ps.map tform.apply

/-- The points of `examplePoints` after the quarter turn and the translation
`(1, 2)`. -/
def exampleTurned : VectorSet ℚ 2 :=
  examplePoints.map (fun s => exampleQuarterTurn.mulVec s + ![1, 2])

/-- Exact alignment under the transform `T`: every correspondence of an active
point-to-point term has `d = T·s`, and every correspondence of an active
point-to-plane term has `n·(d - T·s) = 0`, where `d`, `n` are the destination
point and normal at `indexInFirst` and `s` is the source point at
`indexInSecond`. -/
def ExactlyAligned (a : CombinedArgs K D V W) (T : Transform K D) : Prop :=
  (has_point_to_point_terms a = true → ∀ c ∈ a.point_to_point_correspondences,
    a.dst_p.col c.indexInFirst = T.apply (a.src_p.col c.indexInSecond)) ∧
  (has_point_to_plane_terms a = true → ∀ c ∈ a.point_to_plane_correspondences,
    a.dst_n.col c.indexInFirst ⬝ᵥ
      (a.dst_p.col c.indexInFirst - T.apply (a.src_p.col c.indexInSecond)) = 0)

/-- The input `exampleArgs2D` with the destination points turned by a quarter
and moved by `(1, 2)`. -/
def exampleArgsTurned : CombinedArgs ℚ 2 ℚ ℚ :=
  { exampleArgs2D with dst_p := exampleTurned }

/-- The points of `examplePoints` moved by `(1, 1)`. -/
def exampleShifted : VectorSet ℚ 2 := [![2, 1], ![0, 1], ![1, 2], ![1, 0]]

/-- The points of `exampleShifted` reflected in the first axis and moved by
`(1, 2)`. -/
def exampleShiftedMirrored : VectorSet ℚ 2 := [![3, 1], ![1, 1], ![2, 0], ![2, 2]]

/-! # Theorems -/

set_option linter.unusedSectionVars false

/-! ## Auxiliary lemmas -/

theorem has_point_to_point_terms_iff {E : ℕ} (b : CombinedArgs K E V W) :
    has_point_to_point_terms b = true ↔
      b.point_to_point_correspondences ≠ [] ∧ 0 < b.point_to_point_weight := by
  simp [has_point_to_point_terms, List.isEmpty_iff]

theorem has_point_to_plane_terms_iff {E : ℕ} (b : CombinedArgs K E V W) :
    has_point_to_plane_terms b = true ↔
      b.point_to_plane_correspondences ≠ [] ∧ 0 < b.point_to_plane_weight := by
  simp [has_point_to_plane_terms, List.isEmpty_iff]

theorem preconditionViolated_iff {E : ℕ} (b : CombinedArgs K E V W) :
    preconditionViolated b = true ↔
      (¬ (b.point_to_point_correspondences ≠ [] ∧ 0 < b.point_to_point_weight) ∧
        ¬ (b.point_to_plane_correspondences ≠ [] ∧ 0 < b.point_to_plane_weight)) ∨
      ((b.point_to_plane_correspondences ≠ [] ∧ 0 < b.point_to_plane_weight) ∧
        b.dst_p.length ≠ b.dst_n.length) := by
  rw [← has_point_to_point_terms_iff, ← has_point_to_plane_terms_iff]
  simp [preconditionViolated]

theorem has_point_to_point_terms_false {E : ℕ} (b : CombinedArgs K E V W)
    (h : ¬ (b.point_to_point_correspondences ≠ [] ∧ 0 < b.point_to_point_weight)) :
    has_point_to_point_terms b = false := by
  cases hh : has_point_to_point_terms b
  · rfl
  · exact absurd ((has_point_to_point_terms_iff b).mp hh) h

theorem has_point_to_plane_terms_false {E : ℕ} (b : CombinedArgs K E V W)
    (h : ¬ (b.point_to_plane_correspondences ≠ [] ∧ 0 < b.point_to_plane_weight)) :
    has_point_to_plane_terms b = false := by
  cases hh : has_point_to_plane_terms b
  · rfl
  · exact absurd ((has_point_to_plane_terms_iff b).mp hh) h

theorem updatesFrom_succ_shift {n : ℕ} (step : Transform K D → (Fin n → K) × Transform K D)
    (tform : Transform K D) (k : ℕ) :
    updatesFrom step tform (k + 1) = updatesFrom step (step tform).2 k := by
  induction k with
  | zero => rfl
  | succ k ih =>
    show (step (updatesFrom step tform (k + 1))).2 = (step (updatesFrom step (step tform).2 k)).2
    rw [ih]

theorem incrementAt_succ_shift {n : ℕ} (step : Transform K D → (Fin n → K) × Transform K D)
    (tform : Transform K D) (k : ℕ) (hk : 1 ≤ k) :
    incrementAt step tform (k + 1) = incrementAt step (step tform).2 k := by
  obtain ⟨m, rfl⟩ : ∃ m, k = m + 1 := ⟨k - 1, by omega⟩
  simp only [incrementAt, Nat.add_sub_cancel]
  rw [updatesFrom_succ_shift]

theorem gaussNewtonLoop_exhausted {n : ℕ}
    (step : Transform K D → (Fin n → K) × Transform K D) (tol : K) :
    ∀ (r iter : ℕ) (tform : Transform K D),
      (∀ k, 1 ≤ k → k ≤ r → normLt (incrementAt step tform k) tol = false) →
      gaussNewtonLoop step tol r iter tform = (false, updatesFrom step tform r, iter + r) := by
  intro r
  induction r with
  | zero => intro iter tform _; rfl
  | succ r ih =>
    intro iter tform h
    have h1 : normLt (step tform).1 tol = false := h 1 le_rfl (by omega)
    have hrec : ∀ k, 1 ≤ k → k ≤ r → normLt (incrementAt step (step tform).2 k) tol = false := by
      intro k hk1 hkr
      rw [← incrementAt_succ_shift step tform k hk1]
      exact h (k + 1) (by omega) (by omega)
    simp only [gaussNewtonLoop, h1, Bool.false_eq_true, if_false]
    rw [ih (iter + 1) (step tform).2 hrec, updatesFrom_succ_shift]
    congr 2
    omega

theorem gaussNewtonLoop_converged {n : ℕ}
    (step : Transform K D → (Fin n → K) × Transform K D) (tol : K) :
    ∀ (r iter : ℕ) (tform : Transform K D) (k : ℕ), 1 ≤ k → k ≤ r →
      normLt (incrementAt step tform k) tol = true →
      (∀ j, 1 ≤ j → j < k → normLt (incrementAt step tform j) tol = false) →
      gaussNewtonLoop step tol r iter tform = (true, updatesFrom step tform k, iter + k) := by
  intro r
  induction r with
  | zero => intro iter tform k hk1 hk0; omega
  | succ r ih =>
    intro iter tform k hk1 hkr hk hbefore
    by_cases h1 : k = 1
    · subst h1
      have : normLt (step tform).1 tol = true := hk
      simp only [gaussNewtonLoop, this, if_true]
      rfl
    · obtain ⟨m, rfl⟩ : ∃ m, k = m + 1 := ⟨k - 1, by omega⟩
      have hm1 : 1 ≤ m := by omega
      have h1f : normLt (step tform).1 tol = false := hbefore 1 le_rfl (by omega)
      simp only [gaussNewtonLoop, h1f, Bool.false_eq_true, if_false]
      rw [ih (iter + 1) (step tform).2 m hm1 (by omega)
        (by rw [← incrementAt_succ_shift step tform m hm1]; exact hk)
        (by
          intro j hj1 hjm
          rw [← incrementAt_succ_shift step tform j hj1]
          exact hbefore (j + 1) (by omega) (by omega)),
        updatesFrom_succ_shift]
      congr 2
      omega

theorem gaussNewtonLoop_flag_iff {n : ℕ}
    (step : Transform K D → (Fin n → K) × Transform K D) (tol : K)
    (r iter : ℕ) (tform : Transform K D) :
    (gaussNewtonLoop step tol r iter tform).1 = true ↔
      ∃ k, 1 ≤ k ∧ k ≤ r ∧ normLt (incrementAt step tform k) tol = true := by
  classical
  constructor
  · intro h
    by_contra hne
    have hall : ∀ k, 1 ≤ k → k ≤ r → normLt (incrementAt step tform k) tol = false := by
      intro k hk1 hkr
      cases hv : normLt (incrementAt step tform k) tol
      · rfl
      · exact absurd ⟨k, hk1, hkr, hv⟩ hne
    rw [gaussNewtonLoop_exhausted step tol r iter tform hall] at h
    exact Bool.false_ne_true h
  · intro hex
    have hspec := Nat.find_spec hex
    have hmin : ∀ j, 1 ≤ j → j < Nat.find hex →
        normLt (incrementAt step tform j) tol = false := by
      intro j hj1 hj
      cases hv : normLt (incrementAt step tform j) tol
      · rfl
      · exact absurd ⟨hj1, by omega, hv⟩ (Nat.find_min hex hj)
    rw [gaussNewtonLoop_converged step tol r iter tform (Nat.find hex) hspec.1 hspec.2.1
      hspec.2.2 hmin]

theorem gaussNewtonLoop_iter_le {n : ℕ}
    (step : Transform K D → (Fin n → K) × Transform K D) (tol : K) :
    ∀ (r iter : ℕ) (tform : Transform K D),
      (gaussNewtonLoop step tol r iter tform).2.2 ≤ iter + r := by
  intro r
  induction r with
  | zero => intro iter tform; exact le_rfl
  | succ r ih =>
    intro iter tform
    simp only [gaussNewtonLoop]
    split
    · show iter + 1 ≤ iter + (r + 1)
      omega
    · have := ih (iter + 1) (step tform).2
      omega

/-- The diagonal of the matrix that negates column `c`. -/
theorem negateCol_eq_mul_diagonal (U : Matrix (Fin D) (Fin D) K) (c : ℕ) :
    negateCol U c = U * diagonal (fun j : Fin D => if j.val = c then (-1 : K) else 1) := by
  ext i j
  simp only [negateCol, mul_diagonal]
  split <;> simp

theorem prod_flip_eq_neg_one (hD : 0 < D) :
    (∏ j : Fin D, (if j.val = D - 1 then (-1 : K) else 1)) = -1 := by
  have hl : D - 1 < D := by omega
  have : ∀ j : Fin D, (if j.val = D - 1 then (-1 : K) else 1)
      = if j = (⟨D - 1, hl⟩ : Fin D) then (-1 : K) else 1 := by
    intro j
    have : (j.val = D - 1) ↔ j = (⟨D - 1, hl⟩ : Fin D) := by
      constructor
      · intro h; exact Fin.ext h
      · intro h; rw [h]
    simp only [this]
  simp only [this]
  rw [Finset.prod_ite_eq' Finset.univ (⟨D - 1, hl⟩ : Fin D) (fun _ => (-1 : K))]
  simp

theorem det_negateCol_last (U : Matrix (Fin D) (Fin D) K) (hD : 0 < D) :
    (negateCol U (D - 1)).det = - U.det := by
  rw [negateCol_eq_mul_diagonal, det_mul, det_diagonal, prod_flip_eq_neg_one hD]
  ring

theorem det_sq_of_orthogonal (U : Matrix (Fin D) (Fin D) K) (hU : U * Uᵀ = 1) :
    U.det * U.det = 1 := by
  have := congrArg Matrix.det hU
  rwa [det_mul, det_transpose, det_one] at this

theorem det_eq_one_or_neg_one (U : Matrix (Fin D) (Fin D) K) (hU : U * Uᵀ = 1) :
    U.det = 1 ∨ U.det = -1 := by
  have h := det_sq_of_orthogonal U hU
  have : (U.det - 1) * (U.det + 1) = 0 := by ring_nf; rw [← sub_eq_zero] at h; ring_nf at h; linarith
  rcases mul_eq_zero.mp this with h1 | h1
  · left; linarith
  · right; linarith

theorem transpose_mul_self_of_orthogonal (U : Matrix (Fin D) (Fin D) K) (hU : U * Uᵀ = 1) :
    Uᵀ * U = 1 :=
  mul_eq_one_comm.mp hU

theorem negateCol_orthogonal (U : Matrix (Fin D) (Fin D) K) (c : ℕ) (hU : U * Uᵀ = 1) :
    negateCol U c * (negateCol U c)ᵀ = 1 := by
  rw [negateCol_eq_mul_diagonal, transpose_mul, diagonal_transpose, Matrix.mul_assoc,
    ← Matrix.mul_assoc (diagonal _), diagonal_mul_diagonal]
  have : (fun i : Fin D => (if i.val = c then (-1 : K) else 1) * (if i.val = c then (-1 : K) else 1))
      = fun _ => 1 := by
    funext i
    split <;> simp
  rw [this, diagonal_one, Matrix.one_mul, hU]

theorem mul_transpose_orthogonal (U V : Matrix (Fin D) (Fin D) K)
    (hU : U * Uᵀ = 1) (hV : V * Vᵀ = 1) : (U * Vᵀ) * (U * Vᵀ)ᵀ = 1 := by
  rw [transpose_mul, transpose_transpose, Matrix.mul_assoc, ← Matrix.mul_assoc Vᵀ,
    transpose_mul_self_of_orthogonal V hV, Matrix.one_mul, hU]

theorem det_zero_dim (M : Matrix (Fin 0) (Fin 0) K) : M.det = 1 := det_isEmpty

theorem rigidLinear_one : rigidLinear (1 : Matrix (Fin D) (Fin D) K) 1 = 1 := by
  have h : ¬ ((1 : Matrix (Fin D) (Fin D) K) * 1).det < 0 := by
    rw [Matrix.mul_one, det_one]
    exact not_lt.mpr zero_le_one
  rw [rigidLinear, if_neg h, transpose_one, Matrix.mul_one]

theorem rigidLinear_orthogonal (U V : Matrix (Fin D) (Fin D) K)
    (hU : U * Uᵀ = 1) (hV : V * Vᵀ = 1) :
    rigidLinear U V * (rigidLinear U V)ᵀ = 1 := by
  unfold rigidLinear
  split
  · exact mul_transpose_orthogonal _ V (negateCol_orthogonal U _ hU) hV
  · exact mul_transpose_orthogonal U V hU hV

theorem rigidLinear_det (U V : Matrix (Fin D) (Fin D) K)
    (hU : U * Uᵀ = 1) (hV : V * Vᵀ = 1) :
    (rigidLinear U V).det = 1 := by
  unfold rigidLinear
  split
  · rename_i hneg
    have hD : 0 < D := by
      rcases Nat.eq_zero_or_pos D with h0 | h0
      · subst h0
        rw [det_zero_dim] at hneg
        exact absurd hneg (by norm_num)
      · exact h0
    rw [det_mul, det_transpose, det_negateCol_last U hD]
    rw [det_mul] at hneg
    rcases det_eq_one_or_neg_one U hU with h1 | h1 <;>
      rcases det_eq_one_or_neg_one V hV with h2 | h2 <;>
      rw [h1, h2] at hneg ⊢ <;> norm_num at hneg ⊢
  · rename_i hneg
    rw [det_mul, det_transpose]
    rw [det_mul] at hneg
    rcases det_eq_one_or_neg_one U hU with h1 | h1 <;>
      rcases det_eq_one_or_neg_one V hV with h2 | h2 <;>
      rw [h1, h2] at hneg ⊢ <;> norm_num at hneg ⊢

/-- A symmetric positive-semidefinite matrix whose square is the square of a
non-negative diagonal matrix is that diagonal matrix. -/
theorem psd_sqrt_diagonal_unique (P : Matrix (Fin D) (Fin D) K) (S : Fin D → K)
    (hS : ∀ i, 0 ≤ S i) (hsym : Pᵀ = P) (hpsd : ∀ x : Fin D → K, 0 ≤ x ⬝ᵥ P.mulVec x)
    (hsq : P * P = diagonal (fun i => S i * S i)) : P = diagonal S := by
  -- P commutes with the squared diagonal, hence with the diagonal
  have hc2 : P * diagonal (fun i => S i * S i) = diagonal (fun i => S i * S i) * P := by
    rw [← hsq, Matrix.mul_assoc]
  have hc : ∀ i j, P i j * S j = S i * P i j := by
    intro i j
    have h := congrFun (congrFun hc2 i) j
    rw [mul_diagonal, diagonal_mul] at h
    by_cases h0 : P i j = 0
    · rw [h0]; ring
    · have h1 : S j * S j = S i * S i := by
        have : P i j * (S j * S j - S i * S i) = 0 := by linear_combination h
        rcases mul_eq_zero.mp this with h2 | h2
        · exact absurd h2 h0
        · linarith
      have : S j = S i := (mul_self_inj (hS j) (hS i)).mp h1
      rw [this]; ring
  have hPS : P * diagonal S = diagonal S * P := by
    ext i j
    rw [mul_diagonal, diagonal_mul]
    exact hc i j
  have hSS : diagonal S * diagonal S = P * P := by
    rw [hsq, diagonal_mul_diagonal]
  -- with A = P - diag S, (P + diag S) * A = 0
  have hprod : (P + diagonal S) * (P - diagonal S) = 0 := by
    rw [Matrix.add_mul, Matrix.mul_sub, Matrix.mul_sub, hSS, hPS]
    abel
  -- each column a of A satisfies S_i * a_i = 0
  have hSA : ∀ i j, S i * (P - diagonal S) i j = 0 := by
    intro i j
    set a : Fin D → K := fun k => (P - diagonal S) k j with ha
    have hz : (P + diagonal S).mulVec a = 0 := by
      funext k
      have := congrFun (congrFun hprod k) j
      simpa [Matrix.mul_apply, Matrix.mulVec, dotProduct, ha] using this
    have hsum : a ⬝ᵥ P.mulVec a + a ⬝ᵥ (diagonal S).mulVec a = 0 := by
      rw [← dotProduct_add, ← Matrix.add_mulVec, hz, dotProduct_zero]
    have hd : a ⬝ᵥ (diagonal S).mulVec a = ∑ k, S k * (a k * a k) := by
      simp only [dotProduct, mulVec_diagonal]
      refine Finset.sum_congr rfl (fun k _ => ?_)
      ring
    have hnn : ∀ k ∈ Finset.univ, 0 ≤ S k * (a k * a k) :=
      fun k _ => mul_nonneg (hS k) (mul_self_nonneg _)
    have hdz : ∑ k, S k * (a k * a k) = 0 := by
      have h1 := hpsd a
      have h2 : 0 ≤ ∑ k, S k * (a k * a k) := Finset.sum_nonneg hnn
      rw [hd] at hsum
      linarith
    have hi := (Finset.sum_eq_zero_iff_of_nonneg hnn).mp hdz i (Finset.mem_univ i)
    rcases mul_eq_zero.mp hi with h | h
    · rw [h, zero_mul]
    · have : a i = 0 := mul_self_eq_zero.mp h
      show S i * a i = 0
      rw [this, mul_zero]
  have hDA : diagonal S * (P - diagonal S) = 0 := by
    ext i j
    rw [diagonal_mul]
    exact hSA i j
  have hPA : P * (P - diagonal S) = 0 := by
    have : P * (P - diagonal S) = (P + diagonal S) * (P - diagonal S)
        - diagonal S * (P - diagonal S) := by
      rw [Matrix.add_mul]; abel
    rw [this, hprod, hDA, sub_zero]
  have hAA : (P - diagonal S)ᵀ * (P - diagonal S) = 0 := by
    rw [transpose_sub, hsym, diagonal_transpose, Matrix.sub_mul, hPA, hDA, sub_zero]
  have hA : P - diagonal S = 0 := by
    ext i j
    have h := congrFun (congrFun hAA j) j
    simp only [Matrix.mul_apply, transpose_apply, zero_apply] at h
    have hnn : ∀ k ∈ Finset.univ, 0 ≤ (P - diagonal S) k j * (P - diagonal S) k j :=
      fun k _ => mul_self_nonneg _
    have := (Finset.sum_eq_zero_iff_of_nonneg hnn).mp h i (Finset.mem_univ i)
    exact mul_self_eq_zero.mp this
  exact sub_eq_zero.mp hA

/-- An orthogonal matrix `Q` with `Qᵀ * diag S = diag S`, where only the
last entry of `S` may vanish, is diagonal with entries `1` except possibly
the last one, whose square is `1`. -/
theorem orthogonal_fixing_diagonal (Q : Matrix (Fin D) (Fin D) K) (S : Fin D → K)
    (hQ : Q * Qᵀ = 1) (hSpos : ∀ i : Fin D, i.val + 1 < D → 0 < S i)
    (hfix : Qᵀ * diagonal S = diagonal S) :
    Q = diagonal (fun i => Q i i) ∧ (∀ i : Fin D, i.val + 1 < D → Q i i = 1) ∧
      (∀ i : Fin D, Q i i * Q i i = 1) := by
  have hQ' : Qᵀ * Q = 1 := transpose_mul_self_of_orthogonal Q hQ
  -- rows with positive S are unit vectors
  have hrow : ∀ j : Fin D, j.val + 1 < D → ∀ i, Q j i = if i = j then 1 else 0 := by
    intro j hj i
    have h := congrFun (congrFun hfix i) j
    rw [mul_diagonal, transpose_apply, diagonal_apply] at h
    have hpos := hSpos j hj
    split
    · rename_i hij
      rw [if_pos hij] at h
      subst hij
      exact mul_right_cancel₀ (ne_of_gt hpos) (by rw [h, one_mul])
    · rename_i hij
      rw [if_neg hij] at h
      rcases mul_eq_zero.mp h with h1 | h1
      · exact h1
      · exact absurd h1 (ne_of_gt hpos)
  have hoff : ∀ i j : Fin D, i ≠ j → Q i j = 0 := by
    intro i j hij
    by_cases hi : i.val + 1 < D
    · rw [hrow i hi j, if_neg (Ne.symm hij)]
    · -- i is the last index, so j is not
      have hj : j.val + 1 < D := by
        have h1 := i.isLt
        have h2 := j.isLt
        have h3 : i.val ≠ j.val := fun h => hij (Fin.ext h)
        omega
      have hcol := congrFun (congrFun hQ' j) j
      simp only [Matrix.mul_apply, transpose_apply, one_apply_eq] at hcol
      have hjj : Q j j = 1 := by rw [hrow j hj j, if_pos rfl]
      have hnn : ∀ k ∈ Finset.univ, 0 ≤ Q k j * Q k j := fun k _ => mul_self_nonneg _
      have hsplit := Finset.add_sum_erase Finset.univ (fun k => Q k j * Q k j)
        (Finset.mem_univ j)
      simp only at hsplit
      rw [hcol, hjj] at hsplit
      have hrest : ∑ k ∈ Finset.univ.erase j, Q k j * Q k j = 0 := by linarith
      have hnn' : ∀ k ∈ Finset.univ.erase j, 0 ≤ Q k j * Q k j := fun k _ => mul_self_nonneg _
      have := (Finset.sum_eq_zero_iff_of_nonneg hnn').mp hrest i
        (Finset.mem_erase.mpr ⟨hij, Finset.mem_univ i⟩)
      exact mul_self_eq_zero.mp this
  have hdiag : Q = diagonal (fun i => Q i i) := by
    ext i j
    by_cases hij : i = j
    · subst hij; rw [diagonal_apply_eq]
    · rw [diagonal_apply_ne _ hij, hoff i j hij]
  refine ⟨hdiag, ?_, ?_⟩
  · intro i hi
    rw [hrow i hi i, if_pos rfl]
  · intro i
    have h := congrFun (congrFun hQ i) i
    simp only [Matrix.mul_apply, transpose_apply, one_apply_eq] at h
    rw [Finset.sum_eq_single i] at h
    · exact h
    · intro k _ hki
      rw [hoff i k (Ne.symm hki), zero_mul]
    · intro hni
      exact absurd (Finset.mem_univ i) hni

/-- The core of the orthogonal Procrustes argument: when the cross-covariance
is `R * C` for a proper rotation `R` and a symmetric positive-semidefinite `C`,
and `U`, `S`, `V` is a singular value decomposition of it in which only the
last singular value may vanish, lines 32-38 produce `R`. -/
theorem rigidLinear_recovers (R C U V : Matrix (Fin D) (Fin D) K) (S : Fin D → K)
    (hR : R * Rᵀ = 1) (hdetR : R.det = 1) (hU : U * Uᵀ = 1) (hV : V * Vᵀ = 1)
    (hCsym : Cᵀ = C) (hCpsd : ∀ x : Fin D → K, 0 ≤ x ⬝ᵥ C.mulVec x)
    (hS0 : ∀ i, 0 ≤ S i) (hSpos : ∀ i : Fin D, i.val + 1 < D → 0 < S i)
    (hsvd : R * C = U * diagonal S * Vᵀ) :
    rigidLinear U V = R := by
  have hR' : Rᵀ * R = 1 := transpose_mul_self_of_orthogonal R hR
  have hU' : Uᵀ * U = 1 := transpose_mul_self_of_orthogonal U hU
  have hV' : Vᵀ * V = 1 := transpose_mul_self_of_orthogonal V hV
  set Q : Matrix (Fin D) (Fin D) K := Uᵀ * R * V with hQdef
  have hQ : Q * Qᵀ = 1 := by
    rw [hQdef, transpose_mul, transpose_mul, transpose_transpose]
    calc Uᵀ * R * V * (Vᵀ * (Rᵀ * U)) = Uᵀ * (R * ((V * Vᵀ) * Rᵀ)) * U := by
          simp only [Matrix.mul_assoc]
      _ = 1 := by rw [hV, Matrix.one_mul, hR, Matrix.mul_one, hU']
  -- C = Rᵀ * U * diag S * Vᵀ
  have hC : C = Rᵀ * (U * diagonal S * Vᵀ) := by
    rw [← hsvd, ← Matrix.mul_assoc, hR', Matrix.one_mul]
  have hP : Vᵀ * C * V = Qᵀ * diagonal S := by
    rw [hC, hQdef, transpose_mul, transpose_mul, transpose_transpose]
    calc Vᵀ * (Rᵀ * (U * diagonal S * Vᵀ)) * V
        = Vᵀ * (Rᵀ * U) * diagonal S * (Vᵀ * V) := by simp only [Matrix.mul_assoc]
      _ = Vᵀ * (Rᵀ * U) * diagonal S := by rw [hV', Matrix.mul_one]
  have hPsym : (Qᵀ * diagonal S)ᵀ = Qᵀ * diagonal S := by
    rw [← hP, transpose_mul, transpose_mul, transpose_transpose, hCsym, Matrix.mul_assoc]
  have hPpsd : ∀ x : Fin D → K, 0 ≤ x ⬝ᵥ (Qᵀ * diagonal S).mulVec x := by
    intro x
    rw [← hP]
    have : x ⬝ᵥ (Vᵀ * C * V).mulVec x = (V.mulVec x) ⬝ᵥ C.mulVec (V.mulVec x) := by
      rw [← mulVec_mulVec, ← mulVec_mulVec, dotProduct_mulVec, vecMul_transpose]
    rw [this]
    exact hCpsd _
  have hPsq : (Qᵀ * diagonal S) * (Qᵀ * diagonal S) = diagonal (fun i => S i * S i) := by
    nth_rewrite 1 [← hPsym]
    rw [transpose_mul, transpose_transpose, diagonal_transpose]
    calc diagonal S * Q * (Qᵀ * diagonal S) = diagonal S * (Q * Qᵀ) * diagonal S := by
          simp only [Matrix.mul_assoc]
      _ = diagonal (fun i => S i * S i) := by
          rw [hQ, Matrix.mul_one, diagonal_mul_diagonal]
  have hfix : Qᵀ * diagonal S = diagonal S :=
    psd_sqrt_diagonal_unique _ S hS0 hPsym hPpsd hPsq
  obtain ⟨hdiag, hone, hsq⟩ := orthogonal_fixing_diagonal Q S hQ hSpos hfix
  have hRUQV : R = U * Q * Vᵀ := by
    rw [hQdef]
    calc R = (U * Uᵀ) * R * (V * Vᵀ) := by rw [hU, hV, Matrix.one_mul, Matrix.mul_one]
      _ = U * (Uᵀ * R * V) * Vᵀ := by simp only [Matrix.mul_assoc]
  have hdetQ : Q.det = (U * V).det := by
    rw [hQdef, det_mul, det_mul, det_transpose, hdetR, det_mul, mul_one]
  rcases Nat.eq_zero_or_pos D with h0 | hD
  · subst h0
    exact Subsingleton.elim _ _
  · have hl : D - 1 < D := by omega
    obtain ⟨q, hqdef⟩ : ∃ q : K, q = Q ⟨D - 1, hl⟩ ⟨D - 1, hl⟩ := ⟨_, rfl⟩
    have hq : (fun i : Fin D => Q i i) = fun i : Fin D => if i.val = D - 1 then q else 1 := by
      funext i
      split
      · rename_i h
        have : i = ⟨D - 1, hl⟩ := Fin.ext h
        rw [this, hqdef]
      · rename_i h
        exact hone i (by have := i.isLt; omega)
    have hQq : Q = diagonal (fun i : Fin D => if i.val = D - 1 then q else 1) := by
      rw [← hq]; exact hdiag
    have hdetq : Q.det = q := by
      rw [hQq, det_diagonal]
      have h2 : ∀ i : Fin D, (if i.val = D - 1 then q else 1) =
          if i = (⟨D - 1, hl⟩ : Fin D) then q else 1 := by
        intro i
        have : (i.val = D - 1) ↔ i = (⟨D - 1, hl⟩ : Fin D) :=
          ⟨fun h => Fin.ext h, fun h => by rw [h]⟩
        simp only [this]
      rw [Finset.prod_congr rfl (fun i _ => h2 i),
        Finset.prod_ite_eq' Finset.univ (⟨D - 1, hl⟩ : Fin D) (fun _ => q)]
      simp
    have hlast : q = 1 ∨ q = -1 := by
      have h := hsq ⟨D - 1, hl⟩
      rw [← hqdef] at h
      have : (q - 1) * (q + 1) = 0 := by linear_combination h
      rcases mul_eq_zero.mp this with h1 | h1
      · left; linarith
      · right; linarith
    unfold rigidLinear
    rcases hlast with h1 | h1
    · have hQ1 : Q = 1 := by
        rw [hQq, h1, ← diagonal_one]
        funext i
        simp
      have hnn : ¬ (U * V).det < 0 := by
        rw [← hdetQ, hdetq, h1]; norm_num
      rw [if_neg hnn, hRUQV, hQ1, Matrix.mul_one]
    · have hneg : (U * V).det < 0 := by
        rw [← hdetQ, hdetq, h1]; norm_num
      rw [if_pos hneg, negateCol_eq_mul_diagonal, hRUQV, hQq, h1]

theorem sum_map_affine (A : Matrix (Fin D) (Fin D) K) (t : Fin D → K) (src : VectorSet K D) :
    (src.map (fun s => A.mulVec s + t)).sum = A.mulVec src.sum + (src.length : K) • t := by
  induction src with
  | nil => simp
  | cons s rest ih =>
    rw [List.map_cons, List.sum_cons, ih, List.sum_cons, mulVec_add, List.length_cons]
    push_cast
    rw [add_smul, one_smul]
    abel

theorem rowwiseMean_map_affine (A : Matrix (Fin D) (Fin D) K) (t : Fin D → K)
    (src : VectorSet K D) (hne : src.length ≠ 0) :
    rowwiseMean (src.map (fun s => A.mulVec s + t)) = A.mulVec (rowwiseMean src) + t := by
  have hN : (src.length : K) ≠ 0 := Nat.cast_ne_zero.mpr hne
  have hmean : rowwiseMean src = (src.length : K)⁻¹ • src.sum := by
    funext a
    simp [rowwiseMean, div_eq_inv_mul]
  funext a
  rw [hmean, mulVec_smul]
  simp only [rowwiseMean, List.length_map, sum_map_affine, Pi.add_apply, Pi.smul_apply,
    smul_eq_mul]
  field_simp
  ring

theorem colwiseSub_map_affine (A : Matrix (Fin D) (Fin D) K) (t : Fin D → K)
    (src : VectorSet K D) (mu : Fin D → K) :
    colwiseSub (src.map (fun s => A.mulVec s + t)) (A.mulVec mu + t) =
      (colwiseSub src mu).map (fun c => A.mulVec c) := by
  simp only [colwiseSub, List.map_map]
  refine List.map_congr_left (fun s _ => ?_)
  simp only [Function.comp]
  rw [mulVec_sub]
  abel

theorem mul_vecMulVec_left (A : Matrix (Fin D) (Fin D) K) (c e : Fin D → K) :
    vecMulVec (A.mulVec c) e = A * vecMulVec c e := by
  ext i j
  simp only [vecMulVec_apply, Matrix.mul_apply, mulVec, dotProduct, Finset.sum_mul]
  refine Finset.sum_congr rfl (fun k _ => ?_)
  ring

theorem mulTranspose_map_left (A : Matrix (Fin D) (Fin D) K) (cs es : VectorSet K D) :
    mulTranspose (cs.map (fun c => A.mulVec c)) es = A * mulTranspose cs es := by
  induction cs generalizing es with
  | nil => simp [mulTranspose]
  | cons c rest ih =>
    cases es with
    | nil => simp [mulTranspose]
    | cons e es =>
      have h := ih es
      simp only [mulTranspose] at h ⊢
      rw [List.map_cons, List.zipWith_cons_cons, List.sum_cons, h, List.zipWith_cons_cons,
        List.sum_cons, Matrix.mul_add, mul_vecMulVec_left]

theorem mulTranspose_self_transpose (cs : VectorSet K D) :
    (mulTranspose cs cs)ᵀ = mulTranspose cs cs := by
  induction cs with
  | nil => simp [mulTranspose]
  | cons c rest ih =>
    simp only [mulTranspose] at ih ⊢
    rw [List.zipWith_cons_cons, List.sum_cons, transpose_add, ih]
    congr 1
    ext i j
    simp [vecMulVec_apply, mul_comm]

theorem mulTranspose_self_psd (cs : VectorSet K D) (x : Fin D → K) :
    0 ≤ x ⬝ᵥ (mulTranspose cs cs).mulVec x := by
  induction cs with
  | nil => simp [mulTranspose]
  | cons c rest ih =>
    simp only [mulTranspose] at ih ⊢
    rw [List.zipWith_cons_cons, List.sum_cons, Matrix.add_mulVec, dotProduct_add]
    refine add_nonneg ?_ ih
    have : x ⬝ᵥ (vecMulVec c c).mulVec x = (c ⬝ᵥ x) * (c ⬝ᵥ x) := by
      simp only [mulVec, dotProduct, vecMulVec_apply, Finset.mul_sum, Finset.sum_mul]
      rw [Finset.sum_comm]
      refine Finset.sum_congr rfl (fun i _ => Finset.sum_congr rfl (fun j _ => ?_))
      ring
    rw [this]
    exact mul_self_nonneg _

/-- The covariance `C` of the centred source points. -/
theorem crossCovariance_map_affine (A : Matrix (Fin D) (Fin D) K) (t : Fin D → K)
    (src : VectorSet K D) (hne : src.length ≠ 0) :
    crossCovariance (src.map (fun s => A.mulVec s + t)) src = A * crossCovariance src src := by
  simp only [crossCovariance, List.length_map]
  rw [rowwiseMean_map_affine A t src hne, colwiseSub_map_affine, mulTranspose_map_left,
    Matrix.mul_smul]

theorem crossCovariance_self_transpose (src : VectorSet K D) :
    (crossCovariance src src)ᵀ = crossCovariance src src := by
  simp only [crossCovariance, transpose_smul, mulTranspose_self_transpose]

theorem crossCovariance_self_psd (src : VectorSet K D) (x : Fin D → K) :
    0 ≤ x ⬝ᵥ (crossCovariance src src).mulVec x := by
  simp only [crossCovariance, smul_mulVec_assoc, dotProduct_smul, smul_eq_mul]
  refine mul_nonneg ?_ (mulTranspose_self_psd _ x)
  exact div_nonneg zero_le_one (Nat.cast_nonneg _)

theorem estimateRigid_of_lengths
    (svd : Matrix (Fin D) (Fin D) K → Matrix (Fin D) (Fin D) K × Matrix (Fin D) (Fin D) K)
    (dst src : VectorSet K D) (tform : Transform K D)
    (hlen : src.length = dst.length) (hpos : src.length ≠ 0) :
    estimateTransformPointToPointMetricRigid svd dst src tform =
      (decide (D ≤ src.length),
        { linear := rigidLinear (svd (crossCovariance dst src)).1
            (svd (crossCovariance dst src)).2
          translation := rowwiseMean dst -
            (rigidLinear (svd (crossCovariance dst src)).1
              (svd (crossCovariance dst src)).2).mulVec (rowwiseMean src) }) := by
  have hg : ¬ (src.length ≠ dst.length ∨ src.length = 0) := by
    rintro (h | h)
    · exact h hlen
    · exact hpos h
  simp only [estimateTransformPointToPointMetricRigid, if_neg hg]

theorem linIndex_val_lt (j k : Fin D) : (linIndex j k).val < D * D := by
  have hj := j.isLt
  have hk := k.isLt
  show j.val * D + k.val < D * D
  calc j.val * D + k.val < j.val * D + D := by omega
    _ = (j.val + 1) * D := by ring
    _ ≤ D * D := Nat.mul_le_mul_right D hj

theorem linIndex_div (j k : Fin D) : (linIndex j k).val / D = j.val := by
  have hk := k.isLt
  have hD : 0 < D := Fin.pos k
  show (j.val * D + k.val) / D = j.val
  rw [Nat.add_comm, Nat.add_mul_div_right _ _ hD, Nat.div_eq_of_lt hk, Nat.zero_add]

theorem linIndex_mod (j k : Fin D) : (linIndex j k).val % D = k.val := by
  have hk := k.isLt
  show (j.val * D + k.val) % D = k.val
  rw [Nat.add_comm, Nat.add_mul_mod_self_right, Nat.mod_eq_of_lt hk]

theorem tailIndex_val_not_lt (j : Fin D) : ¬ (tailIndex j).val < D * D := by
  show ¬ (D * D + j.val < D * D)
  omega

theorem tailIndex_sub (j : Fin D) : (tailIndex j).val - D * D = j.val := by
  show D * D + j.val - D * D = j.val
  omega

/-- A sum over the unknowns splits into the `D × D` row-major block and the
last `D` entries. -/
theorem sum_unknowns (f : Fin (NumUnknowns D) → K) :
    ∑ r, f r = ∑ j : Fin D, ∑ k : Fin D, f (linIndex j k) + ∑ j : Fin D, f (tailIndex j) := by
  have h1 : ∑ r : Fin (D * D + D), f r =
      ∑ i : Fin (D * D), f (Fin.castAdd D i) + ∑ i : Fin D, f (Fin.natAdd (D * D) i) :=
    Fin.sum_univ_add f
  have h2 : ∑ i : Fin (D * D), f (Fin.castAdd D i) =
      ∑ p : Fin D × Fin D, f (Fin.castAdd D (finProdFinEquiv p)) :=
    (Equiv.sum_comp finProdFinEquiv (fun i => f (Fin.castAdd D i))).symm
  have h3 : ∀ p : Fin D × Fin D, Fin.castAdd D (finProdFinEquiv p) = linIndex p.1 p.2 := by
    intro p
    apply Fin.ext
    show p.2.val + D * p.1.val = p.1.val * D + p.2.val
    ring
  have h4 : ∀ i : Fin D, Fin.natAdd (D * D) i = tailIndex i := fun i => Fin.ext rfl
  calc ∑ r, f r = ∑ r : Fin (D * D + D), f r := rfl
    _ = ∑ p : Fin D × Fin D, f (linIndex p.1 p.2) + ∑ i : Fin D, f (tailIndex i) := by
        rw [h1, h2]
        simp only [h3, h4]
    _ = _ := by rw [Fintype.sum_prod_type]

theorem affineEqVecs_linIndex (s : Fin D → K) (j k c : Fin D) :
    affineEqVecs s (linIndex j k) c = if j = c then s k else 0 := by
  unfold affineEqVecs
  rw [if_pos (linIndex_val_lt j k)]
  simp only [linIndex_div, linIndex_mod]
  by_cases h : j = c
  · subst h; simp
  · rw [if_neg h, if_neg (fun hv => h (Fin.ext hv))]

theorem affineEqVecs_tailIndex (s : Fin D → K) (j c : Fin D) :
    affineEqVecs s (tailIndex j) c = if j = c then 1 else 0 := by
  unfold affineEqVecs
  rw [if_neg (tailIndex_val_not_lt j)]
  simp only [tailIndex_sub]
  by_cases h : j = c
  · subst h; simp
  · rw [if_neg h, if_neg (fun hv => h (Fin.ext hv))]

theorem affineEqVec_linIndex (n s : Fin D → K) (j k : Fin D) :
    affineEqVec n s (linIndex j k) = n j * s k := by
  unfold affineEqVec
  rw [dif_pos (linIndex_val_lt j k)]
  congr 2 <;> apply Fin.ext
  · exact linIndex_div j k
  · exact linIndex_mod j k

theorem affineEqVec_tailIndex (n s : Fin D → K) (j : Fin D) :
    affineEqVec n s (tailIndex j) = n j := by
  unfold affineEqVec
  rw [dif_neg (tailIndex_val_not_lt j)]
  congr 1
  apply Fin.ext
  exact tailIndex_sub j

theorem packAffine_linIndex (A : Matrix (Fin D) (Fin D) K) (t : Fin D → K) (j k : Fin D) :
    packAffine A t (linIndex j k) = A j k := by
  unfold packAffine
  rw [dif_pos (linIndex_val_lt j k)]
  congr 1 <;> apply Fin.ext
  · exact linIndex_div j k
  · exact linIndex_mod j k

theorem packAffine_tailIndex (A : Matrix (Fin D) (Fin D) K) (t : Fin D → K) (j : Fin D) :
    packAffine A t (tailIndex j) = t j := by
  unfold packAffine
  rw [dif_neg (tailIndex_val_not_lt j)]
  congr 1
  apply Fin.ext
  exact tailIndex_sub j

theorem unpackAffine_packAffine (A : Matrix (Fin D) (Fin D) K) (t : Fin D → K)
    (tform : Transform K D) :
    unpackAffine (packAffine A t) tform = { linear := A, translation := t } := by
  simp only [unpackAffine, packAffine_linIndex, packAffine_tailIndex]

/-- Every index is a `linIndex` or a `tailIndex`. -/
theorem unknown_index_cases (r : Fin (NumUnknowns D)) :
    (∃ j k, r = linIndex j k) ∨ (∃ j, r = tailIndex j) := by
  by_cases h : r.val < D * D
  · left
    have hD : 0 < D := Nat.pos_of_ne_zero (by rintro rfl; simp at h)
    refine ⟨⟨r.val / D, Nat.div_lt_of_lt_mul h⟩, ⟨r.val % D, Nat.mod_lt _ hD⟩, ?_⟩
    apply Fin.ext
    show r.val = r.val / D * D + r.val % D
    rw [Nat.div_add_mod']
  · right
    have hr : r.val < D * D + D := r.isLt
    refine ⟨⟨r.val - D * D, by omega⟩, ?_⟩
    apply Fin.ext
    show r.val = D * D + (r.val - D * D)
    omega

theorem packAffine_unpackAffine (theta : Fin (NumUnknowns D) → K) (tform : Transform K D) :
    packAffine (unpackAffine theta tform).linear (unpackAffine theta tform).translation
      = theta := by
  funext r
  rcases unknown_index_cases r with ⟨j, k, rfl⟩ | ⟨j, rfl⟩
  · rw [packAffine_linIndex]; rfl
  · rw [packAffine_tailIndex]; rfl

/-- The design matrix applied to a parameter vector is the affine map it
encodes, applied to the source point. -/
theorem affineEqVecs_transpose_mulVec (s : Fin D → K) (theta : Fin (NumUnknowns D) → K)
    (tform : Transform K D) :
    (affineEqVecs s)ᵀ.mulVec theta =
      (unpackAffine theta tform).linear.mulVec s + (unpackAffine theta tform).translation := by
  funext c
  simp only [mulVec, dotProduct, transpose_apply, Pi.add_apply, unpackAffine]
  rw [sum_unknowns]
  simp only [affineEqVecs_linIndex, affineEqVecs_tailIndex, ite_mul, zero_mul, one_mul]
  congr 1
  · rw [Finset.sum_eq_single c]
    · simp only [if_true]
      refine Finset.sum_congr rfl (fun k _ => ?_)
      ring
    · intro j _ hj
      simp [hj]
    · intro h; exact absurd (Finset.mem_univ c) h
  · simp

theorem affineEqVec_dotProduct (n s : Fin D → K) (theta : Fin (NumUnknowns D) → K)
    (tform : Transform K D) :
    affineEqVec n s ⬝ᵥ theta =
      n ⬝ᵥ ((unpackAffine theta tform).linear.mulVec s + (unpackAffine theta tform).translation) := by
  simp only [dotProduct, mulVec, Pi.add_apply, unpackAffine]
  rw [sum_unknowns]
  simp only [affineEqVec_linIndex, affineEqVec_tailIndex, mul_add, Finset.sum_add_distrib,
    Finset.mul_sum]
  congr 1
  refine Finset.sum_congr rfl (fun j _ => Finset.sum_congr rfl (fun k _ => ?_))
  ring

/-- A loop that adds one contribution per element accumulates the sum of the
contributions. -/
theorem foldl_add_eq_sum {α M : Type} [AddCommMonoid M] (g : α → M) (step : M → α → M)
    (hstep : ∀ acc x, step acc x = acc + g x) (l : List α) (acc : M) :
    l.foldl step acc = acc + (l.map g).sum := by
  induction l generalizing acc with
  | nil => simp
  | cons x rest ih =>
    rw [List.foldl_cons, ih, hstep, List.map_cons, List.sum_cons, add_assoc]

theorem sum_eq_zero_of_nonneg {α : Type} (f : α → K) (l : List α)
    (hnn : ∀ x ∈ l, 0 ≤ f x) (hsum : (l.map f).sum = 0) : ∀ x ∈ l, f x = 0 := by
  induction l with
  | nil => intro x hx; simp at hx
  | cons y rest ih =>
    rw [List.map_cons, List.sum_cons] at hsum
    have hy : 0 ≤ f y := hnn y (List.mem_cons_self _ _)
    have hrest : 0 ≤ (rest.map f).sum :=
      List.sum_nonneg (by
        intro z hz
        obtain ⟨x, hx, rfl⟩ := List.mem_map.mp hz
        exact hnn x (List.mem_cons_of_mem _ hx))
    intro x hx
    rcases List.mem_cons.mp hx with rfl | hx
    · linarith
    · exact ih (fun z hz => hnn z (List.mem_cons_of_mem _ hz)) (by linarith) x hx

theorem dotProduct_self_eq_zero_iff {n : ℕ} (v : Fin n → K) : v ⬝ᵥ v = 0 ↔ v = 0 := by
  constructor
  · intro h
    funext i
    have hnn : ∀ k ∈ Finset.univ, 0 ≤ v k * v k := fun k _ => mul_self_nonneg _
    exact mul_self_eq_zero.mp
      ((Finset.sum_eq_zero_iff_of_nonneg hnn).mp h i (Finset.mem_univ i))
  · intro h
    rw [h, dotProduct_zero]

/-- The contribution of one pair `(d, s)` to the affine point-to-point
system. -/
theorem affinePointStep_eq (acc : Matrix (Fin (NumUnknowns D)) (Fin (NumUnknowns D)) K ×
      (Fin (NumUnknowns D) → K)) (ds : (Fin D → K) × (Fin D → K)) :
    affinePointStep acc ds =
      acc + (affineEqVecs ds.2 * (affineEqVecs ds.2)ᵀ, (affineEqVecs ds.2).mulVec ds.1) := rfl

theorem affinePointSystem_eq_sum (dst src : VectorSet K D) :
    affinePointSystem dst src =
      ((List.zip dst src).map (fun ds : (Fin D → K) × (Fin D → K) =>
        (affineEqVecs ds.2 * (affineEqVecs ds.2)ᵀ, (affineEqVecs ds.2).mulVec ds.1))).sum := by
  unfold affinePointSystem
  rw [foldl_add_eq_sum _ affinePointStep affinePointStep_eq]
  exact zero_add _

theorem affine_sum_normal_equations (theta : Fin (NumUnknowns D) → K)
    (l : List ((Fin D → K) × (Fin D → K)))
    (h : ∀ ds ∈ l, (affineEqVecs ds.2)ᵀ.mulVec theta = ds.1) :
    ((l.map (fun ds : (Fin D → K) × (Fin D → K) =>
        (affineEqVecs ds.2 * (affineEqVecs ds.2)ᵀ, (affineEqVecs ds.2).mulVec ds.1))).sum).1.mulVec
        theta =
      ((l.map (fun ds : (Fin D → K) × (Fin D → K) =>
        (affineEqVecs ds.2 * (affineEqVecs ds.2)ᵀ, (affineEqVecs ds.2).mulVec ds.1))).sum).2 := by
  induction l with
  | nil => simp
  | cons x rest ih =>
    rw [List.map_cons, List.sum_cons, Prod.fst_add, Prod.snd_add, Matrix.add_mulVec,
      ih (fun ds hds => h ds (List.mem_cons_of_mem _ hds)), ← mulVec_mulVec,
      h x (List.mem_cons_self _ _)]

theorem affine_sum_quadratic_form (theta : Fin (NumUnknowns D) → K)
    (l : List ((Fin D → K) × (Fin D → K))) :
    theta ⬝ᵥ ((l.map (fun ds : (Fin D → K) × (Fin D → K) =>
        (affineEqVecs ds.2 * (affineEqVecs ds.2)ᵀ, (affineEqVecs ds.2).mulVec ds.1))).sum).1.mulVec
        theta =
      (l.map (fun ds : (Fin D → K) × (Fin D → K) =>
        (affineEqVecs ds.2)ᵀ.mulVec theta ⬝ᵥ (affineEqVecs ds.2)ᵀ.mulVec theta)).sum := by
  induction l with
  | nil => simp
  | cons x rest ih =>
    rw [List.map_cons, List.sum_cons, Prod.fst_add, Matrix.add_mulVec, dotProduct_add, ih,
      List.map_cons, List.sum_cons, ← mulVec_mulVec, dotProduct_mulVec, ← mulVec_transpose]

theorem exists_mem_zip_of_mem_right {α β : Type} (l1 : List α) (l2 : List β)
    (hlen : l2.length = l1.length) (b : β) (hb : b ∈ l2) : ∃ a, (a, b) ∈ List.zip l1 l2 := by
  induction l1 generalizing l2 with
  | nil =>
    cases l2 with
    | nil => simp at hb
    | cons y ys => simp at hlen
  | cons x xs ih =>
    cases l2 with
    | nil => simp at hb
    | cons y ys =>
      rcases List.mem_cons.mp hb with rfl | hb
      · exact ⟨x, by simp⟩
      · obtain ⟨a, ha⟩ := ih ys (by simpa using hlen) hb
        exact ⟨a, by simp [ha]⟩

/-- When the source points span the space affinely, the affine
point-to-point system has at most one solution. -/
theorem affinePointSystem_injective (dst src : VectorSet K D) (hlen : src.length = dst.length)
    (hspan : ∀ (a : Fin D → K) (b : K), (∀ s ∈ src, a ⬝ᵥ s + b = 0) → a = 0 ∧ b = 0)
    (theta : Fin (NumUnknowns D) → K)
    (h0 : (affinePointSystem dst src).1.mulVec theta = 0) : theta = 0 := by
  rw [affinePointSystem_eq_sum] at h0
  have hq := affine_sum_quadratic_form theta (List.zip dst src)
  rw [h0, dotProduct_zero] at hq
  have hz := sum_eq_zero_of_nonneg
    (fun ds : (Fin D → K) × (Fin D → K) =>
      (affineEqVecs ds.2)ᵀ.mulVec theta ⬝ᵥ (affineEqVecs ds.2)ᵀ.mulVec theta)
    (List.zip dst src)
    (fun ds _ => Finset.sum_nonneg (fun k _ => mul_self_nonneg _)) hq.symm
  have hs : ∀ s ∈ src, (affineEqVecs s)ᵀ.mulVec theta = 0 := by
    intro s hs
    obtain ⟨d, hmem⟩ := exists_mem_zip_of_mem_right dst src hlen s hs
    exact (dotProduct_self_eq_zero_iff _).mp (hz (d, s) hmem)
  have hrow : ∀ c : Fin D, (fun k => theta (linIndex c k)) = 0 ∧ theta (tailIndex c) = 0 := by
    intro c
    refine hspan _ _ (fun s hsm => ?_)
    have := congrFun (hs s hsm) c
    rw [affineEqVecs_transpose_mulVec s theta ⟨0, 0⟩] at this
    simpa [unpackAffine, mulVec, dotProduct] using this
  funext r
  rcases unknown_index_cases r with ⟨j, k, rfl⟩ | ⟨j, rfl⟩
  · exact congrFun (hrow j).1 k
  · exact (hrow j).2

theorem zip_map_affine (A : Matrix (Fin D) (Fin D) K) (t : Fin D → K) (src : VectorSet K D) :
    List.zip (src.map (fun s => A.mulVec s + t)) src =
      src.map (fun s => (A.mulVec s + t, s)) := by
  induction src with
  | nil => rfl
  | cons s rest ih => simp [ih]

theorem affinePointSystem_normal_equations (A : Matrix (Fin D) (Fin D) K) (t : Fin D → K)
    (src : VectorSet K D) :
    (affinePointSystem (src.map (fun s => A.mulVec s + t)) src).1.mulVec (packAffine A t) =
      (affinePointSystem (src.map (fun s => A.mulVec s + t)) src).2 := by
  rw [affinePointSystem_eq_sum]
  refine affine_sum_normal_equations _ _ (fun ds hds => ?_)
  rw [zip_map_affine] at hds
  obtain ⟨s, _, rfl⟩ := List.mem_map.mp hds
  rw [affineEqVecs_transpose_mulVec s _ ⟨0, 0⟩, unpackAffine_packAffine]

theorem estimateAffine_of_lengths
    (solve : Matrix (Fin (NumUnknowns D)) (Fin (NumUnknowns D)) K →
      (Fin (NumUnknowns D) → K) → (Fin (NumUnknowns D) → K))
    (dst src : VectorSet K D) (tform : Transform K D)
    (hlen : src.length = dst.length) (hpos : src.length ≠ 0) :
    estimateTransformPointToPointMetricAffine solve dst src tform =
      (decide (D + 1 ≤ src.length),
        unpackAffine (solve (affinePointSystem dst src).1 (affinePointSystem dst src).2) tform) := by
  have hg : ¬ (src.length ≠ dst.length ∨ src.length = 0) := by
    rintro (h | h)
    · exact h hlen
    · exact hpos h
  simp only [estimateTransformPointToPointMetricAffine, if_neg hg]

/-- The affine point-to-point estimator recovers an exact affine relation
when the source points span the space affinely and the solver solved the
system. -/
theorem estimateAffine_recovers
    (solve : Matrix (Fin (NumUnknowns D)) (Fin (NumUnknowns D)) K →
      (Fin (NumUnknowns D) → K) → (Fin (NumUnknowns D) → K))
    (A : Matrix (Fin D) (Fin D) K) (t : Fin D → K) (src : VectorSet K D)
    (tform : Transform K D) (hN : D + 1 ≤ src.length)
    (hspan : ∀ (a : Fin D → K) (b : K), (∀ s ∈ src, a ⬝ᵥ s + b = 0) → a = 0 ∧ b = 0)
    (hsolve : (affinePointSystem (src.map (fun s => A.mulVec s + t)) src).1.mulVec
        (solve (affinePointSystem (src.map (fun s => A.mulVec s + t)) src).1
          (affinePointSystem (src.map (fun s => A.mulVec s + t)) src).2) =
      (affinePointSystem (src.map (fun s => A.mulVec s + t)) src).2) :
    estimateTransformPointToPointMetricAffine solve (src.map (fun s => A.mulVec s + t)) src tform
      = (true, { linear := A, translation := t }) := by
  have hne : src.length ≠ 0 := by omega
  have hlen : src.length = (src.map (fun s => A.mulVec s + t)).length := by simp
  have hdiff : solve (affinePointSystem (src.map (fun s => A.mulVec s + t)) src).1
      (affinePointSystem (src.map (fun s => A.mulVec s + t)) src).2 - packAffine A t = 0 := by
    refine affinePointSystem_injective _ src hlen hspan _ ?_
    rw [mulVec_sub, hsolve, affinePointSystem_normal_equations, sub_self]
  rw [estimateAffine_of_lengths solve _ src tform hlen hne, sub_eq_zero.mp hdiff,
    unpackAffine_packAffine]
  simp [hN]

theorem sum_map_doubled {α M : Type} [DecidableEq α] [AddCommMonoid M] (f g : α → M) (c : α)
    (hg : ∀ x, g x = if x = c then f x + f x else f x) (l : List α) :
    (l.map g).sum = (l.map f).sum + l.count c • f c := by
  induction l with
  | nil => simp
  | cons x rest ih =>
    rw [List.map_cons, List.sum_cons, ih, List.map_cons, List.sum_cons, hg x, List.count_cons]
    by_cases h : x = c
    · subst h
      simp only [if_true, beq_self_eq_true, add_smul, one_smul]
      abel
    · have hb : (x == c) = false := by simpa using h
      rw [if_neg h, hb]
      simp only [Bool.false_eq_true, if_false, add_zero]
      abel

/-- Doubling the contribution of `c` equals one more occurrence of `c` when
`c` occurs once. -/
theorem sum_map_doubled_of_count_one {α M : Type} [DecidableEq α] [AddCommMonoid M]
    (f g : α → M) (c : α) (hg : ∀ x, g x = if x = c then f x + f x else f x) (l l2 : List α)
    (hc : l.count c = 1) (hperm : l2.Perm (c :: l)) :
    (l.map g).sum = (l2.map f).sum := by
  rw [sum_map_doubled f g c hg l, hc, one_smul, (hperm.map f).sum_eq, List.map_cons,
    List.sum_cons, add_comm]

theorem doubledAt_self {U : Type} [DecidableEq U] (e : ℕ → ℕ → U → K) (c : Correspondence U) :
    doubledAt e c c.indexInFirst c.indexInSecond c.value =
      2 * e c.indexInFirst c.indexInSecond c.value := by
  simp [doubledAt]

theorem doubledAt_of_ne {U : Type} [DecidableEq U] (e : ℕ → ℕ → U → K)
    (c x : Correspondence U) (h : x ≠ c) :
    doubledAt e c x.indexInFirst x.indexInSecond x.value =
      e x.indexInFirst x.indexInSecond x.value := by
  unfold doubledAt
  rw [if_neg]
  rintro ⟨h1, h2, h3⟩
  apply h
  cases x
  cases c
  simp only at h1 h2 h3
  subst h1 h2 h3
  rfl

theorem doubledAt_apply {U : Type} [DecidableEq U] (e : ℕ → ℕ → U → K)
    (c x : Correspondence U) :
    doubledAt e c x.indexInFirst x.indexInSecond x.value =
      if x = c then 2 * e x.indexInFirst x.indexInSecond x.value
      else e x.indexInFirst x.indexInSecond x.value := by
  by_cases h : x = c
  · subst h; rw [if_pos rfl, doubledAt_self]
  · rw [if_neg h, doubledAt_of_ne e c x h]

theorem smul_mul_transpose_double {m n : ℕ} (g e : K) (E : Matrix (Fin m) (Fin n) K) :
    ((g * (2 * e)) • E) * Eᵀ = ((g * e) • E) * Eᵀ + ((g * e) • E) * Eᵀ := by
  rw [← Matrix.add_mul, ← add_smul]
  ring_nf

theorem mulVec_smul_double {m n : ℕ} (g e : K) (E : Matrix (Fin m) (Fin n) K) (v : Fin n → K) :
    E.mulVec ((g * (2 * e)) • v) = E.mulVec ((g * e) • v) + E.mulVec ((g * e) • v) := by
  rw [← mulVec_add, ← add_smul]
  ring_nf

theorem vecMulVec_smul_double {m : ℕ} (g e : K) (u : Fin m → K) :
    vecMulVec ((g * (2 * e)) • u) u =
      vecMulVec ((g * e) • u) u + vecMulVec ((g * e) • u) u := by
  ext i j
  simp only [vecMulVec_apply, Pi.smul_apply, smul_eq_mul, add_apply]
  ring

theorem smul_vec_double {m : ℕ} (g e x : K) (u : Fin m → K) :
    ((g * (2 * e)) * x) • u = ((g * e) * x) • u + ((g * e) * x) • u := by
  rw [← add_smul]
  ring_nf

/-! ### The six accumulation loops as sums -/

theorem pointStep2D_eq_add (a : CombinedArgs K 2 V W) (T : Transform K 2)
    (acc : Matrix (Fin 3) (Fin 3) K × (Fin 3 → K)) (c : Correspondence V) :
    pointStep2D a T acc c = acc + pointStep2D a T 0 c := by
  simp only [pointStep2D, Prod.fst_zero, Prod.snd_zero, zero_add]
  rfl

theorem planeStep2D_eq_add (a : CombinedArgs K 2 V W) (T : Transform K 2)
    (acc : Matrix (Fin 3) (Fin 3) K × (Fin 3 → K)) (c : Correspondence W) :
    planeStep2D a T acc c = acc + planeStep2D a T 0 c := by
  simp only [planeStep2D, Prod.fst_zero, Prod.snd_zero, zero_add]
  rfl

theorem pointStep3D_eq_add (a : CombinedArgs K 3 V W) (T : Transform K 3)
    (acc : Matrix (Fin 6) (Fin 6) K × (Fin 6 → K)) (c : Correspondence V) :
    pointStep3D a T acc c = acc + pointStep3D a T 0 c := by
  simp only [pointStep3D, Prod.fst_zero, Prod.snd_zero, zero_add]
  rfl

theorem planeStep3D_eq_add (a : CombinedArgs K 3 V W) (T : Transform K 3)
    (acc : Matrix (Fin 6) (Fin 6) K × (Fin 6 → K)) (c : Correspondence W) :
    planeStep3D a T acc c = acc + planeStep3D a T 0 c := by
  simp only [planeStep3D, Prod.fst_zero, Prod.snd_zero, zero_add]
  rfl

theorem pointStepAffine_eq_add (a : CombinedArgs K D V W)
    (acc : Matrix (Fin (NumUnknowns D)) (Fin (NumUnknowns D)) K × (Fin (NumUnknowns D) → K))
    (c : Correspondence V) :
    pointStepAffine a acc c = acc + pointStepAffine a 0 c := by
  simp only [pointStepAffine, Prod.fst_zero, Prod.snd_zero, zero_add]
  rfl

theorem planeStepAffine_eq_add (a : CombinedArgs K D V W)
    (acc : Matrix (Fin (NumUnknowns D)) (Fin (NumUnknowns D)) K × (Fin (NumUnknowns D) → K))
    (c : Correspondence W) :
    planeStepAffine a acc c = acc + planeStepAffine a 0 c := by
  simp only [planeStepAffine, Prod.fst_zero, Prod.snd_zero, zero_add]
  rfl

theorem rigidSystem2D_eq_sum (a : CombinedArgs K 2 V W) (T : Transform K 2) :
    rigidSystem2D a T =
      (if has_point_to_point_terms a then
        (a.point_to_point_correspondences.map (pointStep2D a T 0)).sum else 0) +
      (if has_point_to_plane_terms a then
        (a.point_to_plane_correspondences.map (planeStep2D a T 0)).sum else 0) := by
  unfold rigidSystem2D
  simp only [foldl_add_eq_sum _ _ (pointStep2D_eq_add a T),
    foldl_add_eq_sum _ _ (planeStep2D_eq_add a T)]
  have h0 : ((0, 0) : Matrix (Fin 3) (Fin 3) K × (Fin 3 → K)) = 0 := rfl
  rw [h0]
  cases has_point_to_point_terms a <;> cases has_point_to_plane_terms a <;> simp

theorem rigidSystem3D_eq_sum (a : CombinedArgs K 3 V W) (T : Transform K 3) :
    rigidSystem3D a T =
      (if has_point_to_point_terms a then
        (a.point_to_point_correspondences.map (pointStep3D a T 0)).sum else 0) +
      (if has_point_to_plane_terms a then
        (a.point_to_plane_correspondences.map (planeStep3D a T 0)).sum else 0) := by
  unfold rigidSystem3D
  simp only [foldl_add_eq_sum _ _ (pointStep3D_eq_add a T),
    foldl_add_eq_sum _ _ (planeStep3D_eq_add a T)]
  have h0 : ((0, 0) : Matrix (Fin 6) (Fin 6) K × (Fin 6 → K)) = 0 := rfl
  rw [h0]
  cases has_point_to_point_terms a <;> cases has_point_to_plane_terms a <;> simp

theorem affineSystem_eq_sum (a : CombinedArgs K D V W) :
    affineSystem a =
      (if has_point_to_point_terms a then
        (a.point_to_point_correspondences.map (pointStepAffine a 0)).sum else 0) +
      (if has_point_to_plane_terms a then
        (a.point_to_plane_correspondences.map (planeStepAffine a 0)).sum else 0) := by
  unfold affineSystem
  simp only [foldl_add_eq_sum _ _ (pointStepAffine_eq_add a),
    foldl_add_eq_sum _ _ (planeStepAffine_eq_add a)]
  have h0 : ((0, 0) : Matrix (Fin (NumUnknowns D)) (Fin (NumUnknowns D)) K ×
      (Fin (NumUnknowns D) → K)) = 0 := rfl
  rw [h0]
  cases has_point_to_point_terms a <;> cases has_point_to_plane_terms a <;> simp

/-- Entry `(1, 1)` of the contribution of a 2D point-to-point correspondence
to `AtA` is its weight. -/
theorem pointStep2D_entry_one_one (a : CombinedArgs K 2 V W) (T : Transform K 2)
    (c : Correspondence V) :
    (pointStep2D a T 0 c).1 1 1 =
      a.point_to_point_weight *
        a.point_corr_evaluator c.indexInFirst c.indexInSecond c.value := by
  simp only [pointStep2D, Prod.fst_zero, zero_add, Matrix.mul_apply, Matrix.transpose_apply,
    Matrix.smul_apply, Fin.sum_univ_two, smul_eq_mul]
  simp

/-! ### Contributions under a doubled evaluator -/

theorem pointStep2D_doubled [DecidableEq V] (a : CombinedArgs K 2 V W) (T : Transform K 2)
    (c x : Correspondence V) :
    pointStep2D { a with point_corr_evaluator := doubledAt a.point_corr_evaluator c } T 0 x =
      if x = c then pointStep2D a T 0 x + pointStep2D a T 0 x else pointStep2D a T 0 x := by
  simp only [pointStep2D, doubledAt_apply]
  split
  · refine Prod.ext ?_ ?_ <;>
      simp only [Prod.fst_add, Prod.snd_add, Prod.fst_zero, Prod.snd_zero, zero_add]
    · exact smul_mul_transpose_double _ _ _
    · exact mulVec_smul_double _ _ _ _
  · rfl

theorem planeStep2D_doubled [DecidableEq W] (a : CombinedArgs K 2 V W) (T : Transform K 2)
    (c x : Correspondence W) :
    planeStep2D { a with plane_corr_evaluator := doubledAt a.plane_corr_evaluator c } T 0 x =
      if x = c then planeStep2D a T 0 x + planeStep2D a T 0 x else planeStep2D a T 0 x := by
  simp only [planeStep2D, doubledAt_apply]
  split
  · refine Prod.ext ?_ ?_ <;>
      simp only [Prod.fst_add, Prod.snd_add, Prod.fst_zero, Prod.snd_zero, zero_add]
    · exact vecMulVec_smul_double _ _ _
    · exact smul_vec_double _ _ _ _
  · rfl

theorem pointStep3D_doubled [DecidableEq V] (a : CombinedArgs K 3 V W) (T : Transform K 3)
    (c x : Correspondence V) :
    pointStep3D { a with point_corr_evaluator := doubledAt a.point_corr_evaluator c } T 0 x =
      if x = c then pointStep3D a T 0 x + pointStep3D a T 0 x else pointStep3D a T 0 x := by
  simp only [pointStep3D, doubledAt_apply]
  split
  · refine Prod.ext ?_ ?_ <;>
      simp only [Prod.fst_add, Prod.snd_add, Prod.fst_zero, Prod.snd_zero, zero_add]
    · exact smul_mul_transpose_double _ _ _
    · exact mulVec_smul_double _ _ _ _
  · rfl

theorem planeStep3D_doubled [DecidableEq W] (a : CombinedArgs K 3 V W) (T : Transform K 3)
    (c x : Correspondence W) :
    planeStep3D { a with plane_corr_evaluator := doubledAt a.plane_corr_evaluator c } T 0 x =
      if x = c then planeStep3D a T 0 x + planeStep3D a T 0 x else planeStep3D a T 0 x := by
  simp only [planeStep3D, doubledAt_apply]
  split
  · refine Prod.ext ?_ ?_ <;>
      simp only [Prod.fst_add, Prod.snd_add, Prod.fst_zero, Prod.snd_zero, zero_add]
    · exact vecMulVec_smul_double _ _ _
    · exact smul_vec_double _ _ _ _
  · rfl

theorem pointStepAffine_doubled [DecidableEq V] (a : CombinedArgs K D V W)
    (c x : Correspondence V) :
    pointStepAffine { a with point_corr_evaluator := doubledAt a.point_corr_evaluator c } 0 x =
      if x = c then pointStepAffine a 0 x + pointStepAffine a 0 x else pointStepAffine a 0 x := by
  simp only [pointStepAffine, doubledAt_apply]
  split
  · refine Prod.ext ?_ ?_ <;>
      simp only [Prod.fst_add, Prod.snd_add, Prod.fst_zero, Prod.snd_zero, zero_add]
    · exact smul_mul_transpose_double _ _ _
    · exact mulVec_smul_double _ _ _ _
  · rfl

theorem planeStepAffine_doubled [DecidableEq W] (a : CombinedArgs K D V W)
    (c x : Correspondence W) :
    planeStepAffine { a with plane_corr_evaluator := doubledAt a.plane_corr_evaluator c } 0 x =
      if x = c then planeStepAffine a 0 x + planeStepAffine a 0 x else planeStepAffine a 0 x := by
  simp only [planeStepAffine, doubledAt_apply]
  split
  · refine Prod.ext ?_ ?_ <;>
      simp only [Prod.fst_add, Prod.snd_add, Prod.fst_zero, Prod.snd_zero, zero_add]
    · exact vecMulVec_smul_double _ _ _
    · exact smul_vec_double _ _ _ _
  · rfl

theorem isEmpty_eq_of_count_perm {α : Type} [DecidableEq α] (c : α) (l l2 : List α)
    (hc : l.count c = 1) (hperm : l2.Perm (c :: l)) : l2.isEmpty = l.isEmpty := by
  have h1 : l ≠ [] := by
    rintro rfl
    simp at hc
  have h2 : l2 ≠ [] := by
    rintro rfl
    exact List.cons_ne_nil _ _ (List.Perm.nil_eq hperm).symm
  cases l with
  | nil => exact absurd rfl h1
  | cons x xs =>
    cases l2 with
    | nil => exact absurd rfl h2
    | cons y ys => rfl

theorem rigidSystem2D_point_doubled [DecidableEq V] (a : CombinedArgs K 2 V W)
    (T : Transform K 2) (c : Correspondence V) (cs : CorrespondenceSet V)
    (hc : a.point_to_point_correspondences.count c = 1)
    (hperm : cs.Perm (c :: a.point_to_point_correspondences)) :
    rigidSystem2D { a with point_corr_evaluator := doubledAt a.point_corr_evaluator c } T =
      rigidSystem2D { a with point_to_point_correspondences := cs } T := by
  rw [rigidSystem2D_eq_sum, rigidSystem2D_eq_sum]
  have hflag : has_point_to_point_terms { a with point_to_point_correspondences := cs } =
      has_point_to_point_terms a := by
    simp only [has_point_to_point_terms, isEmpty_eq_of_count_perm c _ cs hc hperm]
  rw [hflag]
  congr 1
  show (if has_point_to_point_terms a then _ else _) = _
  split
  · exact sum_map_doubled_of_count_one (pointStep2D a T 0) _ c (pointStep2D_doubled a T c)
      _ cs hc hperm
  · rfl

theorem rigidSystem2D_plane_doubled [DecidableEq W] (a : CombinedArgs K 2 V W)
    (T : Transform K 2) (c : Correspondence W) (cs : CorrespondenceSet W)
    (hc : a.point_to_plane_correspondences.count c = 1)
    (hperm : cs.Perm (c :: a.point_to_plane_correspondences)) :
    rigidSystem2D { a with plane_corr_evaluator := doubledAt a.plane_corr_evaluator c } T =
      rigidSystem2D { a with point_to_plane_correspondences := cs } T := by
  rw [rigidSystem2D_eq_sum, rigidSystem2D_eq_sum]
  have hflag : has_point_to_plane_terms { a with point_to_plane_correspondences := cs } =
      has_point_to_plane_terms a := by
    simp only [has_point_to_plane_terms, isEmpty_eq_of_count_perm c _ cs hc hperm]
  rw [hflag]
  congr 1
  show (if has_point_to_plane_terms a then _ else _) = _
  split
  · exact sum_map_doubled_of_count_one (planeStep2D a T 0) _ c (planeStep2D_doubled a T c)
      _ cs hc hperm
  · rfl

theorem rigidSystem3D_point_doubled [DecidableEq V] (a : CombinedArgs K 3 V W)
    (T : Transform K 3) (c : Correspondence V) (cs : CorrespondenceSet V)
    (hc : a.point_to_point_correspondences.count c = 1)
    (hperm : cs.Perm (c :: a.point_to_point_correspondences)) :
    rigidSystem3D { a with point_corr_evaluator := doubledAt a.point_corr_evaluator c } T =
      rigidSystem3D { a with point_to_point_correspondences := cs } T := by
  rw [rigidSystem3D_eq_sum, rigidSystem3D_eq_sum]
  have hflag : has_point_to_point_terms { a with point_to_point_correspondences := cs } =
      has_point_to_point_terms a := by
    simp only [has_point_to_point_terms, isEmpty_eq_of_count_perm c _ cs hc hperm]
  rw [hflag]
  congr 1
  show (if has_point_to_point_terms a then _ else _) = _
  split
  · exact sum_map_doubled_of_count_one (pointStep3D a T 0) _ c (pointStep3D_doubled a T c)
      _ cs hc hperm
  · rfl

theorem rigidSystem3D_plane_doubled [DecidableEq W] (a : CombinedArgs K 3 V W)
    (T : Transform K 3) (c : Correspondence W) (cs : CorrespondenceSet W)
    (hc : a.point_to_plane_correspondences.count c = 1)
    (hperm : cs.Perm (c :: a.point_to_plane_correspondences)) :
    rigidSystem3D { a with plane_corr_evaluator := doubledAt a.plane_corr_evaluator c } T =
      rigidSystem3D { a with point_to_plane_correspondences := cs } T := by
  rw [rigidSystem3D_eq_sum, rigidSystem3D_eq_sum]
  have hflag : has_point_to_plane_terms { a with point_to_plane_correspondences := cs } =
      has_point_to_plane_terms a := by
    simp only [has_point_to_plane_terms, isEmpty_eq_of_count_perm c _ cs hc hperm]
  rw [hflag]
  congr 1
  show (if has_point_to_plane_terms a then _ else _) = _
  split
  · exact sum_map_doubled_of_count_one (planeStep3D a T 0) _ c (planeStep3D_doubled a T c)
      _ cs hc hperm
  · rfl

theorem affineSystem_point_doubled [DecidableEq V] (a : CombinedArgs K D V W)
    (c : Correspondence V) (cs : CorrespondenceSet V)
    (hc : a.point_to_point_correspondences.count c = 1)
    (hperm : cs.Perm (c :: a.point_to_point_correspondences)) :
    affineSystem { a with point_corr_evaluator := doubledAt a.point_corr_evaluator c } =
      affineSystem { a with point_to_point_correspondences := cs } := by
  rw [affineSystem_eq_sum, affineSystem_eq_sum]
  have hflag : has_point_to_point_terms { a with point_to_point_correspondences := cs } =
      has_point_to_point_terms a := by
    simp only [has_point_to_point_terms, isEmpty_eq_of_count_perm c _ cs hc hperm]
  rw [hflag]
  congr 1
  show (if has_point_to_point_terms a then _ else _) = _
  split
  · exact sum_map_doubled_of_count_one (pointStepAffine a 0) _ c (pointStepAffine_doubled a c)
      _ cs hc hperm
  · rfl

theorem affineSystem_plane_doubled [DecidableEq W] (a : CombinedArgs K D V W)
    (c : Correspondence W) (cs : CorrespondenceSet W)
    (hc : a.point_to_plane_correspondences.count c = 1)
    (hperm : cs.Perm (c :: a.point_to_plane_correspondences)) :
    affineSystem { a with plane_corr_evaluator := doubledAt a.plane_corr_evaluator c } =
      affineSystem { a with point_to_plane_correspondences := cs } := by
  rw [affineSystem_eq_sum, affineSystem_eq_sum]
  have hflag : has_point_to_plane_terms { a with point_to_plane_correspondences := cs } =
      has_point_to_plane_terms a := by
    simp only [has_point_to_plane_terms, isEmpty_eq_of_count_perm c _ cs hc hperm]
  rw [hflag]
  congr 1
  show (if has_point_to_plane_terms a then _ else _) = _
  split
  · exact sum_map_doubled_of_count_one (planeStepAffine a 0) _ c (planeStepAffine_doubled a c)
      _ cs hc hperm
  · rfl

theorem sum_pair_normal_equations {α : Type} {n : ℕ}
    (f : α → Matrix (Fin n) (Fin n) K × (Fin n → K)) (theta : Fin n → K) (l : List α)
    (h : ∀ x ∈ l, (f x).1.mulVec theta = (f x).2) :
    ((l.map f).sum).1.mulVec theta = ((l.map f).sum).2 := by
  induction l with
  | nil => simp
  | cons x rest ih =>
    rw [List.map_cons, List.sum_cons, Prod.fst_add, Prod.snd_add, Matrix.add_mulVec,
      ih (fun y hy => h y (List.mem_cons_of_mem _ hy)), h x (List.mem_cons_self _ _)]

theorem sum_pair_snd_zero {α : Type} {n : ℕ}
    (f : α → Matrix (Fin n) (Fin n) K × (Fin n → K)) (l : List α)
    (h : ∀ x ∈ l, (f x).2 = 0) : ((l.map f).sum).2 = 0 := by
  induction l with
  | nil => simp
  | cons x rest ih =>
    rw [List.map_cons, List.sum_cons, Prod.snd_add,
      ih (fun y hy => h y (List.mem_cons_of_mem _ hy)), h x (List.mem_cons_self _ _), add_zero]

theorem identity_apply (p : Fin D → K) :
    ({ linear := 1, translation := 0 } : Transform K D).apply p = p := by
  simp [Transform.apply]

/-! ### Rigid combined-metric estimators at exact alignment under the identity -/

theorem rigidSystem2D_identity_rhs (a : CombinedArgs K 2 V W) (hP : a.src_p = a.dst_p)
    (hpp : ∀ c ∈ a.point_to_point_correspondences, c.indexInFirst = c.indexInSecond)
    (hpl : ∀ c ∈ a.point_to_plane_correspondences, c.indexInFirst = c.indexInSecond) :
    (rigidSystem2D a { linear := 1, translation := 0 }).2 = 0 := by
  rw [rigidSystem2D_eq_sum, Prod.snd_add]
  have h1 : (if has_point_to_point_terms a then
      (a.point_to_point_correspondences.map
        (pointStep2D a { linear := 1, translation := 0 } 0)).sum else 0).2 = 0 := by
    split
    · refine sum_pair_snd_zero _ _ (fun c hc => ?_)
      simp only [pointStep2D, identity_apply, hP, hpp c hc, sub_self, smul_zero, mulVec_zero,
        Prod.snd_zero, add_zero]
    · rfl
  have h2 : (if has_point_to_plane_terms a then
      (a.point_to_plane_correspondences.map
        (planeStep2D a { linear := 1, translation := 0 } 0)).sum else 0).2 = 0 := by
    split
    · refine sum_pair_snd_zero _ _ (fun c hc => ?_)
      simp only [planeStep2D, identity_apply, hP, hpl c hc, sub_self, dotProduct_zero,
        mul_zero, zero_smul, Prod.snd_zero, add_zero]
    · rfl
  rw [h1, h2, add_zero]

theorem rigidSystem3D_identity_rhs (a : CombinedArgs K 3 V W) (hP : a.src_p = a.dst_p)
    (hpp : ∀ c ∈ a.point_to_point_correspondences, c.indexInFirst = c.indexInSecond)
    (hpl : ∀ c ∈ a.point_to_plane_correspondences, c.indexInFirst = c.indexInSecond) :
    (rigidSystem3D a { linear := 1, translation := 0 }).2 = 0 := by
  rw [rigidSystem3D_eq_sum, Prod.snd_add]
  have h1 : (if has_point_to_point_terms a then
      (a.point_to_point_correspondences.map
        (pointStep3D a { linear := 1, translation := 0 } 0)).sum else 0).2 = 0 := by
    split
    · refine sum_pair_snd_zero _ _ (fun c hc => ?_)
      simp only [pointStep3D, identity_apply, hP, hpp c hc, sub_self, smul_zero, mulVec_zero,
        Prod.snd_zero, add_zero]
    · rfl
  have h2 : (if has_point_to_plane_terms a then
      (a.point_to_plane_correspondences.map
        (planeStep3D a { linear := 1, translation := 0 } 0)).sum else 0).2 = 0 := by
    split
    · refine sum_pair_snd_zero _ _ (fun c hc => ?_)
      simp only [planeStep3D, identity_apply, hP, hpl c hc, sub_self, dotProduct_zero,
        mul_zero, zero_smul, Prod.snd_zero, add_zero]
    · rfl
  rw [h1, h2, add_zero]

theorem rotation2D_zero (cos sin : K → K) (hcos : cos 0 = 1) (hsin : sin 0 = 0) :
    rotation2D cos sin 0 = 1 := by
  rw [rotation2D, hcos, hsin, neg_zero, Matrix.one_fin_two]

theorem angleAxis_zero (cos sin : K → K) (hcos : cos 0 = 1) (hsin : sin 0 = 0) :
    angleAxisZ cos sin 0 * angleAxisY cos sin 0 * angleAxisX cos sin 0 = 1 := by
  have hx : angleAxisX cos sin 0 = 1 := by
    rw [angleAxisX, hcos, hsin, neg_zero, Matrix.one_fin_three]
  have hy : angleAxisY cos sin 0 = 1 := by
    rw [angleAxisY, hcos, hsin, neg_zero, Matrix.one_fin_three]
  have hz : angleAxisZ cos sin 0 = 1 := by
    rw [angleAxisZ, hcos, hsin, neg_zero, Matrix.one_fin_three]
  rw [hx, hy, hz, Matrix.one_mul, Matrix.one_mul]

theorem update2D_zero (cos sin : K → K)
    (rotationOf : Matrix (Fin 2) (Fin 2) K → Matrix (Fin 2) (Fin 2) K)
    (hcos : cos 0 = 1) (hsin : sin 0 = 0) (hrot : rotationOf 1 = 1) :
    update2D cos sin rotationOf { linear := 1, translation := 0 } 0 =
      { linear := 1, translation := 0 } := by
  simp only [update2D, Pi.zero_apply, rotation2D_zero cos sin hcos hsin, Matrix.one_mul, hrot,
    mulVec_zero, zero_add]
  congr 1
  funext i
  fin_cases i <;> rfl

theorem update3D_zero (cos sin : K → K)
    (rotationOf : Matrix (Fin 3) (Fin 3) K → Matrix (Fin 3) (Fin 3) K)
    (hcos : cos 0 = 1) (hsin : sin 0 = 0) (hrot : rotationOf 1 = 1) :
    update3D cos sin rotationOf { linear := 1, translation := 0 } 0 =
      { linear := 1, translation := 0 } := by
  simp only [update3D, Pi.zero_apply, angleAxis_zero cos sin hcos hsin, Matrix.one_mul, hrot,
    mulVec_zero, zero_add]
  congr 1
  funext i
  fin_cases i <;> rfl

theorem normLt_zero {n : ℕ} (tol : K) (htol : 0 < tol) : normLt (0 : Fin n → K) tol = true := by
  simp only [normLt, dotProduct_zero, decide_eq_true_eq]
  exact ⟨htol, mul_pos htol htol⟩

theorem gaussNewtonLoop_fixed_point {n : ℕ}
    (step : Transform K D → (Fin n → K) × Transform K D) (tol : K) (htol : 0 < tol)
    (tform : Transform K D) (hstep : step tform = (0, tform)) (r iter : ℕ) :
    gaussNewtonLoop step tol (r + 1) iter tform = (true, tform, iter + 1) := by
  simp only [gaussNewtonLoop, hstep, normLt_zero tol htol, if_true]

theorem iterStep2D_identity
    (solve : Matrix (Fin 3) (Fin 3) K → (Fin 3 → K) → (Fin 3 → K))
    (cos sin : K → K) (rotationOf : Matrix (Fin 2) (Fin 2) K → Matrix (Fin 2) (Fin 2) K)
    (a : CombinedArgs K 2 V W)
    (hsolve : ∀ M : Matrix (Fin 3) (Fin 3) K, solve M 0 = 0)
    (hcos : cos 0 = 1) (hsin : sin 0 = 0) (hrot : rotationOf 1 = 1)
    (hP : a.src_p = a.dst_p)
    (hpp : ∀ c ∈ a.point_to_point_correspondences, c.indexInFirst = c.indexInSecond)
    (hpl : ∀ c ∈ a.point_to_plane_correspondences, c.indexInFirst = c.indexInSecond) :
    iterStep2D solve cos sin rotationOf a { linear := 1, translation := 0 } =
      (0, { linear := 1, translation := 0 }) := by
  simp only [iterStep2D, rigidSystem2D_identity_rhs a hP hpp hpl, hsolve,
    update2D_zero cos sin rotationOf hcos hsin hrot]

theorem iterStep3D_identity
    (solve : Matrix (Fin 6) (Fin 6) K → (Fin 6 → K) → (Fin 6 → K))
    (cos sin : K → K) (rotationOf : Matrix (Fin 3) (Fin 3) K → Matrix (Fin 3) (Fin 3) K)
    (a : CombinedArgs K 3 V W)
    (hsolve : ∀ M : Matrix (Fin 6) (Fin 6) K, solve M 0 = 0)
    (hcos : cos 0 = 1) (hsin : sin 0 = 0) (hrot : rotationOf 1 = 1)
    (hP : a.src_p = a.dst_p)
    (hpp : ∀ c ∈ a.point_to_point_correspondences, c.indexInFirst = c.indexInSecond)
    (hpl : ∀ c ∈ a.point_to_plane_correspondences, c.indexInFirst = c.indexInSecond) :
    iterStep3D solve cos sin rotationOf a { linear := 1, translation := 0 } =
      (0, { linear := 1, translation := 0 }) := by
  simp only [iterStep3D, rigidSystem3D_identity_rhs a hP hpp hpl, hsolve,
    update3D_zero cos sin rotationOf hcos hsin hrot]

theorem estimate2D_identity
    (solve : Matrix (Fin 3) (Fin 3) K → (Fin 3 → K) → (Fin 3 → K))
    (cos sin : K → K) (rotationOf : Matrix (Fin 2) (Fin 2) K → Matrix (Fin 2) (Fin 2) K)
    (a : CombinedArgs K 2 V W) (tform : Transform K 2)
    (hpre : preconditionViolated a = false) (hmax : 1 ≤ a.max_iter)
    (htol : 0 < a.convergence_tol)
    (hsolve : ∀ M : Matrix (Fin 3) (Fin 3) K, solve M 0 = 0)
    (hcos : cos 0 = 1) (hsin : sin 0 = 0) (hrot : rotationOf 1 = 1)
    (hP : a.src_p = a.dst_p)
    (hpp : ∀ c ∈ a.point_to_point_correspondences, c.indexInFirst = c.indexInSecond)
    (hpl : ∀ c ∈ a.point_to_plane_correspondences, c.indexInFirst = c.indexInSecond) :
    estimateTransformCombinedMetric2D solve cos sin rotationOf a tform =
      (true, { linear := 1, translation := 0 }) := by
  have hstep := iterStep2D_identity solve cos sin rotationOf a hsolve hcos hsin hrot hP hpp hpl
  obtain ⟨r, hr⟩ : ∃ r, a.max_iter = r + 1 := ⟨a.max_iter - 1, by omega⟩
  simp only [estimateTransformCombinedMetric2D, estimateTransformCombinedMetric2DTrace, hpre,
    Bool.false_eq_true, if_false, Transform.setIdentity, hr,
    gaussNewtonLoop_fixed_point _ _ htol _ hstep]

theorem estimate3D_identity
    (solve : Matrix (Fin 6) (Fin 6) K → (Fin 6 → K) → (Fin 6 → K))
    (cos sin : K → K) (rotationOf : Matrix (Fin 3) (Fin 3) K → Matrix (Fin 3) (Fin 3) K)
    (a : CombinedArgs K 3 V W) (tform : Transform K 3)
    (hpre : preconditionViolated a = false) (hmax : 1 ≤ a.max_iter)
    (htol : 0 < a.convergence_tol)
    (hsolve : ∀ M : Matrix (Fin 6) (Fin 6) K, solve M 0 = 0)
    (hcos : cos 0 = 1) (hsin : sin 0 = 0) (hrot : rotationOf 1 = 1)
    (hP : a.src_p = a.dst_p)
    (hpp : ∀ c ∈ a.point_to_point_correspondences, c.indexInFirst = c.indexInSecond)
    (hpl : ∀ c ∈ a.point_to_plane_correspondences, c.indexInFirst = c.indexInSecond) :
    estimateTransformCombinedMetric3D solve cos sin rotationOf a tform =
      (true, { linear := 1, translation := 0 }) := by
  have hstep := iterStep3D_identity solve cos sin rotationOf a hsolve hcos hsin hrot hP hpp hpl
  obtain ⟨r, hr⟩ : ∃ r, a.max_iter = r + 1 := ⟨a.max_iter - 1, by omega⟩
  simp only [estimateTransformCombinedMetric3D, estimateTransformCombinedMetric3DTrace, hpre,
    Bool.false_eq_true, if_false, Transform.setIdentity, hr,
    gaussNewtonLoop_fixed_point _ _ htol _ hstep]

/-! ### Affine combined-metric estimator on identical point sets -/

theorem affineSystem_identity_normal_equations (a : CombinedArgs K D V W)
    (hP : a.src_p = a.dst_p)
    (hpp : ∀ c ∈ a.point_to_point_correspondences, c.indexInFirst = c.indexInSecond)
    (hpl : ∀ c ∈ a.point_to_plane_correspondences, c.indexInFirst = c.indexInSecond) :
    (affineSystem a).1.mulVec (packAffine 1 0) = (affineSystem a).2 := by
  rw [affineSystem_eq_sum, Prod.fst_add, Prod.snd_add, Matrix.add_mulVec]
  congr 1
  · split
    · refine sum_pair_normal_equations _ _ _ (fun c hc => ?_)
      simp only [pointStepAffine, Prod.fst_zero, Prod.snd_zero, zero_add]
      rw [← mulVec_mulVec, affineEqVecs_transpose_mulVec _ _ ⟨0, 0⟩, unpackAffine_packAffine,
        Matrix.one_mulVec, add_zero, hP, hpp c hc, Matrix.smul_mulVec_assoc, mulVec_smul]
    · simp
  · split
    · refine sum_pair_normal_equations _ _ _ (fun c hc => ?_)
      simp only [planeStepAffine, Prod.fst_zero, Prod.snd_zero, zero_add]
      funext r
      simp only [mulVec, vecMulVec_apply, Pi.smul_apply, smul_eq_mul]
      have hdot := affineEqVec_dotProduct (a.dst_n.col c.indexInFirst)
        (a.src_p.col c.indexInSecond) (packAffine 1 0) ⟨0, 0⟩
      rw [unpackAffine_packAffine, Matrix.one_mulVec, add_zero, hP, ← hpl c hc] at hdot
      rw [hP, ← hpl c hc]
      have hfun : (fun j =>
          a.point_to_plane_weight * a.plane_corr_evaluator c.indexInFirst c.indexInFirst c.value *
              affineEqVec (a.dst_n.col c.indexInFirst) (a.dst_p.col c.indexInFirst) r *
            affineEqVec (a.dst_n.col c.indexInFirst) (a.dst_p.col c.indexInFirst) j) =
          (a.point_to_plane_weight * a.plane_corr_evaluator c.indexInFirst c.indexInFirst c.value *
              affineEqVec (a.dst_n.col c.indexInFirst) (a.dst_p.col c.indexInFirst) r) •
            affineEqVec (a.dst_n.col c.indexInFirst) (a.dst_p.col c.indexInFirst) := rfl
      rw [hfun, smul_dotProduct, hdot, smul_eq_mul]
      ring
    · simp

theorem estimateAffineCombined_identity
    (solve : Matrix (Fin (NumUnknowns D)) (Fin (NumUnknowns D)) K →
      (Fin (NumUnknowns D) → K) → (Fin (NumUnknowns D) → K))
    (a : CombinedArgs K D V W) (tform : Transform K D)
    (hpre : preconditionViolated a = false)
    (hcount : D + 1 ≤ activeCorrespondenceCount a)
    (hP : a.src_p = a.dst_p)
    (hpp : ∀ c ∈ a.point_to_point_correspondences, c.indexInFirst = c.indexInSecond)
    (hpl : ∀ c ∈ a.point_to_plane_correspondences, c.indexInFirst = c.indexInSecond)
    (hinj : ∀ theta, (affineSystem a).1.mulVec theta = 0 → theta = 0)
    (hsolve : (affineSystem a).1.mulVec (solve (affineSystem a).1 (affineSystem a).2) =
      (affineSystem a).2) :
    estimateTransformCombinedMetricAffine solve a tform =
      (true, { linear := 1, translation := 0 }) := by
  have hdiff : solve (affineSystem a).1 (affineSystem a).2 - packAffine 1 0 = 0 := by
    refine hinj _ ?_
    rw [mulVec_sub, hsolve, affineSystem_identity_normal_equations a hP hpp hpl, sub_self]
  simp only [estimateTransformCombinedMetricAffine, hpre, Bool.false_eq_true, if_false,
    sub_eq_zero.mp hdiff, unpackAffine_packAffine, hcount, decide_True]

theorem estimateRigid_identity
    (svd : Matrix (Fin D) (Fin D) K → Matrix (Fin D) (Fin D) K × Matrix (Fin D) (Fin D) K)
    (P : VectorSet K D) (tform : Transform K D) (S : Fin D → K)
    (hD : 0 < D) (hN : D ≤ P.length)
    (hU : (svd (crossCovariance P P)).1 * (svd (crossCovariance P P)).1ᵀ = 1)
    (hV : (svd (crossCovariance P P)).2 * (svd (crossCovariance P P)).2ᵀ = 1)
    (hsvd : crossCovariance P P =
      (svd (crossCovariance P P)).1 * diagonal S * (svd (crossCovariance P P)).2ᵀ)
    (hS0 : ∀ i, 0 ≤ S i) (hSpos : ∀ i : Fin D, i.val + 1 < D → 0 < S i) :
    estimateTransformPointToPointMetricRigid svd P P tform =
      (true, { linear := 1, translation := 0 }) := by
  have hne : P.length ≠ 0 := by omega
  have hlin : rigidLinear (svd (crossCovariance P P)).1 (svd (crossCovariance P P)).2 = 1 := by
    refine rigidLinear_recovers 1 (crossCovariance P P) _ _ S (by simp) (by simp) hU hV
      (crossCovariance_self_transpose P) (crossCovariance_self_psd P) hS0 hSpos ?_
    rw [Matrix.one_mul]
    exact hsvd
  rw [estimateRigid_of_lengths svd P P tform rfl hne, hlin, Matrix.one_mulVec, sub_self]
  simp [hN]

theorem estimateAffine_identity
    (solve : Matrix (Fin (NumUnknowns D)) (Fin (NumUnknowns D)) K →
      (Fin (NumUnknowns D) → K) → (Fin (NumUnknowns D) → K))
    (P : VectorSet K D) (tform : Transform K D) (hN : D + 1 ≤ P.length)
    (hspan : ∀ (a : Fin D → K) (b : K), (∀ s ∈ P, a ⬝ᵥ s + b = 0) → a = 0 ∧ b = 0)
    (hsolve : (affinePointSystem P P).1.mulVec
        (solve (affinePointSystem P P).1 (affinePointSystem P P).2) =
      (affinePointSystem P P).2) :
    estimateTransformPointToPointMetricAffine solve P P tform =
      (true, { linear := 1, translation := 0 }) := by
  have hmap : P.map (fun s => (1 : Matrix (Fin D) (Fin D) K).mulVec s + 0) = P := by simp
  have h := estimateAffine_recovers solve 1 0 P tform hN hspan (by rw [hmap]; exact hsolve)
  rw [hmap] at h
  exact h

theorem cramerSolve_spec {n : ℕ} (M : Matrix (Fin n) (Fin n) K) (b : Fin n → K)
    (h : M.det ≠ 0) : M.mulVec (cramerSolve M b) = b := by
  rw [cramerSolve, mulVec_smul, mulVec_cramer, smul_smul, inv_mul_cancel₀ h, one_smul]

theorem cramerSolve_zero {n : ℕ} (M : Matrix (Fin n) (Fin n) K) : cramerSolve M 0 = 0 := by
  rw [cramerSolve, map_zero, smul_zero]

theorem det_ne_zero_of_mulVec_injective {n : ℕ} (M : Matrix (Fin n) (Fin n) K)
    (h : ∀ theta, M.mulVec theta = 0 → theta = 0) : M.det ≠ 0 := by
  intro hdet
  obtain ⟨v, hv, hMv⟩ := Matrix.exists_mulVec_eq_zero_iff.mpr hdet
  exact hv (h v hMv)

theorem cramerSolve_of_injective {n : ℕ} (M : Matrix (Fin n) (Fin n) K) (b : Fin n → K)
    (h : ∀ theta, M.mulVec theta = 0 → theta = 0) : M.mulVec (cramerSolve M b) = b :=
  cramerSolve_spec M b (det_ne_zero_of_mulVec_injective M h)

theorem circleCos_zero : circleCos (0 : K) = 1 := by simp [circleCos]

theorem circleSin_zero : circleSin (0 : K) = 0 := by simp [circleSin]

theorem sum_pair_quadratic_form {α : Type} {n : ℕ}
    (f : α → Matrix (Fin n) (Fin n) K × (Fin n → K)) (theta : Fin n → K) (l : List α) :
    theta ⬝ᵥ ((l.map f).sum).1.mulVec theta =
      (l.map (fun x => theta ⬝ᵥ (f x).1.mulVec theta)).sum := by
  induction l with
  | nil => simp
  | cons x rest ih =>
    rw [List.map_cons, List.sum_cons, Prod.fst_add, Matrix.add_mulVec, dotProduct_add, ih,
      List.map_cons, List.sum_cons]

theorem pointStepAffine_quadratic (a : CombinedArgs K D V W) (c : Correspondence V)
    (theta : Fin (NumUnknowns D) → K) :
    theta ⬝ᵥ (pointStepAffine a 0 c).1.mulVec theta =
      (a.point_to_point_weight *
          a.point_corr_evaluator c.indexInFirst c.indexInSecond c.value) *
        ((affineEqVecs (a.src_p.col c.indexInSecond))ᵀ.mulVec theta ⬝ᵥ
          (affineEqVecs (a.src_p.col c.indexInSecond))ᵀ.mulVec theta) := by
  simp only [pointStepAffine, Prod.fst_zero, zero_add]
  rw [Matrix.smul_mul, Matrix.smul_mulVec_assoc, dotProduct_smul, smul_eq_mul, ← mulVec_mulVec,
    dotProduct_mulVec, ← mulVec_transpose]

theorem planeStepAffine_quadratic (a : CombinedArgs K D V W) (c : Correspondence W)
    (theta : Fin (NumUnknowns D) → K) :
    theta ⬝ᵥ (planeStepAffine a 0 c).1.mulVec theta =
      (a.point_to_plane_weight *
          a.plane_corr_evaluator c.indexInFirst c.indexInSecond c.value) *
        ((affineEqVec (a.dst_n.col c.indexInFirst) (a.src_p.col c.indexInSecond) ⬝ᵥ theta) *
          (affineEqVec (a.dst_n.col c.indexInFirst) (a.src_p.col c.indexInSecond) ⬝ᵥ theta)) := by
  simp only [planeStepAffine, Prod.fst_zero, zero_add]
  simp only [dotProduct, mulVec, vecMulVec_apply, Pi.smul_apply, smul_eq_mul, Finset.mul_sum,
    Finset.sum_mul]
  rw [Finset.sum_comm]
  refine Finset.sum_congr rfl (fun i _ => Finset.sum_congr rfl (fun j _ => ?_))
  ring

theorem weight_pos_of_has_point_to_point_terms (a : CombinedArgs K D V W)
    (h : has_point_to_point_terms a = true) : 0 < a.point_to_point_weight :=
  ((has_point_to_point_terms_iff a).mp h).2

theorem weight_pos_of_has_point_to_plane_terms (a : CombinedArgs K D V W)
    (h : has_point_to_plane_terms a = true) : 0 < a.point_to_plane_weight :=
  ((has_point_to_plane_terms_iff a).mp h).2

/-- The affine combined-metric system has at most one solution when the
point-to-point terms are active with positive weights on source points that
span the space affinely, and no point-to-plane weight is negative. -/
theorem affineSystem_injective (a : CombinedArgs K D V W)
    (hact : has_point_to_point_terms a = true)
    (hw : ∀ c ∈ a.point_to_point_correspondences,
      0 < a.point_corr_evaluator c.indexInFirst c.indexInSecond c.value)
    (hwl : ∀ c ∈ a.point_to_plane_correspondences,
      0 ≤ a.plane_corr_evaluator c.indexInFirst c.indexInSecond c.value)
    (hspan : ∀ (u : Fin D → K) (b : K),
      (∀ c ∈ a.point_to_point_correspondences, u ⬝ᵥ a.src_p.col c.indexInSecond + b = 0) →
        u = 0 ∧ b = 0)
    (theta : Fin (NumUnknowns D) → K) (h0 : (affineSystem a).1.mulVec theta = 0) :
    theta = 0 := by
  have hq : theta ⬝ᵥ (affineSystem a).1.mulVec theta = 0 := by rw [h0, dotProduct_zero]
  rw [affineSystem_eq_sum, Prod.fst_add, Matrix.add_mulVec, dotProduct_add, if_pos hact,
    sum_pair_quadratic_form] at hq
  have hppnn : ∀ c ∈ a.point_to_point_correspondences,
      0 ≤ theta ⬝ᵥ (pointStepAffine a 0 c).1.mulVec theta := by
    intro c hc
    rw [pointStepAffine_quadratic]
    exact mul_nonneg (le_of_lt (mul_pos (weight_pos_of_has_point_to_point_terms a hact) (hw c hc)))
      (Finset.sum_nonneg (fun k _ => mul_self_nonneg _))
  have hplnn : 0 ≤ theta ⬝ᵥ (if has_point_to_plane_terms a then
      (a.point_to_plane_correspondences.map (planeStepAffine a 0)).sum else 0).1.mulVec theta := by
    split
    · rename_i hpl
      rw [sum_pair_quadratic_form]
      refine List.sum_nonneg (fun x hx => ?_)
      obtain ⟨c, hc, rfl⟩ := List.mem_map.mp hx
      rw [planeStepAffine_quadratic]
      exact mul_nonneg
        (mul_nonneg (le_of_lt (weight_pos_of_has_point_to_plane_terms a hpl)) (hwl c hc))
        (mul_self_nonneg _)
    · simp
  have hppsum : 0 ≤ (a.point_to_point_correspondences.map
      (fun x => theta ⬝ᵥ (pointStepAffine a 0 x).1.mulVec theta)).sum :=
    List.sum_nonneg (fun x hx => by
      obtain ⟨c, hc, rfl⟩ := List.mem_map.mp hx
      exact hppnn c hc)
  have hz := sum_eq_zero_of_nonneg
    (fun x => theta ⬝ᵥ (pointStepAffine a 0 x).1.mulVec theta)
    a.point_to_point_correspondences hppnn (by linarith)
  have hs : ∀ c ∈ a.point_to_point_correspondences,
      (affineEqVecs (a.src_p.col c.indexInSecond))ᵀ.mulVec theta = 0 := by
    intro c hc
    have h := hz c hc
    simp only at h
    rw [pointStepAffine_quadratic] at h
    rcases mul_eq_zero.mp h with h1 | h1
    · exact absurd h1
        (ne_of_gt (mul_pos (weight_pos_of_has_point_to_point_terms a hact) (hw c hc)))
    · exact (dotProduct_self_eq_zero_iff _).mp h1
  have hrow : ∀ j : Fin D, (fun k => theta (linIndex j k)) = 0 ∧ theta (tailIndex j) = 0 := by
    intro j
    refine hspan _ _ (fun c hc => ?_)
    have := congrFun (hs c hc) j
    rw [affineEqVecs_transpose_mulVec _ theta ⟨0, 0⟩] at this
    simpa [unpackAffine, mulVec, dotProduct] using this
  funext r
  rcases unknown_index_cases r with ⟨j, k, rfl⟩ | ⟨j, rfl⟩
  · exact congrFun (hrow j).1 k
  · exact (hrow j).2

/-- Over the reals the test `normLt` is the comparison of the Euclidean norm
with the tolerance. -/
theorem normLt_real_iff {n : ℕ} (v : Fin n → ℝ) (tol : ℝ) :
    normLt v tol = true ↔ Real.sqrt (v ⬝ᵥ v) < tol := by
  simp only [normLt, decide_eq_true_eq]
  constructor
  · rintro ⟨hpos, hlt⟩
    rw [Real.sqrt_lt' hpos, pow_two]
    exact hlt
  · intro h
    have hpos : 0 < tol := lt_of_le_of_lt (Real.sqrt_nonneg _) h
    refine ⟨hpos, ?_⟩
    rw [Real.sqrt_lt' hpos, pow_two] at h
    exact h

/-! ### Plain sums, symmetry, proper rotations, rank and exact relations -/

theorem accumulatesPlainSum_of_add {α M : Type} [AddCommMonoid M] (step : M → α → M)
    (hstep : ∀ acc x, step acc x = acc + step 0 x) : AccumulatesPlainSum step := by
  have hsum : ∀ l : List α, l.foldl step 0 = (l.map (step 0)).sum := by
    intro l
    rw [foldl_add_eq_sum (step 0) step hstep, zero_add]
  refine ⟨hsum, ?_, ?_⟩
  · intro l l2 hp
    rw [hsum, hsum, (hp.map (step 0)).sum_eq]
  · intro xs ys
    rw [hsum, hsum, hsum, List.map_append, List.sum_append]

theorem affinePointStep_eq_add (acc : Matrix (Fin (NumUnknowns D)) (Fin (NumUnknowns D)) K ×
      (Fin (NumUnknowns D) → K)) (ds : (Fin D → K) × (Fin D → K)) :
    affinePointStep acc ds = acc + affinePointStep 0 ds := by
  simp only [affinePointStep, Prod.fst_zero, Prod.snd_zero, zero_add]
  rfl

theorem ite_sum_perm {α M : Type} [AddCommMonoid M] (f : α → M) (l l2 : List α)
    (hp : l2.Perm l) (w : Bool) :
    (if (!l2.isEmpty && w) = true then (l2.map f).sum else 0) =
      (if (!l.isEmpty && w) = true then (l.map f).sum else 0) := by
  have he : l2.isEmpty = l.isEmpty := by
    cases l with
    | nil => rw [List.Perm.eq_nil hp]
    | cons x xs =>
      cases l2 with
      | nil => exact absurd (List.Perm.nil_eq hp).symm (List.cons_ne_nil _ _)
      | cons y ys => rfl
  rw [he, (hp.map f).sum_eq]

theorem rigidSystem2D_perm (a : CombinedArgs K 2 V W) (T : Transform K 2)
    (cs : CorrespondenceSet V) (es : CorrespondenceSet W)
    (hcs : cs.Perm a.point_to_point_correspondences)
    (hes : es.Perm a.point_to_plane_correspondences) :
    rigidSystem2D { a with point_to_point_correspondences := cs,
                           point_to_plane_correspondences := es } T = rigidSystem2D a T := by
  rw [rigidSystem2D_eq_sum, rigidSystem2D_eq_sum]
  simp only [has_point_to_point_terms, has_point_to_plane_terms]
  congr 1
  · exact ite_sum_perm (pointStep2D a T 0) _ cs hcs _
  · exact ite_sum_perm (planeStep2D a T 0) _ es hes _

theorem rigidSystem3D_perm (a : CombinedArgs K 3 V W) (T : Transform K 3)
    (cs : CorrespondenceSet V) (es : CorrespondenceSet W)
    (hcs : cs.Perm a.point_to_point_correspondences)
    (hes : es.Perm a.point_to_plane_correspondences) :
    rigidSystem3D { a with point_to_point_correspondences := cs,
                           point_to_plane_correspondences := es } T = rigidSystem3D a T := by
  rw [rigidSystem3D_eq_sum, rigidSystem3D_eq_sum]
  simp only [has_point_to_point_terms, has_point_to_plane_terms]
  congr 1
  · exact ite_sum_perm (pointStep3D a T 0) _ cs hcs _
  · exact ite_sum_perm (planeStep3D a T 0) _ es hes _

theorem affineSystem_perm (a : CombinedArgs K D V W)
    (cs : CorrespondenceSet V) (es : CorrespondenceSet W)
    (hcs : cs.Perm a.point_to_point_correspondences)
    (hes : es.Perm a.point_to_plane_correspondences) :
    affineSystem { a with point_to_point_correspondences := cs,
                          point_to_plane_correspondences := es } = affineSystem a := by
  rw [affineSystem_eq_sum, affineSystem_eq_sum]
  simp only [has_point_to_point_terms, has_point_to_plane_terms]
  congr 1
  · exact ite_sum_perm (pointStepAffine a 0) _ cs hcs _
  · exact ite_sum_perm (planeStepAffine a 0) _ es hes _

theorem eqVec2D_eq (n s : Fin 2 → K) : eqVec2D n s = (eqVecs2D s).mulVec n := by
  funext i
  fin_cases i <;>
    simp [eqVec2D, eqVecs2D, Matrix.mulVec, dotProduct, Fin.sum_univ_two]
  ring

theorem eqVec3D_eq (n s : Fin 3 → K) : eqVec3D n s = (eqVecs3D s).mulVec n := by
  have h5 : (5 : Fin 6) = Fin.succ 4 := rfl
  funext i
  fin_cases i <;>
    simp [eqVec3D, eqVecs3D, Matrix.mulVec, dotProduct, Fin.sum_univ_three, h5] <;> ring

theorem affineEqVec_eq (n s : Fin D → K) : affineEqVec n s = (affineEqVecs s).mulVec n := by
  funext r
  simp only [Matrix.mulVec, dotProduct]
  rcases unknown_index_cases r with ⟨j, k, rfl⟩ | ⟨j, rfl⟩
  · simp only [affineEqVec_linIndex, affineEqVecs_linIndex, ite_mul, zero_mul]
    rw [Finset.sum_ite_eq Finset.univ j (fun c => s k * n c)]
    simp [mul_comm]
  · simp only [affineEqVec_tailIndex, affineEqVecs_tailIndex, ite_mul, zero_mul, one_mul]
    rw [Finset.sum_ite_eq Finset.univ j (fun c => n c)]
    simp

theorem mulVec_dotProduct_eq {m n : ℕ} (E : Matrix (Fin m) (Fin n) K) (v : Fin n → K)
    (theta : Fin m → K) : E.mulVec v ⬝ᵥ theta = v ⬝ᵥ Eᵀ.mulVec theta := by
  rw [dotProduct_comm, dotProduct_mulVec, dotProduct_comm, ← mulVec_transpose]

theorem planeStep2D_eq_projected (a : CombinedArgs K 2 V W) (T : Transform K 2)
    (acc : Matrix (Fin 3) (Fin 3) K × (Fin 3 → K)) (c : Correspondence W) :
    planeStep2D a T acc c =
      (acc.1 + vecMulVec
          ((a.point_to_plane_weight *
              a.plane_corr_evaluator c.indexInFirst c.indexInSecond c.value) •
            (eqVecs2D (T.apply (a.src_p.col c.indexInSecond))).mulVec
              (a.dst_n.col c.indexInFirst))
          ((eqVecs2D (T.apply (a.src_p.col c.indexInSecond))).mulVec
            (a.dst_n.col c.indexInFirst)),
        acc.2 + ((a.point_to_plane_weight *
              a.plane_corr_evaluator c.indexInFirst c.indexInSecond c.value) *
            (a.dst_n.col c.indexInFirst ⬝ᵥ
              (a.dst_p.col c.indexInFirst - T.apply (a.src_p.col c.indexInSecond)))) •
          (eqVecs2D (T.apply (a.src_p.col c.indexInSecond))).mulVec
            (a.dst_n.col c.indexInFirst)) := by
  rw [← eqVec2D_eq]
  rfl

theorem planeStep3D_eq_projected (a : CombinedArgs K 3 V W) (T : Transform K 3)
    (acc : Matrix (Fin 6) (Fin 6) K × (Fin 6 → K)) (c : Correspondence W) :
    planeStep3D a T acc c =
      (acc.1 + vecMulVec
          ((a.point_to_plane_weight *
              a.plane_corr_evaluator c.indexInFirst c.indexInSecond c.value) •
            (eqVecs3D (T.apply (a.src_p.col c.indexInSecond))).mulVec
              (a.dst_n.col c.indexInFirst))
          ((eqVecs3D (T.apply (a.src_p.col c.indexInSecond))).mulVec
            (a.dst_n.col c.indexInFirst)),
        acc.2 + ((a.point_to_plane_weight *
              a.plane_corr_evaluator c.indexInFirst c.indexInSecond c.value) *
            (a.dst_n.col c.indexInFirst ⬝ᵥ
              (a.dst_p.col c.indexInFirst - T.apply (a.src_p.col c.indexInSecond)))) •
          (eqVecs3D (T.apply (a.src_p.col c.indexInSecond))).mulVec
            (a.dst_n.col c.indexInFirst)) := by
  rw [← eqVec3D_eq]
  rfl

theorem planeStepAffine_eq_projected (a : CombinedArgs K D V W)
    (acc : Matrix (Fin (NumUnknowns D)) (Fin (NumUnknowns D)) K × (Fin (NumUnknowns D) → K))
    (c : Correspondence W) :
    planeStepAffine a acc c =
      (acc.1 + vecMulVec
          ((a.point_to_plane_weight *
              a.plane_corr_evaluator c.indexInFirst c.indexInSecond c.value) •
            (affineEqVecs (a.src_p.col c.indexInSecond)).mulVec (a.dst_n.col c.indexInFirst))
          ((affineEqVecs (a.src_p.col c.indexInSecond)).mulVec (a.dst_n.col c.indexInFirst)),
        acc.2 + ((a.point_to_plane_weight *
              a.plane_corr_evaluator c.indexInFirst c.indexInSecond c.value) *
            (a.dst_n.col c.indexInFirst ⬝ᵥ a.dst_p.col c.indexInFirst)) •
          (affineEqVecs (a.src_p.col c.indexInSecond)).mulVec (a.dst_n.col c.indexInFirst)) := by
  rw [← affineEqVec_eq]
  rfl

theorem sum_pair_fst_transpose {α : Type} {n : ℕ}
    (f : α → Matrix (Fin n) (Fin n) K × (Fin n → K)) (l : List α)
    (h : ∀ x ∈ l, (f x).1ᵀ = (f x).1) : ((l.map f).sum).1ᵀ = ((l.map f).sum).1 := by
  induction l with
  | nil => simp
  | cons x rest ih =>
    rw [List.map_cons, List.sum_cons, Prod.fst_add, transpose_add,
      ih (fun y hy => h y (List.mem_cons_of_mem _ hy)), h x (List.mem_cons_self _ _)]

theorem sum_pair_fst_psd {α : Type} {n : ℕ}
    (f : α → Matrix (Fin n) (Fin n) K × (Fin n → K)) (l : List α) (theta : Fin n → K)
    (h : ∀ x ∈ l, 0 ≤ theta ⬝ᵥ (f x).1.mulVec theta) :
    0 ≤ theta ⬝ᵥ ((l.map f).sum).1.mulVec theta := by
  rw [sum_pair_quadratic_form]
  refine List.sum_nonneg (fun y hy => ?_)
  obtain ⟨x, hx, rfl⟩ := List.mem_map.mp hy
  exact h x hx

theorem smul_mul_transpose_symm {m n : ℕ} (w : K) (E : Matrix (Fin m) (Fin n) K) :
    ((w • E) * Eᵀ)ᵀ = (w • E) * Eᵀ := by
  rw [transpose_mul, transpose_transpose, transpose_smul, Matrix.smul_mul, Matrix.mul_smul]

theorem vecMulVec_smul_symm {m : ℕ} (w : K) (e : Fin m → K) :
    (vecMulVec (w • e) e)ᵀ = vecMulVec (w • e) e := by
  ext i j
  simp only [transpose_apply, vecMulVec_apply, Pi.smul_apply, smul_eq_mul]
  ring

theorem smul_mul_transpose_quadratic {m n : ℕ} (w : K) (E : Matrix (Fin m) (Fin n) K)
    (theta : Fin m → K) :
    theta ⬝ᵥ ((w • E) * Eᵀ).mulVec theta = w * (Eᵀ.mulVec theta ⬝ᵥ Eᵀ.mulVec theta) := by
  rw [Matrix.smul_mul, Matrix.smul_mulVec_assoc, dotProduct_smul, smul_eq_mul, ← mulVec_mulVec,
    dotProduct_mulVec, ← mulVec_transpose]

theorem vecMulVec_smul_quadratic {m : ℕ} (w : K) (e theta : Fin m → K) :
    theta ⬝ᵥ (vecMulVec (w • e) e).mulVec theta = w * ((e ⬝ᵥ theta) * (e ⬝ᵥ theta)) := by
  simp only [dotProduct, mulVec, vecMulVec_apply, Pi.smul_apply, smul_eq_mul, Finset.mul_sum,
    Finset.sum_mul]
  rw [Finset.sum_comm]
  refine Finset.sum_congr rfl (fun i _ => Finset.sum_congr rfl (fun j _ => ?_))
  ring

theorem smul_mul_transpose_psd {m n : ℕ} (w : K) (hw : 0 ≤ w) (E : Matrix (Fin m) (Fin n) K)
    (theta : Fin m → K) : 0 ≤ theta ⬝ᵥ ((w • E) * Eᵀ).mulVec theta := by
  rw [smul_mul_transpose_quadratic]
  exact mul_nonneg hw (Finset.sum_nonneg (fun k _ => mul_self_nonneg _))

theorem vecMulVec_smul_psd {m : ℕ} (w : K) (hw : 0 ≤ w) (e theta : Fin m → K) :
    0 ≤ theta ⬝ᵥ (vecMulVec (w • e) e).mulVec theta := by
  rw [vecMulVec_smul_quadratic]
  exact mul_nonneg hw (mul_self_nonneg _)

/-- The matrix part of a system made of an optional point-to-point sum and an
optional point-to-plane sum is symmetric when every contribution is. -/
theorem system_symm {α β : Type} {n : ℕ}
    (f : α → Matrix (Fin n) (Fin n) K × (Fin n → K))
    (g : β → Matrix (Fin n) (Fin n) K × (Fin n → K)) (l : List α) (l2 : List β) (p q : Bool)
    (hf : ∀ x, (f x).1ᵀ = (f x).1) (hg : ∀ x, (g x).1ᵀ = (g x).1) :
    (((if p = true then (l.map f).sum else 0) + (if q = true then (l2.map g).sum else 0)).1)ᵀ =
      ((if p = true then (l.map f).sum else 0) + (if q = true then (l2.map g).sum else 0)).1 := by
  rw [Prod.fst_add, transpose_add]
  congr 1
  · split
    · exact sum_pair_fst_transpose f l (fun x _ => hf x)
    · simp
  · split
    · exact sum_pair_fst_transpose g l2 (fun x _ => hg x)
    · simp

theorem system_psd {α β : Type} {n : ℕ}
    (f : α → Matrix (Fin n) (Fin n) K × (Fin n → K))
    (g : β → Matrix (Fin n) (Fin n) K × (Fin n → K)) (l : List α) (l2 : List β) (p q : Bool)
    (theta : Fin n → K)
    (hf : p = true → ∀ x ∈ l, 0 ≤ theta ⬝ᵥ (f x).1.mulVec theta)
    (hg : q = true → ∀ x ∈ l2, 0 ≤ theta ⬝ᵥ (g x).1.mulVec theta) :
    0 ≤ theta ⬝ᵥ
      ((if p = true then (l.map f).sum else 0) +
        (if q = true then (l2.map g).sum else 0)).1.mulVec theta := by
  rw [Prod.fst_add, Matrix.add_mulVec, dotProduct_add]
  refine add_nonneg ?_ ?_
  · split
    · rename_i hp
      exact sum_pair_fst_psd f l theta (hf hp)
    · simp
  · split
    · rename_i hq
      exact sum_pair_fst_psd g l2 theta (hg hq)
    · simp

theorem affinePointSystem_symm (dst src : VectorSet K D) :
    (affinePointSystem dst src).1ᵀ = (affinePointSystem dst src).1 := by
  rw [affinePointSystem_eq_sum]
  refine sum_pair_fst_transpose _ _ (fun ds _ => ?_)
  simp only [transpose_mul, transpose_transpose]

theorem affinePointSystem_psd (dst src : VectorSet K D) (theta : Fin (NumUnknowns D) → K) :
    0 ≤ theta ⬝ᵥ (affinePointSystem dst src).1.mulVec theta := by
  rw [affinePointSystem_eq_sum]
  refine sum_pair_fst_psd _ _ theta (fun ds _ => ?_)
  have h := smul_mul_transpose_psd (1 : K) zero_le_one (affineEqVecs ds.2) theta
  rwa [one_smul] at h

theorem pointWeight_nonneg {E : ℕ} (a : CombinedArgs K E V W)
    (hact : has_point_to_point_terms a = true) (c : Correspondence V)
    (hc : 0 ≤ a.point_corr_evaluator c.indexInFirst c.indexInSecond c.value) :
    0 ≤ a.point_to_point_weight *
      a.point_corr_evaluator c.indexInFirst c.indexInSecond c.value :=
  mul_nonneg (le_of_lt ((has_point_to_point_terms_iff a).mp hact).2) hc

theorem planeWeight_nonneg {E : ℕ} (a : CombinedArgs K E V W)
    (hact : has_point_to_plane_terms a = true) (c : Correspondence W)
    (hc : 0 ≤ a.plane_corr_evaluator c.indexInFirst c.indexInSecond c.value) :
    0 ≤ a.point_to_plane_weight *
      a.plane_corr_evaluator c.indexInFirst c.indexInSecond c.value :=
  mul_nonneg (le_of_lt ((has_point_to_plane_terms_iff a).mp hact).2) hc

theorem rigidSystem2D_symm (a : CombinedArgs K 2 V W) (T : Transform K 2) :
    (rigidSystem2D a T).1ᵀ = (rigidSystem2D a T).1 := by
  rw [rigidSystem2D_eq_sum]
  refine system_symm _ _ _ _ _ _ (fun c => ?_) (fun c => ?_)
  · simp only [pointStep2D, Prod.fst_zero, zero_add]
    exact smul_mul_transpose_symm _ _
  · simp only [planeStep2D, Prod.fst_zero, zero_add]
    exact vecMulVec_smul_symm _ _

theorem rigidSystem3D_symm (a : CombinedArgs K 3 V W) (T : Transform K 3) :
    (rigidSystem3D a T).1ᵀ = (rigidSystem3D a T).1 := by
  rw [rigidSystem3D_eq_sum]
  refine system_symm _ _ _ _ _ _ (fun c => ?_) (fun c => ?_)
  · simp only [pointStep3D, Prod.fst_zero, zero_add]
    exact smul_mul_transpose_symm _ _
  · simp only [planeStep3D, Prod.fst_zero, zero_add]
    exact vecMulVec_smul_symm _ _

theorem affineSystem_symm (a : CombinedArgs K D V W) :
    (affineSystem a).1ᵀ = (affineSystem a).1 := by
  rw [affineSystem_eq_sum]
  refine system_symm _ _ _ _ _ _ (fun c => ?_) (fun c => ?_)
  · simp only [pointStepAffine, Prod.fst_zero, zero_add]
    exact smul_mul_transpose_symm _ _
  · simp only [planeStepAffine, Prod.fst_zero, zero_add]
    exact vecMulVec_smul_symm _ _

theorem rigidSystem2D_psd (a : CombinedArgs K 2 V W) (T : Transform K 2)
    (hp : ∀ c ∈ a.point_to_point_correspondences,
      0 ≤ a.point_corr_evaluator c.indexInFirst c.indexInSecond c.value)
    (hl : ∀ c ∈ a.point_to_plane_correspondences,
      0 ≤ a.plane_corr_evaluator c.indexInFirst c.indexInSecond c.value)
    (theta : Fin 3 → K) : 0 ≤ theta ⬝ᵥ (rigidSystem2D a T).1.mulVec theta := by
  rw [rigidSystem2D_eq_sum]
  refine system_psd _ _ _ _ _ _ theta (fun hact c hc => ?_) (fun hact c hc => ?_)
  · simp only [pointStep2D, Prod.fst_zero, zero_add]
    exact smul_mul_transpose_psd _ (pointWeight_nonneg a hact c (hp c hc)) _ _
  · simp only [planeStep2D, Prod.fst_zero, zero_add]
    exact vecMulVec_smul_psd _ (planeWeight_nonneg a hact c (hl c hc)) _ _

theorem rigidSystem3D_psd (a : CombinedArgs K 3 V W) (T : Transform K 3)
    (hp : ∀ c ∈ a.point_to_point_correspondences,
      0 ≤ a.point_corr_evaluator c.indexInFirst c.indexInSecond c.value)
    (hl : ∀ c ∈ a.point_to_plane_correspondences,
      0 ≤ a.plane_corr_evaluator c.indexInFirst c.indexInSecond c.value)
    (theta : Fin 6 → K) : 0 ≤ theta ⬝ᵥ (rigidSystem3D a T).1.mulVec theta := by
  rw [rigidSystem3D_eq_sum]
  refine system_psd _ _ _ _ _ _ theta (fun hact c hc => ?_) (fun hact c hc => ?_)
  · simp only [pointStep3D, Prod.fst_zero, zero_add]
    exact smul_mul_transpose_psd _ (pointWeight_nonneg a hact c (hp c hc)) _ _
  · simp only [planeStep3D, Prod.fst_zero, zero_add]
    exact vecMulVec_smul_psd _ (planeWeight_nonneg a hact c (hl c hc)) _ _

theorem affineSystem_psd (a : CombinedArgs K D V W)
    (hp : ∀ c ∈ a.point_to_point_correspondences,
      0 ≤ a.point_corr_evaluator c.indexInFirst c.indexInSecond c.value)
    (hl : ∀ c ∈ a.point_to_plane_correspondences,
      0 ≤ a.plane_corr_evaluator c.indexInFirst c.indexInSecond c.value)
    (theta : Fin (NumUnknowns D) → K) : 0 ≤ theta ⬝ᵥ (affineSystem a).1.mulVec theta := by
  rw [affineSystem_eq_sum]
  refine system_psd _ _ _ _ _ _ theta (fun hact c hc => ?_) (fun hact c hc => ?_)
  · simp only [pointStepAffine, Prod.fst_zero, zero_add]
    exact smul_mul_transpose_psd _ (pointWeight_nonneg a hact c (hp c hc)) _ _
  · simp only [planeStepAffine, Prod.fst_zero, zero_add]
    exact vecMulVec_smul_psd _ (planeWeight_nonneg a hact c (hl c hc)) _ _

theorem loop_symm {α : Type} {n : ℕ}
    (step : Matrix (Fin n) (Fin n) K × (Fin n → K) → α →
      Matrix (Fin n) (Fin n) K × (Fin n → K))
    (hstep : ∀ acc x, step acc x = acc + step 0 x)
    (hsym : ∀ x, (step 0 x).1ᵀ = (step 0 x).1) (l : List α) :
    ((l.foldl step 0).1)ᵀ = (l.foldl step 0).1 := by
  rw [foldl_add_eq_sum (step 0) step hstep, zero_add]
  exact sum_pair_fst_transpose _ l (fun x _ => hsym x)

theorem loop_psd {α : Type} {n : ℕ}
    (step : Matrix (Fin n) (Fin n) K × (Fin n → K) → α →
      Matrix (Fin n) (Fin n) K × (Fin n → K))
    (hstep : ∀ acc x, step acc x = acc + step 0 x) (l : List α) (theta : Fin n → K)
    (hpsd : ∀ x ∈ l, 0 ≤ theta ⬝ᵥ (step 0 x).1.mulVec theta) :
    0 ≤ theta ⬝ᵥ (l.foldl step 0).1.mulVec theta := by
  rw [foldl_add_eq_sum (step 0) step hstep, zero_add]
  exact sum_pair_fst_psd _ l theta hpsd

theorem isProperRotation_one : IsProperRotation (1 : Matrix (Fin D) (Fin D) K) :=
  ⟨by simp, by simp, det_one⟩

theorem IsProperRotation.mul {A B : Matrix (Fin D) (Fin D) K}
    (hA : IsProperRotation A) (hB : IsProperRotation B) : IsProperRotation (A * B) := by
  have h1 : (A * B) * (A * B)ᵀ = 1 := by
    rw [transpose_mul, Matrix.mul_assoc, ← Matrix.mul_assoc B, hB.1, Matrix.one_mul, hA.1]
  exact ⟨h1, transpose_mul_self_of_orthogonal _ h1, by rw [det_mul, hA.2.2, hB.2.2, mul_one]⟩

theorem isProperRotation_of_orthogonal_det {A : Matrix (Fin D) (Fin D) K}
    (h1 : A * Aᵀ = 1) (h2 : A.det = 1) : IsProperRotation A :=
  ⟨h1, transpose_mul_self_of_orthogonal _ h1, h2⟩

theorem rotation2D_proper (cos sin : K → K)
    (hcs : ∀ x, cos x * cos x + sin x * sin x = 1) (angle : K) :
    IsProperRotation (rotation2D cos sin angle) := by
  have h := hcs angle
  refine isProperRotation_of_orthogonal_det ?_ ?_
  · ext i j
    simp only [Matrix.mul_apply, Matrix.transpose_apply, Fin.sum_univ_two, Matrix.one_apply]
    fin_cases i <;> fin_cases j <;> simp [rotation2D, vecHead, vecTail] <;>
      first | linear_combination h | ring
  · simp only [rotation2D, det_fin_two_of]
    linear_combination h

theorem angleAxisX_proper (cos sin : K → K)
    (hcs : ∀ x, cos x * cos x + sin x * sin x = 1) (angle : K) :
    IsProperRotation (angleAxisX cos sin angle) := by
  have h := hcs angle
  refine isProperRotation_of_orthogonal_det ?_ ?_
  · ext i j
    simp only [Matrix.mul_apply, Matrix.transpose_apply, Fin.sum_univ_three, Matrix.one_apply]
    fin_cases i <;> fin_cases j <;> simp [angleAxisX, vecHead, vecTail] <;>
      first | linear_combination h | ring
  · simp [angleAxisX, det_fin_three, vecHead, vecTail]
    linear_combination h

theorem angleAxisY_proper (cos sin : K → K)
    (hcs : ∀ x, cos x * cos x + sin x * sin x = 1) (angle : K) :
    IsProperRotation (angleAxisY cos sin angle) := by
  have h := hcs angle
  refine isProperRotation_of_orthogonal_det ?_ ?_
  · ext i j
    simp only [Matrix.mul_apply, Matrix.transpose_apply, Fin.sum_univ_three, Matrix.one_apply]
    fin_cases i <;> fin_cases j <;> simp [angleAxisY, vecHead, vecTail] <;>
      first | linear_combination h | ring
  · simp [angleAxisY, det_fin_three, vecHead, vecTail]
    linear_combination h

theorem angleAxisZ_proper (cos sin : K → K)
    (hcs : ∀ x, cos x * cos x + sin x * sin x = 1) (angle : K) :
    IsProperRotation (angleAxisZ cos sin angle) := by
  have h := hcs angle
  refine isProperRotation_of_orthogonal_det ?_ ?_
  · ext i j
    simp only [Matrix.mul_apply, Matrix.transpose_apply, Fin.sum_univ_three, Matrix.one_apply]
    fin_cases i <;> fin_cases j <;> simp [angleAxisZ, vecHead, vecTail] <;>
      first | linear_combination h | ring
  · simp [angleAxisZ, det_fin_three, vecHead, vecTail]
    linear_combination h

theorem circle_identity (x : K) :
    circleCos x * circleCos x + circleSin x * circleSin x = 1 := by
  have h : (1 + x * x) ≠ 0 := by
    have := mul_self_nonneg x
    linarith
  simp only [circleCos, circleSin]
  field_simp
  ring

theorem updatesFrom_invariant {n : ℕ} (P : Transform K D → Prop)
    (step : Transform K D → (Fin n → K) × Transform K D)
    (hstep : ∀ T, P T → P (step T).2) (T : Transform K D) (hT : P T) :
    ∀ k, P (updatesFrom step T k) := by
  intro k
  induction k with
  | zero => exact hT
  | succ k ih => exact hstep _ ih

theorem gaussNewtonLoop_invariant {n : ℕ} (P : Transform K D → Prop)
    (step : Transform K D → (Fin n → K) × Transform K D) (tol : K)
    (hstep : ∀ T, P T → P (step T).2) :
    ∀ (r iter : ℕ) (T : Transform K D), P T → P (gaussNewtonLoop step tol r iter T).2.1 := by
  intro r
  induction r with
  | zero => intro iter T hT; exact hT
  | succ r ih =>
    intro iter T hT
    simp only [gaussNewtonLoop]
    split
    · exact hstep T hT
    · exact ih (iter + 1) _ (hstep T hT)

theorem update2D_eq (cos sin : K → K)
    (rot : Matrix (Fin 2) (Fin 2) K → Matrix (Fin 2) (Fin 2) K)
    (hcs : ∀ x, cos x * cos x + sin x * sin x = 1)
    (hrot : ∀ M : Matrix (Fin 2) (Fin 2) K, IsProperRotation M → rot M = M)
    (T : Transform K 2) (d : Fin 3 → K) (hT : IsProperRotation T.linear) :
    update2D cos sin rot T d =
      { linear := rotation2D cos sin (d 0) * T.linear
        translation := (rotation2D cos sin (d 0)).mulVec T.translation + ![d 1, d 2] } := by
  simp only [update2D, hrot _ ((rotation2D_proper cos sin hcs (d 0)).mul hT)]

theorem angleAxisZYX_proper (cos sin : K → K)
    (hcs : ∀ x, cos x * cos x + sin x * sin x = 1) (d : Fin 6 → K) :
    IsProperRotation (angleAxisZ cos sin (d 2) * angleAxisY cos sin (d 1) *
      angleAxisX cos sin (d 0)) :=
  ((angleAxisZ_proper cos sin hcs _).mul (angleAxisY_proper cos sin hcs _)).mul
    (angleAxisX_proper cos sin hcs _)

theorem update3D_eq (cos sin : K → K)
    (rot : Matrix (Fin 3) (Fin 3) K → Matrix (Fin 3) (Fin 3) K)
    (hcs : ∀ x, cos x * cos x + sin x * sin x = 1)
    (hrot : ∀ M : Matrix (Fin 3) (Fin 3) K, IsProperRotation M → rot M = M)
    (T : Transform K 3) (d : Fin 6 → K) (hT : IsProperRotation T.linear) :
    update3D cos sin rot T d =
      { linear := angleAxisZ cos sin (d 2) * angleAxisY cos sin (d 1) *
          angleAxisX cos sin (d 0) * T.linear
        translation := (angleAxisZ cos sin (d 2) * angleAxisY cos sin (d 1) *
          angleAxisX cos sin (d 0)).mulVec T.translation + ![d 3, d 4, d 5] } := by
  simp only [update3D, hrot _ ((angleAxisZYX_proper cos sin hcs d).mul hT)]

theorem update2D_proper (cos sin : K → K)
    (rot : Matrix (Fin 2) (Fin 2) K → Matrix (Fin 2) (Fin 2) K)
    (hcs : ∀ x, cos x * cos x + sin x * sin x = 1)
    (hrot : ∀ M : Matrix (Fin 2) (Fin 2) K, IsProperRotation M → rot M = M)
    (T : Transform K 2) (d : Fin 3 → K) (hT : IsProperRotation T.linear) :
    IsProperRotation (update2D cos sin rot T d).linear := by
  rw [update2D_eq cos sin rot hcs hrot T d hT]
  exact (rotation2D_proper cos sin hcs (d 0)).mul hT

theorem update3D_proper (cos sin : K → K)
    (rot : Matrix (Fin 3) (Fin 3) K → Matrix (Fin 3) (Fin 3) K)
    (hcs : ∀ x, cos x * cos x + sin x * sin x = 1)
    (hrot : ∀ M : Matrix (Fin 3) (Fin 3) K, IsProperRotation M → rot M = M)
    (T : Transform K 3) (d : Fin 6 → K) (hT : IsProperRotation T.linear) :
    IsProperRotation (update3D cos sin rot T d).linear := by
  rw [update3D_eq cos sin rot hcs hrot T d hT]
  exact (angleAxisZYX_proper cos sin hcs d).mul hT

theorem estimate2DTrace_proper
    (solve : Matrix (Fin 3) (Fin 3) K → (Fin 3 → K) → (Fin 3 → K))
    (cos sin : K → K) (rot : Matrix (Fin 2) (Fin 2) K → Matrix (Fin 2) (Fin 2) K)
    (hcs : ∀ x, cos x * cos x + sin x * sin x = 1)
    (hrot : ∀ M : Matrix (Fin 2) (Fin 2) K, IsProperRotation M → rot M = M)
    (a : CombinedArgs K 2 V W) (tform : Transform K 2) :
    IsProperRotation (estimateTransformCombinedMetric2D solve cos sin rot a tform).2.linear := by
  simp only [estimateTransformCombinedMetric2D, estimateTransformCombinedMetric2DTrace]
  split
  · exact isProperRotation_one
  · exact gaussNewtonLoop_invariant (fun T => IsProperRotation T.linear) _ _
      (fun T hT => update2D_proper cos sin rot hcs hrot T _ hT) _ _ _ isProperRotation_one

theorem estimate3DTrace_proper
    (solve : Matrix (Fin 6) (Fin 6) K → (Fin 6 → K) → (Fin 6 → K))
    (cos sin : K → K) (rot : Matrix (Fin 3) (Fin 3) K → Matrix (Fin 3) (Fin 3) K)
    (hcs : ∀ x, cos x * cos x + sin x * sin x = 1)
    (hrot : ∀ M : Matrix (Fin 3) (Fin 3) K, IsProperRotation M → rot M = M)
    (a : CombinedArgs K 3 V W) (tform : Transform K 3) :
    IsProperRotation (estimateTransformCombinedMetric3D solve cos sin rot a tform).2.linear := by
  simp only [estimateTransformCombinedMetric3D, estimateTransformCombinedMetric3DTrace]
  split
  · exact isProperRotation_one
  · exact gaussNewtonLoop_invariant (fun T => IsProperRotation T.linear) _ _
      (fun T hT => update3D_proper cos sin rot hcs hrot T _ hT) _ _ _ isProperRotation_one

theorem sum_map_smul {α M : Type} [AddCommMonoid M] [Module K M] (w : K) (f : α → M)
    (l : List α) : (l.map (fun x => w • f x)).sum = w • (l.map f).sum := by
  induction l with
  | nil => simp
  | cons x rest ih => rw [List.map_cons, List.sum_cons, ih, List.map_cons, List.sum_cons, smul_add]

theorem affinePointSystem_select_eq_sum (corr : CorrespondenceSet V) (dst src : VectorSet K D) :
    affinePointSystem (selectCorrespondingPoints corr dst src).1
        (selectCorrespondingPoints corr dst src).2 =
      (corr.map (fun c =>
        (affineEqVecs (src.col c.indexInSecond) * (affineEqVecs (src.col c.indexInSecond))ᵀ,
          (affineEqVecs (src.col c.indexInSecond)).mulVec (dst.col c.indexInFirst)))).sum := by
  rw [affinePointSystem_eq_sum]
  simp only [selectCorrespondingPoints, List.zip_map', List.map_map]
  rfl

/-- With the point-to-plane terms inactive and unity weights, the affine
combined system is the global weight times the affine point-to-point system of
the selected points. -/
theorem affineSystem_point_only (a : CombinedArgs K D V W)
    (hact : has_point_to_point_terms a = true) (hpl : has_point_to_plane_terms a = false)
    (hunity : ∀ c ∈ a.point_to_point_correspondences,
      a.point_corr_evaluator c.indexInFirst c.indexInSecond c.value = 1) :
    affineSystem a = a.point_to_point_weight •
      affinePointSystem (selectCorrespondingPoints a.point_to_point_correspondences
          a.dst_p a.src_p).1
        (selectCorrespondingPoints a.point_to_point_correspondences a.dst_p a.src_p).2 := by
  rw [affineSystem_eq_sum, hact, hpl, affinePointSystem_select_eq_sum, ← sum_map_smul]
  simp only [if_true, Bool.false_eq_true, if_false, add_zero]
  congr 1
  refine List.map_congr_left (fun c hc => ?_)
  simp only [pointStepAffine, hunity c hc, mul_one, Prod.fst_zero, Prod.snd_zero, zero_add,
    Prod.smul_mk, Matrix.smul_mul, mulVec_smul]

theorem preconditionViolated_of_point_only {E : ℕ} (a : CombinedArgs K E V W)
    (hact : has_point_to_point_terms a = true) (hpl : has_point_to_plane_terms a = false) :
    preconditionViolated a = false := by
  simp [preconditionViolated, hact, hpl]

theorem activeCorrespondenceCount_point_only (a : CombinedArgs K D V W)
    (hact : has_point_to_point_terms a = true) (hpl : has_point_to_plane_terms a = false) :
    activeCorrespondenceCount a = a.point_to_point_correspondences.length := by
  simp [activeCorrespondenceCount, hact, hpl]

theorem estimateAffineCorr_of_nonempty
    (solve : Matrix (Fin (NumUnknowns D)) (Fin (NumUnknowns D)) K →
      (Fin (NumUnknowns D) → K) → (Fin (NumUnknowns D) → K))
    (dst src : VectorSet K D) (corr : CorrespondenceSet V) (tform : Transform K D)
    (hne : corr ≠ []) :
    estimateTransformPointToPointMetricAffineCorr solve dst src corr tform =
      (decide (D + 1 ≤ corr.length),
        unpackAffine
          (solve (affinePointSystem (selectCorrespondingPoints corr dst src).1
              (selectCorrespondingPoints corr dst src).2).1
            (affinePointSystem (selectCorrespondingPoints corr dst src).1
              (selectCorrespondingPoints corr dst src).2).2) tform) := by
  have hlen : (selectCorrespondingPoints corr dst src).2.length =
      (selectCorrespondingPoints corr dst src).1.length := by
    simp [selectCorrespondingPoints]
  have hpos : (selectCorrespondingPoints corr dst src).2.length ≠ 0 := by
    simp [selectCorrespondingPoints, hne]
  rw [estimateTransformPointToPointMetricAffineCorr,
    estimateAffine_of_lengths solve _ _ tform hlen hpos]
  simp [selectCorrespondingPoints]

theorem sum_pair_fst_apply {α n : Type} (f : α → Matrix n n K × (n → K)) (l : List α)
    (r s : n) : ((l.map f).sum).1 r s = (l.map (fun x => (f x).1 r s)).sum := by
  induction l with
  | nil => simp
  | cons x rest ih =>
    rw [List.map_cons, List.sum_cons, Prod.fst_add, Matrix.add_apply, ih, List.map_cons,
      List.sum_cons]

/-- A sum of `l.length` matrices `vecMulVec (w • e) e` has rank at most
`l.length`: it is the product of a matrix with `l.length` columns and a matrix
with `l.length` rows. -/
theorem rank_sum_vecMulVec_le {α : Type} {n : ℕ} (w : α → K) (e : α → Fin n → K)
    (l : List α) :
    ((l.map (fun x => ((vecMulVec (w x • e x) (e x), (0 : Fin n → K)) :
      Matrix (Fin n) (Fin n) K × (Fin n → K)))).sum).1.rank ≤ l.length := by
  have hprod : ((l.map (fun x => ((vecMulVec (w x • e x) (e x), (0 : Fin n → K)) :
        Matrix (Fin n) (Fin n) K × (Fin n → K)))).sum).1 =
      (Matrix.of (fun (r : Fin n) (i : Fin l.length) => w (l.get i) * e (l.get i) r)) *
        (Matrix.of (fun (i : Fin l.length) (s : Fin n) => e (l.get i) s)) := by
    ext r s
    rw [sum_pair_fst_apply, Matrix.mul_apply]
    simp only [vecMulVec_apply, Pi.smul_apply, smul_eq_mul, Matrix.of_apply]
    exact (Fin.sum_univ_get' l (fun x => w x * e x r * e x s)).symm
  rw [hprod]
  exact (rank_mul_le_left _ _).trans (rank_le_width _)

theorem planeStepAffine_zero (a : CombinedArgs K D V W) (c : Correspondence W) :
    (planeStepAffine a 0 c).1 =
      vecMulVec ((a.point_to_plane_weight *
          a.plane_corr_evaluator c.indexInFirst c.indexInSecond c.value) •
          affineEqVec (a.dst_n.col c.indexInFirst) (a.src_p.col c.indexInSecond))
        (affineEqVec (a.dst_n.col c.indexInFirst) (a.src_p.col c.indexInSecond)) := by
  simp only [planeStepAffine, Prod.fst_zero, zero_add]

theorem sum_pair_fst_congr {α n : Type} (f g : α → Matrix n n K × (n → K)) (l : List α)
    (h : ∀ x, (f x).1 = (g x).1) : ((l.map f).sum).1 = ((l.map g).sum).1 := by
  induction l with
  | nil => simp
  | cons x rest ih =>
    rw [List.map_cons, List.sum_cons, Prod.fst_add, ih, h x, List.map_cons, List.sum_cons,
      Prod.fst_add]

/-- With only point-to-plane terms active, the affine combined `AtA` has rank
at most the number of point-to-plane correspondences. -/
theorem affineSystem_plane_only_rank (a : CombinedArgs K D V W)
    (hpp : has_point_to_point_terms a = false) :
    (affineSystem a).1.rank ≤ a.point_to_plane_correspondences.length := by
  rw [affineSystem_eq_sum, hpp]
  simp only [Bool.false_eq_true, if_false, zero_add]
  split
  · rw [sum_pair_fst_congr _ (fun c => ((vecMulVec ((a.point_to_plane_weight *
          a.plane_corr_evaluator c.indexInFirst c.indexInSecond c.value) •
          affineEqVec (a.dst_n.col c.indexInFirst) (a.src_p.col c.indexInSecond))
        (affineEqVec (a.dst_n.col c.indexInFirst) (a.src_p.col c.indexInSecond)),
          (0 : Fin (NumUnknowns D) → K)))) _ (fun c => planeStepAffine_zero a c)]
    exact rank_sum_vecMulVec_le
      (fun c : Correspondence W => a.point_to_plane_weight *
        a.plane_corr_evaluator c.indexInFirst c.indexInSecond c.value)
      (fun c => affineEqVec (a.dst_n.col c.indexInFirst) (a.src_p.col c.indexInSecond)) _
  · simp

theorem det_eq_zero_of_rank_lt {n : ℕ} (M : Matrix (Fin n) (Fin n) K) (h : M.rank < n) :
    M.det = 0 := by
  by_contra hdet
  have hu : IsUnit M := (Matrix.isUnit_iff_isUnit_det M).mpr (isUnit_iff_ne_zero.mpr hdet)
  have hr := rank_of_isUnit M hu
  rw [Fintype.card_fin] at hr
  omega

/-- The contribution of one point-to-plane correspondence to the affine `AtA`
has rank at most one. -/
theorem planeStepAffine_rank_le_one (a : CombinedArgs K D V W) (c : Correspondence W) :
    (planeStepAffine a 0 c).1.rank ≤ 1 := by
  have h := rank_sum_vecMulVec_le
    (fun c : Correspondence W => a.point_to_plane_weight *
      a.plane_corr_evaluator c.indexInFirst c.indexInSecond c.value)
    (fun c => affineEqVec (a.dst_n.col c.indexInFirst) (a.src_p.col c.indexInSecond)) [c]
  simpa [planeStepAffine] using h

theorem affineSystem_plane_only (a : CombinedArgs K D V W)
    (hpp : has_point_to_point_terms a = false) (hpl : has_point_to_plane_terms a = true) :
    affineSystem a = (a.point_to_plane_correspondences.map (planeStepAffine a 0)).sum := by
  rw [affineSystem_eq_sum, hpp, hpl]
  simp

/-- The rigid point-to-point estimator recovers an exact rigid relation when
the cross-covariance has at most one vanishing singular value, placed last,
and the SVD returned orthogonal factors. -/
theorem estimateRigid_recovers
    (svd : Matrix (Fin D) (Fin D) K → Matrix (Fin D) (Fin D) K × Matrix (Fin D) (Fin D) K)
    (R : Matrix (Fin D) (Fin D) K) (t : Fin D → K) (src : VectorSet K D)
    (tform : Transform K D) (S : Fin D → K)
    (hR : R * Rᵀ = 1) (hdetR : R.det = 1) (hD : 0 < D) (hN : D ≤ src.length)
    (hU : (svd (crossCovariance (src.map (fun s => R.mulVec s + t)) src)).1 *
      (svd (crossCovariance (src.map (fun s => R.mulVec s + t)) src)).1ᵀ = 1)
    (hV : (svd (crossCovariance (src.map (fun s => R.mulVec s + t)) src)).2 *
      (svd (crossCovariance (src.map (fun s => R.mulVec s + t)) src)).2ᵀ = 1)
    (hsvd : crossCovariance (src.map (fun s => R.mulVec s + t)) src =
      (svd (crossCovariance (src.map (fun s => R.mulVec s + t)) src)).1 * diagonal S *
        (svd (crossCovariance (src.map (fun s => R.mulVec s + t)) src)).2ᵀ)
    (hS0 : ∀ i, 0 ≤ S i) (hSpos : ∀ i : Fin D, i.val + 1 < D → 0 < S i) :
    estimateTransformPointToPointMetricRigid svd (src.map (fun s => R.mulVec s + t)) src tform
      = (true, { linear := R, translation := t }) := by
  have hne : src.length ≠ 0 := by omega
  have hlin : rigidLinear (svd (crossCovariance (src.map (fun s => R.mulVec s + t)) src)).1
      (svd (crossCovariance (src.map (fun s => R.mulVec s + t)) src)).2 = R := by
    refine rigidLinear_recovers R (crossCovariance src src) _ _ S hR hdetR hU hV
      (crossCovariance_self_transpose src) (crossCovariance_self_psd src) hS0 hSpos ?_
    rw [← crossCovariance_map_affine R t src hne]
    exact hsvd
  rw [estimateRigid_of_lengths svd _ src tform (by simp) hne, hlin,
    rowwiseMean_map_affine R t src hne]
  simp [hN]

/-- When every correspondence pairs a source point with its image under `T`,
the unknowns packed from `T` solve the affine combined system. -/
theorem affineSystem_exact_normal_equations (a : CombinedArgs K D V W) (T : Transform K D)
    (hpp : ∀ c ∈ a.point_to_point_correspondences,
      a.dst_p.col c.indexInFirst = T.apply (a.src_p.col c.indexInSecond))
    (hpl : ∀ c ∈ a.point_to_plane_correspondences,
      a.dst_p.col c.indexInFirst = T.apply (a.src_p.col c.indexInSecond)) :
    (affineSystem a).1.mulVec (packAffine T.linear T.translation) = (affineSystem a).2 := by
  rw [affineSystem_eq_sum, Prod.fst_add, Prod.snd_add, Matrix.add_mulVec]
  congr 1
  · split
    · refine sum_pair_normal_equations _ _ _ (fun c hc => ?_)
      simp only [pointStepAffine, Prod.fst_zero, Prod.snd_zero, zero_add]
      rw [← mulVec_mulVec, affineEqVecs_transpose_mulVec _ _ ⟨0, 0⟩, unpackAffine_packAffine,
        hpp c hc, Matrix.smul_mulVec_assoc, mulVec_smul]
      rfl
    · simp
  · split
    · refine sum_pair_normal_equations _ _ _ (fun c hc => ?_)
      simp only [planeStepAffine, Prod.fst_zero, Prod.snd_zero, zero_add]
      funext r
      have hdot := affineEqVec_dotProduct (a.dst_n.col c.indexInFirst)
        (a.src_p.col c.indexInSecond) (packAffine T.linear T.translation) ⟨0, 0⟩
      rw [unpackAffine_packAffine] at hdot
      rw [hpl c hc]
      simp only [mulVec, vecMulVec_apply, Pi.smul_apply, smul_eq_mul, Transform.apply]
      have hfun : (fun j =>
          a.point_to_plane_weight * a.plane_corr_evaluator c.indexInFirst c.indexInSecond c.value *
              affineEqVec (a.dst_n.col c.indexInFirst) (a.src_p.col c.indexInSecond) r *
            affineEqVec (a.dst_n.col c.indexInFirst) (a.src_p.col c.indexInSecond) j) =
          (a.point_to_plane_weight * a.plane_corr_evaluator c.indexInFirst c.indexInSecond c.value *
              affineEqVec (a.dst_n.col c.indexInFirst) (a.src_p.col c.indexInSecond) r) •
            affineEqVec (a.dst_n.col c.indexInFirst) (a.src_p.col c.indexInSecond) := rfl
      rw [hfun, smul_dotProduct, hdot, smul_eq_mul]
      simp only [mulVec]
      ring
    · simp

/-- The affine combined-metric estimator recovers an exact affine relation
when the accumulated matrix is injective and the solver solved the system. -/
theorem estimateAffineCombined_recovers
    (solve : Matrix (Fin (NumUnknowns D)) (Fin (NumUnknowns D)) K →
      (Fin (NumUnknowns D) → K) → (Fin (NumUnknowns D) → K))
    (a : CombinedArgs K D V W) (T tform : Transform K D)
    (hpre : preconditionViolated a = false)
    (hcount : D + 1 ≤ activeCorrespondenceCount a)
    (hpp : ∀ c ∈ a.point_to_point_correspondences,
      a.dst_p.col c.indexInFirst = T.apply (a.src_p.col c.indexInSecond))
    (hpl : ∀ c ∈ a.point_to_plane_correspondences,
      a.dst_p.col c.indexInFirst = T.apply (a.src_p.col c.indexInSecond))
    (hinj : ∀ theta, (affineSystem a).1.mulVec theta = 0 → theta = 0)
    (hsolve : (affineSystem a).1.mulVec (solve (affineSystem a).1 (affineSystem a).2) =
      (affineSystem a).2) :
    estimateTransformCombinedMetricAffine solve a tform = (true, T) := by
  have hdiff : solve (affineSystem a).1 (affineSystem a).2 -
      packAffine T.linear T.translation = 0 := by
    refine hinj _ ?_
    rw [mulVec_sub, hsolve, affineSystem_exact_normal_equations a T hpp hpl, sub_self]
  simp only [estimateTransformCombinedMetricAffine, hpre, Bool.false_eq_true, if_false,
    sub_eq_zero.mp hdiff, unpackAffine_packAffine, hcount, decide_True]

/-! ### Evaluations on the concrete inputs -/

theorem exampleQuarterTurn_orthogonal : exampleQuarterTurn * exampleQuarterTurnᵀ = 1 := by
  ext i j
  simp only [Matrix.mul_apply, Matrix.transpose_apply, Fin.sum_univ_two]
  fin_cases i <;> fin_cases j <;> norm_num [exampleQuarterTurn]

theorem exampleTurned_crossCovariance :
    crossCovariance exampleTurned examplePoints =
      exampleQuarterTurn * diagonal ![1 / 2, 1 / 2] * (1 : Matrix (Fin 2) (Fin 2) ℚ)ᵀ := by
  ext i j
  simp only [Matrix.mul_apply, Matrix.transpose_apply, Fin.sum_univ_two, diagonal_apply,
    Matrix.one_apply]
  fin_cases i <;> fin_cases j <;>
    norm_num [crossCovariance, mulTranspose, colwiseSub, rowwiseMean, exampleTurned,
      examplePoints, exampleQuarterTurn, vecMulVec_apply, vecHead, vecTail, Matrix.one_apply]

theorem exampleTurned_rigid_estimate (tform : Transform ℚ 2) :
    estimateTransformPointToPointMetricRigid (fun _ => (exampleQuarterTurn, 1))
        exampleTurned examplePoints tform
      = (true, { linear := exampleQuarterTurn, translation := ![1, 2] }) :=
  estimateRigid_recovers (fun _ => (exampleQuarterTurn, 1)) exampleQuarterTurn ![1, 2]
    examplePoints tform ![1 / 2, 1 / 2] exampleQuarterTurn_orthogonal
    (by simp [exampleQuarterTurn, det_fin_two])
    (by decide) (by decide) exampleQuarterTurn_orthogonal (by simp)
    exampleTurned_crossCovariance
    (by intro i; fin_cases i <;> norm_num)
    (by intro i _; fin_cases i <;> norm_num)

theorem examplePoints_span (u : Fin 2 → ℚ) (b : ℚ)
    (h : ∀ s ∈ examplePoints, u ⬝ᵥ s + b = 0) : u = 0 ∧ b = 0 := by
  have h0 := h ![1, 0] (by simp [examplePoints])
  have h1 := h ![-1, 0] (by simp [examplePoints])
  have h2 := h ![0, 1] (by simp [examplePoints])
  simp [dotProduct, Fin.sum_univ_two] at h0 h1 h2
  have hb : b = 0 := by linarith
  have hu0 : u 0 = 0 := by linarith
  have hu1 : u 1 = 0 := by linarith
  refine ⟨?_, hb⟩
  funext i
  fin_cases i
  · exact hu0
  · exact hu1

theorem exampleArgs2D_injective (theta : Fin (NumUnknowns 2) → ℚ)
    (h : (affineSystem exampleArgs2D).1.mulVec theta = 0) : theta = 0 :=
  affineSystem_injective exampleArgs2D (by decide)
    (fun c _ => by simp [exampleArgs2D, UnityWeightEvaluator])
    (fun c _ => by simp [exampleArgs2D, UnityWeightEvaluator])
    (fun u b h => examplePoints_span u b (fun s hs => by
      simp only [examplePoints, List.mem_cons, List.mem_singleton, List.not_mem_nil,
        or_false] at hs
      rcases hs with rfl | rfl | rfl | rfl
      · exact h ⟨0, 0, 1⟩ (by simp [exampleArgs2D, exampleIdentityCorr])
      · exact h ⟨1, 1, 1⟩ (by simp [exampleArgs2D, exampleIdentityCorr])
      · exact h ⟨2, 2, 1⟩ (by simp [exampleArgs2D, exampleIdentityCorr])
      · exact h ⟨3, 3, 1⟩ (by simp [exampleArgs2D, exampleIdentityCorr]))) theta h

theorem exampleTurned_affine_estimate (tform : Transform ℚ 2) :
    estimateTransformPointToPointMetricAffine cramerSolve exampleTurned examplePoints tform =
      (true, { linear := exampleQuarterTurn, translation := ![1, 2] }) :=
  estimateAffine_recovers cramerSolve exampleQuarterTurn ![1, 2] examplePoints tform
    (by decide) examplePoints_span
    (cramerSolve_of_injective _ _
      (affinePointSystem_injective _ examplePoints (by simp) examplePoints_span))

theorem exampleArgs2D_estimate (tform : Transform ℚ 2) :
    estimateTransformCombinedMetricAffine cramerSolve exampleArgs2D tform =
      (true, { linear := 1, translation := 0 }) :=
  estimateAffineCombined_identity cramerSolve exampleArgs2D tform (by decide) (by decide) rfl
    (by decide) (by decide) exampleArgs2D_injective
    (cramerSolve_of_injective _ _ exampleArgs2D_injective)

theorem transformPoints_exampleTurned :
    transformPoints ({ linear := exampleQuarterTurn, translation := ![1, 2] } : Transform ℚ 2)
      examplePoints = exampleTurned := rfl

theorem exampleArgsMismatch_injective (theta : Fin (NumUnknowns 2) → ℚ)
    (h : (affineSystem exampleArgsMismatch).1.mulVec theta = 0) : theta = 0 :=
  affineSystem_injective exampleArgsMismatch (by decide)
    (fun c _ => by simp [exampleArgsMismatch, exampleArgs2D, UnityWeightEvaluator])
    (fun c _ => by simp [exampleArgsMismatch, exampleArgs2D, UnityWeightEvaluator])
    (fun u b h => examplePoints_span u b (fun s hs => by
      simp only [examplePoints, List.mem_cons, List.mem_singleton, List.not_mem_nil,
        or_false] at hs
      rcases hs with rfl | rfl | rfl | rfl
      · exact h ⟨0, 0, 1⟩ (by simp [exampleArgsMismatch, exampleArgs2D, exampleIdentityCorr])
      · exact h ⟨1, 1, 1⟩ (by simp [exampleArgsMismatch, exampleArgs2D, exampleIdentityCorr])
      · exact h ⟨2, 2, 1⟩ (by simp [exampleArgsMismatch, exampleArgs2D, exampleIdentityCorr])
      · exact h ⟨3, 3, 1⟩ (by simp [exampleArgsMismatch, exampleArgs2D, exampleIdentityCorr])))
    theta h

theorem exampleArgsMismatch_selected :
    selectCorrespondingPoints exampleArgsMismatch.point_to_point_correspondences
      exampleArgsMismatch.dst_p exampleArgsMismatch.src_p = (examplePoints, examplePoints) := by
  simp [selectCorrespondingPoints, exampleArgsMismatch, exampleArgs2D, exampleIdentityCorr,
    examplePoints, VectorSet.col]

/-! ### Rigid combined-metric estimators at exact alignment -/

theorem rigidSystem2D_aligned_rhs (a : CombinedArgs K 2 V W) (T : Transform K 2)
    (h : ExactlyAligned a T) : (rigidSystem2D a T).2 = 0 := by
  rw [rigidSystem2D_eq_sum, Prod.snd_add]
  have h1 : (if has_point_to_point_terms a then
      (a.point_to_point_correspondences.map (pointStep2D a T 0)).sum else 0).2 = 0 := by
    cases hflag : has_point_to_point_terms a
    · rfl
    · simp only [if_true]
      refine sum_pair_snd_zero _ _ (fun c hc => ?_)
      simp only [pointStep2D, h.1 hflag c hc, sub_self, smul_zero, mulVec_zero,
        Prod.snd_zero, add_zero]
  have h2 : (if has_point_to_plane_terms a then
      (a.point_to_plane_correspondences.map (planeStep2D a T 0)).sum else 0).2 = 0 := by
    cases hflag : has_point_to_plane_terms a
    · rfl
    · simp only [if_true]
      refine sum_pair_snd_zero _ _ (fun c hc => ?_)
      simp only [planeStep2D, h.2 hflag c hc, mul_zero, zero_smul, Prod.snd_zero, add_zero]
  rw [h1, h2, add_zero]

theorem rigidSystem3D_aligned_rhs (a : CombinedArgs K 3 V W) (T : Transform K 3)
    (h : ExactlyAligned a T) : (rigidSystem3D a T).2 = 0 := by
  rw [rigidSystem3D_eq_sum, Prod.snd_add]
  have h1 : (if has_point_to_point_terms a then
      (a.point_to_point_correspondences.map (pointStep3D a T 0)).sum else 0).2 = 0 := by
    cases hflag : has_point_to_point_terms a
    · rfl
    · simp only [if_true]
      refine sum_pair_snd_zero _ _ (fun c hc => ?_)
      simp only [pointStep3D, h.1 hflag c hc, sub_self, smul_zero, mulVec_zero,
        Prod.snd_zero, add_zero]
  have h2 : (if has_point_to_plane_terms a then
      (a.point_to_plane_correspondences.map (planeStep3D a T 0)).sum else 0).2 = 0 := by
    cases hflag : has_point_to_plane_terms a
    · rfl
    · simp only [if_true]
      refine sum_pair_snd_zero _ _ (fun c hc => ?_)
      simp only [planeStep3D, h.2 hflag c hc, mul_zero, zero_smul, Prod.snd_zero, add_zero]
  rw [h1, h2, add_zero]

theorem update2D_zero_increment (cos sin : K → K)
    (rotationOf : Matrix (Fin 2) (Fin 2) K → Matrix (Fin 2) (Fin 2) K)
    (hcos : cos 0 = 1) (hsin : sin 0 = 0) (T : Transform K 2)
    (hrot : rotationOf T.linear = T.linear) :
    update2D cos sin rotationOf T 0 = T := by
  have hz : (![0, 0] : Fin 2 → K) = 0 := by
    funext i
    fin_cases i <;> rfl
  simp only [update2D, Pi.zero_apply, rotation2D_zero cos sin hcos hsin, Matrix.one_mul, hrot,
    Matrix.one_mulVec, hz, add_zero]

theorem update3D_zero_increment (cos sin : K → K)
    (rotationOf : Matrix (Fin 3) (Fin 3) K → Matrix (Fin 3) (Fin 3) K)
    (hcos : cos 0 = 1) (hsin : sin 0 = 0) (T : Transform K 3)
    (hrot : rotationOf T.linear = T.linear) :
    update3D cos sin rotationOf T 0 = T := by
  have hz : (![0, 0, 0] : Fin 3 → K) = 0 := by
    funext i
    fin_cases i <;> rfl
  simp only [update3D, Pi.zero_apply, angleAxis_zero cos sin hcos hsin, Matrix.one_mul, hrot,
    Matrix.one_mulVec, hz, add_zero]

theorem iterStep2D_aligned
    (solve : Matrix (Fin 3) (Fin 3) K → (Fin 3 → K) → (Fin 3 → K))
    (cos sin : K → K) (rotationOf : Matrix (Fin 2) (Fin 2) K → Matrix (Fin 2) (Fin 2) K)
    (a : CombinedArgs K 2 V W) (T : Transform K 2)
    (hsolve : ∀ M : Matrix (Fin 3) (Fin 3) K, solve M 0 = 0)
    (hcos : cos 0 = 1) (hsin : sin 0 = 0) (hrot : rotationOf T.linear = T.linear)
    (h : ExactlyAligned a T) :
    iterStep2D solve cos sin rotationOf a T = (0, T) := by
  simp only [iterStep2D, rigidSystem2D_aligned_rhs a T h, hsolve,
    update2D_zero_increment cos sin rotationOf hcos hsin T hrot]

theorem iterStep3D_aligned
    (solve : Matrix (Fin 6) (Fin 6) K → (Fin 6 → K) → (Fin 6 → K))
    (cos sin : K → K) (rotationOf : Matrix (Fin 3) (Fin 3) K → Matrix (Fin 3) (Fin 3) K)
    (a : CombinedArgs K 3 V W) (T : Transform K 3)
    (hsolve : ∀ M : Matrix (Fin 6) (Fin 6) K, solve M 0 = 0)
    (hcos : cos 0 = 1) (hsin : sin 0 = 0) (hrot : rotationOf T.linear = T.linear)
    (h : ExactlyAligned a T) :
    iterStep3D solve cos sin rotationOf a T = (0, T) := by
  simp only [iterStep3D, rigidSystem3D_aligned_rhs a T h, hsolve,
    update3D_zero_increment cos sin rotationOf hcos hsin T hrot]

/-- A loop whose first `k` passes did not converge and whose body, at the
transform reached after them, solves the zero increment and leaves the
transform unchanged returns true in pass `k + 1` with that transform. -/
theorem gaussNewtonLoop_fixed_point_at {n : ℕ}
    (step : Transform K D → (Fin n → K) × Transform K D) (tol : K) (htol : 0 < tol)
    (tform : Transform K D) (r k : ℕ) (hk : k < r)
    (hbefore : ∀ j, 1 ≤ j → j ≤ k → normLt (incrementAt step tform j) tol = false)
    (hstep : step (updatesFrom step tform k) = (0, updatesFrom step tform k)) :
    gaussNewtonLoop step tol r 0 tform = (true, updatesFrom step tform k, k + 1) := by
  have hinc : incrementAt step tform (k + 1) = 0 := by
    simp only [incrementAt, Nat.add_sub_cancel, hstep]
  have hup : updatesFrom step tform (k + 1) = updatesFrom step tform k := by
    show (step (updatesFrom step tform k)).2 = updatesFrom step tform k
    rw [hstep]
  have h := gaussNewtonLoop_converged step tol r 0 tform (k + 1) (by omega) (by omega)
    (by rw [hinc]; exact normLt_zero tol htol)
    (fun j hj1 hjk => hbefore j hj1 (by omega))
  rw [h, hup, Nat.zero_add]

theorem exampleArgsTurned_aligned :
    ExactlyAligned exampleArgsTurned
      ({ linear := exampleQuarterTurn, translation := ![1, 2] } : Transform ℚ 2) := by
  refine ⟨fun _ c hc => ?_, fun _ c hc => ?_⟩
  · simp only [exampleArgsTurned, exampleArgs2D, exampleIdentityCorr, List.mem_cons,
      List.mem_singleton, List.not_mem_nil, or_false] at hc
    rcases hc with rfl | rfl | rfl | rfl <;>
      simp [Transform.apply, exampleArgsTurned, exampleArgs2D, exampleTurned, examplePoints,
        VectorSet.col]
  · simp only [exampleArgsTurned, exampleArgs2D, List.mem_cons, List.mem_singleton,
      List.not_mem_nil, or_false] at hc
    rcases hc with rfl
    simp [Transform.apply, exampleArgsTurned, exampleArgs2D, exampleTurned, examplePoints,
      VectorSet.col]

theorem exampleArgs3D_aligned :
    ExactlyAligned exampleArgs3D ({ linear := 1, translation := 0 } : Transform ℚ 3) := by
  refine ⟨fun _ c hc => ?_, fun _ c hc => ?_⟩
  · simp only [exampleArgs3D, exampleIdentityCorr, List.mem_cons,
      List.mem_singleton, List.not_mem_nil, or_false] at hc
    rcases hc with rfl | rfl | rfl | rfl <;>
      simp [Transform.apply, exampleArgs3D, examplePoints3D, VectorSet.col]
  · simp only [exampleArgs3D, List.mem_cons, List.mem_singleton,
      List.not_mem_nil, or_false] at hc
    rcases hc with rfl
    simp [Transform.apply, exampleArgs3D, examplePoints3D, VectorSet.col]

/-! ### The centroid of a point set -/

/-- The mean of the columns is the sum of the columns divided by their
number. -/
theorem rowwiseMean_eq_smul_sum (ps : VectorSet K D) :
    rowwiseMean ps = (ps.length : K)⁻¹ • ps.sum := by
  funext a
  simp only [rowwiseMean, Pi.smul_apply, smul_eq_mul, div_eq_inv_mul]

theorem exampleShiftedMirrored_estimate :
    estimateTransformPointToPointMetricRigid (fun _ => (exampleMirror, 1))
        exampleShiftedMirrored exampleShifted ⟨0, 0⟩ =
      (true, { linear := 1, translation := ![1, 0] }) := by
  have hlin : rigidLinear exampleMirror (1 : Matrix (Fin 2) (Fin 2) ℚ) = 1 := by
    have hdet : (exampleMirror * (1 : Matrix (Fin 2) (Fin 2) ℚ)).det < 0 := by
      simp [exampleMirror, det_fin_two]
    rw [rigidLinear, if_pos hdet]
    ext i j
    fin_cases i <;> fin_cases j <;> simp [negateCol, exampleMirror, Matrix.one_apply]
  rw [estimateRigid_of_lengths _ _ _ _ (by decide) (by decide)]
  simp only [hlin, Matrix.one_mulVec]
  refine Prod.ext (by decide) ?_
  simp only
  congr 1
  funext a
  fin_cases a <;>
    norm_num [rowwiseMean, exampleShifted, exampleShiftedMirrored]

theorem list_sum_apply (ps : VectorSet K D) (a : Fin D) :
    ps.sum a = (ps.map (fun p => p a)).sum := by
  induction ps with
  | nil => rfl
  | cons p rest ih => rw [List.sum_cons, Pi.add_apply, ih, List.map_cons, List.sum_cons]

theorem exampleShifted_centroid :
    ((exampleShifted.length : ℚ))⁻¹ • exampleShifted.sum = ![1, 1] := by
  funext a
  fin_cases a <;> norm_num [exampleShifted]

theorem exampleShiftedMirrored_centroid :
    ((exampleShiftedMirrored.length : ℚ))⁻¹ • exampleShiftedMirrored.sum = ![2, 1] := by
  funext a
  fin_cases a <;> norm_num [exampleShiftedMirrored]

/-! ## The claims -/

/-- Claim C1. Both point-to-point estimators (rigid and affine), on dense point
sets whose source and destination counts differ or whose source count is zero,
set the transform to the identity and return false; through the
correspondence-set overload an empty correspondence set gives the same result,
whatever the point sets. -/
theorem pointToPoint_degenerate_identity
    (svd : Matrix (Fin D) (Fin D) K → Matrix (Fin D) (Fin D) K × Matrix (Fin D) (Fin D) K)
    (solve : Matrix (Fin (NumUnknowns D)) (Fin (NumUnknowns D)) K →
      (Fin (NumUnknowns D) → K) → (Fin (NumUnknowns D) → K))
    (dst src : VectorSet K D) (tform : Transform K D)
    (h : src.length ≠ dst.length ∨ src.length = 0) :
    estimateTransformPointToPointMetricRigid svd dst src tform
        = (false, { linear := 1, translation := 0 }) ∧
      estimateTransformPointToPointMetricAffine solve dst src tform
        = (false, { linear := 1, translation := 0 }) ∧
      (∀ dst1 src1 : VectorSet K D,
        estimateTransformPointToPointMetricRigidCorr svd dst1 src1
            ([] : CorrespondenceSet V) tform
          = (false, { linear := 1, translation := 0 })) ∧
      (∀ dst1 src1 : VectorSet K D,
        estimateTransformPointToPointMetricAffineCorr solve dst1 src1
            ([] : CorrespondenceSet V) tform
          = (false, { linear := 1, translation := 0 })) := by
  refine ⟨?_, ?_, ?_, ?_⟩
  · simp only [estimateTransformPointToPointMetricRigid, if_pos h, Transform.setIdentity]
  · simp only [estimateTransformPointToPointMetricAffine, if_pos h, Transform.setIdentity]
  · intro dst1 src1
    simp [estimateTransformPointToPointMetricRigidCorr, selectCorrespondingPoints,
      estimateTransformPointToPointMetricRigid, Transform.setIdentity]
  · intro dst1 src1
    simp [estimateTransformPointToPointMetricAffineCorr, selectCorrespondingPoints,
      estimateTransformPointToPointMetricAffine, Transform.setIdentity]

/-- The statement of C1 on a concrete 2D input with two destination points and one
source point. -/
theorem pointToPoint_degenerate_identity_witness :
    (([![1, 2]] : VectorSet ℚ 2).length ≠ ([![0, 0], ![1, 1]] : VectorSet ℚ 2).length ∨
        ([![1, 2]] : VectorSet ℚ 2).length = 0) ∧
      (estimateTransformPointToPointMetricRigid (fun _ => (1, 1))
          ([![0, 0], ![1, 1]] : VectorSet ℚ 2) [![1, 2]] ⟨0, ![5, 5]⟩
          = (false, { linear := 1, translation := 0 }) ∧
        estimateTransformPointToPointMetricAffine (fun _ b => b)
          ([![0, 0], ![1, 1]] : VectorSet ℚ 2) [![1, 2]] ⟨0, ![5, 5]⟩
          = (false, { linear := 1, translation := 0 }) ∧
        (∀ dst1 src1 : VectorSet ℚ 2,
          estimateTransformPointToPointMetricRigidCorr (fun _ => (1, 1)) dst1 src1
              ([] : CorrespondenceSet ℚ) ⟨0, ![5, 5]⟩
            = (false, { linear := 1, translation := 0 })) ∧
        (∀ dst1 src1 : VectorSet ℚ 2,
          estimateTransformPointToPointMetricAffineCorr (fun _ b => b) dst1 src1
              ([] : CorrespondenceSet ℚ) ⟨0, ![5, 5]⟩
            = (false, { linear := 1, translation := 0 }))) :=
  ⟨Or.inl (by decide),
    pointToPoint_degenerate_identity (fun _ => (1, 1)) (fun _ b => b) _ _ _ (Or.inl (by decide))⟩

/-- Claim C2. In the combined-metric estimators (rigid 2D, rigid 3D, affine) a
term type is active exactly when its correspondence set is non-empty and its
global weight is positive; the early return is taken exactly when no term type
is active or the point-to-plane terms are active and the counts of destination
points and normals differ, and it yields false with the identity transform. With
the point-to-point terms active and the point-to-plane terms inactive the early
return is not taken, whatever the two counts are, and the estimator goes on to
its loop (rigid) or to its solve (affine). -/
theorem combined_precondition_check
    (solve3 : Matrix (Fin 3) (Fin 3) K → (Fin 3 → K) → (Fin 3 → K))
    (solve6 : Matrix (Fin 6) (Fin 6) K → (Fin 6 → K) → (Fin 6 → K))
    (solveA : Matrix (Fin (NumUnknowns D)) (Fin (NumUnknowns D)) K →
      (Fin (NumUnknowns D) → K) → (Fin (NumUnknowns D) → K))
    (cos sin : K → K)
    (rot2 : Matrix (Fin 2) (Fin 2) K → Matrix (Fin 2) (Fin 2) K)
    (rot3 : Matrix (Fin 3) (Fin 3) K → Matrix (Fin 3) (Fin 3) K)
    (a2 : CombinedArgs K 2 V W) (a3 : CombinedArgs K 3 V W) (a : CombinedArgs K D V W)
    (t2 : Transform K 2) (t3 : Transform K 3) (t : Transform K D) :
    (∀ (E : ℕ) (b : CombinedArgs K E V W),
      (has_point_to_point_terms b = true ↔
        b.point_to_point_correspondences ≠ [] ∧ 0 < b.point_to_point_weight) ∧
      (has_point_to_plane_terms b = true ↔
        b.point_to_plane_correspondences ≠ [] ∧ 0 < b.point_to_plane_weight) ∧
      (preconditionViolated b = true ↔
        (¬ (b.point_to_point_correspondences ≠ [] ∧ 0 < b.point_to_point_weight) ∧
          ¬ (b.point_to_plane_correspondences ≠ [] ∧ 0 < b.point_to_plane_weight)) ∨
        ((b.point_to_plane_correspondences ≠ [] ∧ 0 < b.point_to_plane_weight) ∧
          b.dst_p.length ≠ b.dst_n.length)) ∧
      ((b.point_to_point_correspondences ≠ [] ∧ 0 < b.point_to_point_weight) →
        ¬ (b.point_to_plane_correspondences ≠ [] ∧ 0 < b.point_to_plane_weight) →
        preconditionViolated b = false)) ∧
    (preconditionViolated a2 = true →
      estimateTransformCombinedMetric2D solve3 cos sin rot2 a2 t2
        = (false, { linear := 1, translation := 0 })) ∧
    (preconditionViolated a3 = true →
      estimateTransformCombinedMetric3D solve6 cos sin rot3 a3 t3
        = (false, { linear := 1, translation := 0 })) ∧
    (preconditionViolated a = true →
      estimateTransformCombinedMetricAffine solveA a t
        = (false, { linear := 1, translation := 0 })) ∧
    (preconditionViolated a2 = false →
      estimateTransformCombinedMetric2DTrace solve3 cos sin rot2 a2 t2
        = gaussNewtonLoop (iterStep2D solve3 cos sin rot2 a2) a2.convergence_tol
            a2.max_iter 0 { linear := 1, translation := 0 }) ∧
    (preconditionViolated a3 = false →
      estimateTransformCombinedMetric3DTrace solve6 cos sin rot3 a3 t3
        = gaussNewtonLoop (iterStep3D solve6 cos sin rot3 a3) a3.convergence_tol
            a3.max_iter 0 { linear := 1, translation := 0 }) ∧
    (preconditionViolated a = false →
      estimateTransformCombinedMetricAffine solveA a t
        = (decide (D + 1 ≤ activeCorrespondenceCount a),
            unpackAffine (solveA (affineSystem a).1 (affineSystem a).2) t)) := by
  refine ⟨?_, ?_, ?_, ?_, ?_, ?_, ?_⟩
  · intro E b
    refine ⟨has_point_to_point_terms_iff b, has_point_to_plane_terms_iff b,
      preconditionViolated_iff b, ?_⟩
    intro hpp hpl
    have h := preconditionViolated_iff b
    cases hv : preconditionViolated b
    · rfl
    · rcases h.mp hv with ⟨h1, _⟩ | ⟨h1, _⟩
      · exact absurd hpp h1
      · exact absurd h1 hpl
  · intro h
    simp [estimateTransformCombinedMetric2D, estimateTransformCombinedMetric2DTrace, h,
      Transform.setIdentity]
  · intro h
    simp [estimateTransformCombinedMetric3D, estimateTransformCombinedMetric3DTrace, h,
      Transform.setIdentity]
  · intro h
    simp [estimateTransformCombinedMetricAffine, h, Transform.setIdentity]
  · intro h
    simp [estimateTransformCombinedMetric2DTrace, h, Transform.setIdentity]
  · intro h
    simp [estimateTransformCombinedMetric3DTrace, h, Transform.setIdentity]
  · intro h
    simp [estimateTransformCombinedMetricAffine, h]

/-- Claim C3. On inputs with equal, non-zero point count `N` the rigid
point-to-point estimator returns true exactly when `N ≥ Dim` and the affine one
exactly when `N ≥ Dim + 1`; whatever the flag, the transform written is the
computed one (rotation from the SVD factors and the matching translation, or
the unpacked solution of the normal equations), not the identity. -/
theorem pointToPoint_success_flag
    (svd : Matrix (Fin D) (Fin D) K → Matrix (Fin D) (Fin D) K × Matrix (Fin D) (Fin D) K)
    (solve : Matrix (Fin (NumUnknowns D)) (Fin (NumUnknowns D)) K →
      (Fin (NumUnknowns D) → K) → (Fin (NumUnknowns D) → K))
    (dst src : VectorSet K D) (tform : Transform K D)
    (hlen : src.length = dst.length) (hpos : src.length ≠ 0) :
    ((estimateTransformPointToPointMetricRigid svd dst src tform).1 = true ↔ D ≤ src.length) ∧
    ((estimateTransformPointToPointMetricAffine solve dst src tform).1 = true ↔
      D + 1 ≤ src.length) ∧
    (estimateTransformPointToPointMetricRigid svd dst src tform).2 =
      { linear := rigidLinear (svd (crossCovariance dst src)).1 (svd (crossCovariance dst src)).2
        translation := rowwiseMean dst -
          (rigidLinear (svd (crossCovariance dst src)).1
            (svd (crossCovariance dst src)).2).mulVec (rowwiseMean src) } ∧
    (estimateTransformPointToPointMetricAffine solve dst src tform).2 =
      unpackAffine (solve (affinePointSystem dst src).1 (affinePointSystem dst src).2) tform := by
  have hg : ¬ (src.length ≠ dst.length ∨ src.length = 0) := by
    rintro (h | h)
    · exact h hlen
    · exact hpos h
  refine ⟨?_, ?_, ?_, ?_⟩
  · simp only [estimateTransformPointToPointMetricRigid, if_neg hg, decide_eq_true_eq]
  · simp only [estimateTransformPointToPointMetricAffine, if_neg hg, decide_eq_true_eq]
  · simp only [estimateTransformPointToPointMetricRigid, if_neg hg]
  · simp only [estimateTransformPointToPointMetricAffine, if_neg hg]

/-- Claim C4. When the precondition check of the affine combined-metric
estimator passes, it returns true exactly when the number of correspondences
of the active term types is at least `Dim + 1`: both sets count when both are
active, and the set of an inactive term type does not count. -/
theorem affine_combined_success_flag
    (solve : Matrix (Fin (NumUnknowns D)) (Fin (NumUnknowns D)) K →
      (Fin (NumUnknowns D) → K) → (Fin (NumUnknowns D) → K))
    (a : CombinedArgs K D V W) (tform : Transform K D)
    (hpre : preconditionViolated a = false) :
    ((a.point_to_point_correspondences ≠ [] ∧ 0 < a.point_to_point_weight) →
      (a.point_to_plane_correspondences ≠ [] ∧ 0 < a.point_to_plane_weight) →
      ((estimateTransformCombinedMetricAffine solve a tform).1 = true ↔
        D + 1 ≤ a.point_to_point_correspondences.length +
          a.point_to_plane_correspondences.length)) ∧
    ((a.point_to_point_correspondences ≠ [] ∧ 0 < a.point_to_point_weight) →
      ¬ (a.point_to_plane_correspondences ≠ [] ∧ 0 < a.point_to_plane_weight) →
      ((estimateTransformCombinedMetricAffine solve a tform).1 = true ↔
        D + 1 ≤ a.point_to_point_correspondences.length)) ∧
    (¬ (a.point_to_point_correspondences ≠ [] ∧ 0 < a.point_to_point_weight) →
      (a.point_to_plane_correspondences ≠ [] ∧ 0 < a.point_to_plane_weight) →
      ((estimateTransformCombinedMetricAffine solve a tform).1 = true ↔
        D + 1 ≤ a.point_to_plane_correspondences.length)) := by
  have hflag : (estimateTransformCombinedMetricAffine solve a tform).1 =
      decide (D + 1 ≤ activeCorrespondenceCount a) := by
    simp only [estimateTransformCombinedMetricAffine, hpre, Bool.false_eq_true, if_false]
  rw [hflag, decide_eq_true_eq]
  refine ⟨?_, ?_, ?_⟩
  · intro hpp hpl
    simp [activeCorrespondenceCount, (has_point_to_point_terms_iff a).mpr hpp,
      (has_point_to_plane_terms_iff a).mpr hpl]
  · intro hpp hpl
    simp [activeCorrespondenceCount, (has_point_to_point_terms_iff a).mpr hpp,
      has_point_to_plane_terms_false a hpl]
  · intro hpp hpl
    simp [activeCorrespondenceCount, has_point_to_point_terms_false a hpp,
      (has_point_to_plane_terms_iff a).mpr hpl]

/-- Claim C5. When the precondition check of the rigid combined-metric
estimators (2D and 3D) passes, for every `max_iter` and tolerance: the call
returns true exactly when some pass `k` with `1 ≤ k ≤ max_iter` solves an
increment `d_theta` of norm below `convergence_tol`; it then stops right after
the first such pass, with the transform after `k` updates and `iter = k`;
otherwise it applies `max_iter` updates and returns false, so `max_iter = 0`
gives false and the identity; the loop counter never exceeds `max_iter`. -/
theorem rigid_combined_loop_convergence
    (solve3 : Matrix (Fin 3) (Fin 3) K → (Fin 3 → K) → (Fin 3 → K))
    (solve6 : Matrix (Fin 6) (Fin 6) K → (Fin 6 → K) → (Fin 6 → K))
    (cos sin : K → K)
    (rot2 : Matrix (Fin 2) (Fin 2) K → Matrix (Fin 2) (Fin 2) K)
    (rot3 : Matrix (Fin 3) (Fin 3) K → Matrix (Fin 3) (Fin 3) K)
    (a2 : CombinedArgs K 2 V W) (a3 : CombinedArgs K 3 V W)
    (t2 : Transform K 2) (t3 : Transform K 3)
    (hpre2 : preconditionViolated a2 = false) (hpre3 : preconditionViolated a3 = false) :
    (estimateTransformCombinedMetric2D solve3 cos sin rot2 a2 t2 =
        ((estimateTransformCombinedMetric2DTrace solve3 cos sin rot2 a2 t2).1,
          (estimateTransformCombinedMetric2DTrace solve3 cos sin rot2 a2 t2).2.1) ∧
      ((estimateTransformCombinedMetric2DTrace solve3 cos sin rot2 a2 t2).1 = true ↔
        ∃ k, 1 ≤ k ∧ k ≤ a2.max_iter ∧
          normLt (incrementAt (iterStep2D solve3 cos sin rot2 a2)
            { linear := 1, translation := 0 } k) a2.convergence_tol = true) ∧
      (∀ k, 1 ≤ k → k ≤ a2.max_iter →
        normLt (incrementAt (iterStep2D solve3 cos sin rot2 a2)
          { linear := 1, translation := 0 } k) a2.convergence_tol = true →
        (∀ j, 1 ≤ j → j < k →
          normLt (incrementAt (iterStep2D solve3 cos sin rot2 a2)
            { linear := 1, translation := 0 } j) a2.convergence_tol = false) →
        estimateTransformCombinedMetric2DTrace solve3 cos sin rot2 a2 t2 =
          (true, updatesFrom (iterStep2D solve3 cos sin rot2 a2)
            { linear := 1, translation := 0 } k, k)) ∧
      ((∀ k, 1 ≤ k → k ≤ a2.max_iter →
          normLt (incrementAt (iterStep2D solve3 cos sin rot2 a2)
            { linear := 1, translation := 0 } k) a2.convergence_tol = false) →
        estimateTransformCombinedMetric2DTrace solve3 cos sin rot2 a2 t2 =
          (false, updatesFrom (iterStep2D solve3 cos sin rot2 a2)
            { linear := 1, translation := 0 } a2.max_iter, a2.max_iter)) ∧
      (a2.max_iter = 0 →
        estimateTransformCombinedMetric2D solve3 cos sin rot2 a2 t2 =
          (false, { linear := 1, translation := 0 })) ∧
      (estimateTransformCombinedMetric2DTrace solve3 cos sin rot2 a2 t2).2.2 ≤ a2.max_iter) ∧
    (estimateTransformCombinedMetric3D solve6 cos sin rot3 a3 t3 =
        ((estimateTransformCombinedMetric3DTrace solve6 cos sin rot3 a3 t3).1,
          (estimateTransformCombinedMetric3DTrace solve6 cos sin rot3 a3 t3).2.1) ∧
      ((estimateTransformCombinedMetric3DTrace solve6 cos sin rot3 a3 t3).1 = true ↔
        ∃ k, 1 ≤ k ∧ k ≤ a3.max_iter ∧
          normLt (incrementAt (iterStep3D solve6 cos sin rot3 a3)
            { linear := 1, translation := 0 } k) a3.convergence_tol = true) ∧
      (∀ k, 1 ≤ k → k ≤ a3.max_iter →
        normLt (incrementAt (iterStep3D solve6 cos sin rot3 a3)
          { linear := 1, translation := 0 } k) a3.convergence_tol = true →
        (∀ j, 1 ≤ j → j < k →
          normLt (incrementAt (iterStep3D solve6 cos sin rot3 a3)
            { linear := 1, translation := 0 } j) a3.convergence_tol = false) →
        estimateTransformCombinedMetric3DTrace solve6 cos sin rot3 a3 t3 =
          (true, updatesFrom (iterStep3D solve6 cos sin rot3 a3)
            { linear := 1, translation := 0 } k, k)) ∧
      ((∀ k, 1 ≤ k → k ≤ a3.max_iter →
          normLt (incrementAt (iterStep3D solve6 cos sin rot3 a3)
            { linear := 1, translation := 0 } k) a3.convergence_tol = false) →
        estimateTransformCombinedMetric3DTrace solve6 cos sin rot3 a3 t3 =
          (false, updatesFrom (iterStep3D solve6 cos sin rot3 a3)
            { linear := 1, translation := 0 } a3.max_iter, a3.max_iter)) ∧
      (a3.max_iter = 0 →
        estimateTransformCombinedMetric3D solve6 cos sin rot3 a3 t3 =
          (false, { linear := 1, translation := 0 })) ∧
      (estimateTransformCombinedMetric3DTrace solve6 cos sin rot3 a3 t3).2.2 ≤ a3.max_iter) := by
  have e2 : estimateTransformCombinedMetric2DTrace solve3 cos sin rot2 a2 t2 =
      gaussNewtonLoop (iterStep2D solve3 cos sin rot2 a2) a2.convergence_tol a2.max_iter 0
        { linear := 1, translation := 0 } := by
    simp [estimateTransformCombinedMetric2DTrace, hpre2, Transform.setIdentity]
  have e3 : estimateTransformCombinedMetric3DTrace solve6 cos sin rot3 a3 t3 =
      gaussNewtonLoop (iterStep3D solve6 cos sin rot3 a3) a3.convergence_tol a3.max_iter 0
        { linear := 1, translation := 0 } := by
    simp [estimateTransformCombinedMetric3DTrace, hpre3, Transform.setIdentity]
  refine ⟨⟨rfl, ?_, ?_, ?_, ?_, ?_⟩, ⟨rfl, ?_, ?_, ?_, ?_, ?_⟩⟩
  · rw [e2]; exact gaussNewtonLoop_flag_iff _ _ _ _ _
  · intro k hk1 hkr hk hbefore
    rw [e2, gaussNewtonLoop_converged _ _ _ _ _ k hk1 hkr hk hbefore, Nat.zero_add]
  · intro h
    rw [e2, gaussNewtonLoop_exhausted _ _ _ _ _ h, Nat.zero_add]
  · intro h0
    simp only [estimateTransformCombinedMetric2D]
    rw [e2, h0]
    rfl
  · rw [e2]
    have := gaussNewtonLoop_iter_le (iterStep2D solve3 cos sin rot2 a2) a2.convergence_tol
      a2.max_iter 0 { linear := 1, translation := 0 }
    omega
  · rw [e3]; exact gaussNewtonLoop_flag_iff _ _ _ _ _
  · intro k hk1 hkr hk hbefore
    rw [e3, gaussNewtonLoop_converged _ _ _ _ _ k hk1 hkr hk hbefore, Nat.zero_add]
  · intro h
    rw [e3, gaussNewtonLoop_exhausted _ _ _ _ _ h, Nat.zero_add]
  · intro h0
    simp only [estimateTransformCombinedMetric3D]
    rw [e3, h0]
    rfl
  · rw [e3]
    have := gaussNewtonLoop_iter_le (iterStep3D solve6 cos sin rot3 a3) a3.convergence_tol
      a3.max_iter 0 { linear := 1, translation := 0 }
    omega

/-- The statement of C2 on `exampleArgsMismatch`, whose counts of points and
normals differ while the point-to-plane terms are inactive (the early return is
not taken), and on `exampleArgs2D` without normals, whose point-to-plane terms
are active (the early return is taken). -/
theorem combined_precondition_check_witness :
    exampleArgsMismatch.dst_p.length ≠ exampleArgsMismatch.dst_n.length ∧
      preconditionViolated exampleArgsMismatch = false ∧
      estimateTransformCombinedMetric2DTrace cramerSolve circleCos circleSin id
          exampleArgsMismatch ⟨0, 0⟩ =
        gaussNewtonLoop (iterStep2D cramerSolve circleCos circleSin id exampleArgsMismatch)
          exampleArgsMismatch.convergence_tol exampleArgsMismatch.max_iter 0
          { linear := 1, translation := 0 } ∧
      estimateTransformCombinedMetricAffine cramerSolve
          { exampleArgs2D with dst_n := [] } ⟨0, 0⟩ =
        (false, { linear := 1, translation := 0 }) :=
  ⟨by decide,
    ((combined_precondition_check cramerSolve cramerSolve cramerSolve circleCos circleSin id id
      exampleArgsMismatch exampleArgs3D { exampleArgs2D with dst_n := [] }
      ⟨0, 0⟩ ⟨0, 0⟩ ⟨0, 0⟩).1 2 exampleArgsMismatch).2.2.2
      ⟨by decide, by decide⟩ (fun h => absurd h.2 (by decide)),
    (combined_precondition_check cramerSolve cramerSolve cramerSolve circleCos circleSin id id
      exampleArgsMismatch exampleArgs3D { exampleArgs2D with dst_n := [] }
      ⟨0, 0⟩ ⟨0, 0⟩ ⟨0, 0⟩).2.2.2.2.1 (by decide),
    (combined_precondition_check cramerSolve cramerSolve cramerSolve circleCos circleSin id id
      exampleArgsMismatch exampleArgs3D { exampleArgs2D with dst_n := [] }
      ⟨0, 0⟩ ⟨0, 0⟩ ⟨0, 0⟩).2.2.2.1 (by decide)⟩

/-- The statement of C3 on one destination and one source point of the plane:
both flags are false and the rigid estimator still writes the translation that
carries the source point to the destination point. -/
theorem pointToPoint_success_flag_witness :
    (estimateTransformPointToPointMetricRigid (fun _ => (1, 1))
        ([![1, 0]] : VectorSet ℚ 2) [![0, 0]] ⟨0, 0⟩).1 = false ∧
      (estimateTransformPointToPointMetricAffine cramerSolve
        ([![1, 0]] : VectorSet ℚ 2) [![0, 0]] ⟨0, 0⟩).1 = false ∧
      (estimateTransformPointToPointMetricRigid (fun _ => (1, 1))
        ([![1, 0]] : VectorSet ℚ 2) [![0, 0]] ⟨0, 0⟩).2.translation = ![1, 0] ∧
      (estimateTransformPointToPointMetricRigid (fun _ => (1, 1))
        ([![1, 0]] : VectorSet ℚ 2) [![0, 0]] ⟨0, 0⟩).2.linear = 1 :=
  ⟨Bool.eq_false_iff.mpr (fun h => absurd
      ((pointToPoint_success_flag (fun _ => (1, 1)) cramerSolve
        ([![1, 0]] : VectorSet ℚ 2) [![0, 0]] ⟨0, 0⟩ rfl (by decide)).1.mp h) (by decide)),
    Bool.eq_false_iff.mpr (fun h => absurd
      ((pointToPoint_success_flag (fun _ => (1, 1)) cramerSolve
        ([![1, 0]] : VectorSet ℚ 2) [![0, 0]] ⟨0, 0⟩ rfl (by decide)).2.1.mp h) (by decide)),
    by
      rw [(pointToPoint_success_flag (fun _ => (1, 1)) cramerSolve
        ([![1, 0]] : VectorSet ℚ 2) [![0, 0]] ⟨0, 0⟩ rfl (by decide)).2.2.1]
      simp only [rigidLinear_one, Matrix.one_mulVec]
      funext i
      fin_cases i <;> simp [rowwiseMean],
    by
      rw [(pointToPoint_success_flag (fun _ => (1, 1)) cramerSolve
        ([![1, 0]] : VectorSet ℚ 2) [![0, 0]] ⟨0, 0⟩ rfl (by decide)).2.2.1]
      simp only [rigidLinear_one]⟩

/-- The statement of C4 on `exampleArgsInactivePlane` (two active
point-to-point correspondences, five inactive point-to-plane ones: false) and
on `exampleArgs2D` (four and one, all active: true). -/
theorem affine_combined_success_flag_witness :
    (estimateTransformCombinedMetricAffine cramerSolve exampleArgsInactivePlane ⟨0, 0⟩).1
        = false ∧
      (estimateTransformCombinedMetricAffine cramerSolve exampleArgs2D ⟨0, 0⟩).1 = true :=
  ⟨Bool.eq_false_iff.mpr (fun h => absurd
      (((affine_combined_success_flag cramerSolve exampleArgsInactivePlane ⟨0, 0⟩
        (by decide)).2.1 ⟨by decide, by decide⟩ (fun hh => absurd hh.2 (by decide))).mp h)
      (by decide)),
    ((affine_combined_success_flag cramerSolve exampleArgs2D ⟨0, 0⟩ (by decide)).1
      ⟨by decide, by decide⟩ ⟨by decide, by decide⟩).mpr (by decide)⟩

/-- The statement of C5 on `exampleArgs2D` and `exampleArgs3D`, where source
and destination agree: the first pass solves a zero increment, so both calls
return true after one update with `iter = 1`. -/
theorem rigid_combined_loop_convergence_witness :
    estimateTransformCombinedMetric2DTrace cramerSolve circleCos circleSin id exampleArgs2D
        ⟨0, 0⟩ = (true, { linear := 1, translation := 0 }, 1) ∧
      estimateTransformCombinedMetric3DTrace cramerSolve circleCos circleSin id exampleArgs3D
        ⟨0, 0⟩ = (true, { linear := 1, translation := 0 }, 1) := by
  have h2 : iterStep2D cramerSolve circleCos circleSin id exampleArgs2D
      { linear := 1, translation := 0 } = (0, { linear := 1, translation := 0 }) :=
    iterStep2D_identity cramerSolve circleCos circleSin id exampleArgs2D cramerSolve_zero
      circleCos_zero circleSin_zero rfl rfl (by decide) (by decide)
  have h3 : iterStep3D cramerSolve circleCos circleSin id exampleArgs3D
      { linear := 1, translation := 0 } = (0, { linear := 1, translation := 0 }) :=
    iterStep3D_identity cramerSolve circleCos circleSin id exampleArgs3D cramerSolve_zero
      circleCos_zero circleSin_zero rfl rfl (by decide) (by decide)
  have h := rigid_combined_loop_convergence cramerSolve cramerSolve circleCos circleSin id id
    exampleArgs2D exampleArgs3D ⟨0, 0⟩ ⟨0, 0⟩ (by decide) (by decide)
  have e2 := h.1.2.2.1 1 le_rfl (by decide)
    (by
      simp only [incrementAt, updatesFrom, h2]
      exact normLt_zero _ (by norm_num [exampleArgs2D, exampleArgs3D]))
    (fun j hj1 hj => absurd hj (by omega))
  have e3 := h.2.2.2.1 1 le_rfl (by decide)
    (by
      simp only [incrementAt, updatesFrom, h3]
      exact normLt_zero _ (by norm_num [exampleArgs2D, exampleArgs3D]))
    (fun j hj1 hj => absurd hj (by omega))
  simp only [updatesFrom, h2, h3] at e2 e3
  exact ⟨e2, e3⟩

/-- Claim C6. On inputs with equal, non-zero point counts and for every pair
of orthogonal factors `U`, `V` returned by the SVD of the cross-covariance, the
linear part written by the rigid point-to-point estimator is orthogonal with
determinant exactly `1`, mirrored configurations included; the sign test of
the code on `det(U·V)` takes the same branch as the test on `det(U·Vᵀ)`. -/
theorem rigid_pointToPoint_proper_rotation
    (svd : Matrix (Fin D) (Fin D) K → Matrix (Fin D) (Fin D) K × Matrix (Fin D) (Fin D) K)
    (dst src : VectorSet K D) (tform : Transform K D)
    (hlen : src.length = dst.length) (hpos : src.length ≠ 0)
    (hU : (svd (crossCovariance dst src)).1 * (svd (crossCovariance dst src)).1ᵀ = 1)
    (hV : (svd (crossCovariance dst src)).2 * (svd (crossCovariance dst src)).2ᵀ = 1) :
    (estimateTransformPointToPointMetricRigid svd dst src tform).2.linear *
        ((estimateTransformPointToPointMetricRigid svd dst src tform).2.linear)ᵀ = 1 ∧
      ((estimateTransformPointToPointMetricRigid svd dst src tform).2.linear)ᵀ *
        (estimateTransformPointToPointMetricRigid svd dst src tform).2.linear = 1 ∧
      ((estimateTransformPointToPointMetricRigid svd dst src tform).2.linear).det = 1 ∧
      (((svd (crossCovariance dst src)).1 * (svd (crossCovariance dst src)).2).det < 0 ↔
        ((svd (crossCovariance dst src)).1 * ((svd (crossCovariance dst src)).2)ᵀ).det < 0) := by
  have hlin : (estimateTransformPointToPointMetricRigid svd dst src tform).2.linear =
      rigidLinear (svd (crossCovariance dst src)).1 (svd (crossCovariance dst src)).2 := by
    rw [estimateRigid_of_lengths svd dst src tform hlen hpos]
  rw [hlin]
  refine ⟨rigidLinear_orthogonal _ _ hU hV, ?_, rigidLinear_det _ _ hU hV, ?_⟩
  · exact transpose_mul_self_of_orthogonal _ (rigidLinear_orthogonal _ _ hU hV)
  · rw [det_mul, det_mul, det_transpose]

/-- The statement of C6 on a mirrored configuration: the destination is the
source reflected in the first axis, the cross-covariance is
`diag(1/2, -1/2)` with SVD factors `U = diag(1, -1)`, `V = 1`, so `U·Vᵀ` has
determinant `-1`, and the linear part written has determinant `1`. -/
theorem rigid_pointToPoint_proper_rotation_witness :
    crossCovariance exampleMirrored examplePoints =
        exampleMirror * diagonal ![1 / 2, 1 / 2] * (1 : Matrix (Fin 2) (Fin 2) ℚ)ᵀ ∧
      (exampleMirror * (1 : Matrix (Fin 2) (Fin 2) ℚ)ᵀ).det = -1 ∧
      ((estimateTransformPointToPointMetricRigid (fun _ => (exampleMirror, 1))
        exampleMirrored examplePoints ⟨0, 0⟩).2.linear).det = 1 := by
  refine ⟨?_, ?_, ?_⟩
  · ext i j
    simp only [Matrix.mul_apply, Matrix.transpose_apply, Fin.sum_univ_two, diagonal_apply,
      Matrix.one_apply]
    fin_cases i <;> fin_cases j <;>
      norm_num [crossCovariance, mulTranspose, colwiseSub, rowwiseMean, exampleMirrored,
        examplePoints, exampleMirror, vecMulVec_apply, vecHead, vecTail, Matrix.one_apply]
  · simp [exampleMirror, det_fin_two]
  · exact (rigid_pointToPoint_proper_rotation (fun _ => (exampleMirror, 1))
      exampleMirrored examplePoints ⟨0, 0⟩ (by decide) (by decide)
      (by
        ext i j
        simp only [Matrix.mul_apply, Matrix.transpose_apply, Fin.sum_univ_two]
        fin_cases i <;> fin_cases j <;> norm_num [exampleMirror])
      (by simp)).2.2.1

/-- Claim C7, amended. For every proper rotation `R`, every translation `t`
and every set of `N ≥ Dim` source points whose cross-covariance has at most one
vanishing singular value, placed last (the centred source points span at least
`Dim - 1` dimensions), if `dst_i = R·src_i + t` for all `i` and the SVD
returned orthogonal factors of the cross-covariance, then the rigid
point-to-point estimator returns true and writes the linear part `R` and the
translation `t`. -/
theorem rigid_exact_recovery
    (svd : Matrix (Fin D) (Fin D) K → Matrix (Fin D) (Fin D) K × Matrix (Fin D) (Fin D) K)
    (R : Matrix (Fin D) (Fin D) K) (t : Fin D → K) (src : VectorSet K D)
    (tform : Transform K D) (S : Fin D → K)
    (hR : R * Rᵀ = 1) (hdetR : R.det = 1) (hD : 0 < D) (hN : D ≤ src.length)
    (hU : (svd (crossCovariance (src.map (fun s => R.mulVec s + t)) src)).1 *
      (svd (crossCovariance (src.map (fun s => R.mulVec s + t)) src)).1ᵀ = 1)
    (hV : (svd (crossCovariance (src.map (fun s => R.mulVec s + t)) src)).2 *
      (svd (crossCovariance (src.map (fun s => R.mulVec s + t)) src)).2ᵀ = 1)
    (hsvd : crossCovariance (src.map (fun s => R.mulVec s + t)) src =
      (svd (crossCovariance (src.map (fun s => R.mulVec s + t)) src)).1 * diagonal S *
        (svd (crossCovariance (src.map (fun s => R.mulVec s + t)) src)).2ᵀ)
    (hS0 : ∀ i, 0 ≤ S i) (hSpos : ∀ i : Fin D, i.val + 1 < D → 0 < S i) :
    estimateTransformPointToPointMetricRigid svd (src.map (fun s => R.mulVec s + t)) src tform
      = (true, { linear := R, translation := t }) := by
  have hne : src.length ≠ 0 := by omega
  have hlin : rigidLinear (svd (crossCovariance (src.map (fun s => R.mulVec s + t)) src)).1
      (svd (crossCovariance (src.map (fun s => R.mulVec s + t)) src)).2 = R := by
    refine rigidLinear_recovers R (crossCovariance src src) _ _ S hR hdetR hU hV
      (crossCovariance_self_transpose src) (crossCovariance_self_psd src) hS0 hSpos ?_
    rw [← crossCovariance_map_affine R t src hne]
    exact hsvd
  rw [estimateRigid_of_lengths svd _ src tform (by simp) hne, hlin,
    rowwiseMean_map_affine R t src hne]
  simp [hN]

/-- The statement of C7 on two source points, a quarter turn and the
translation `(1, 2)`: the cross-covariance has rank one, its SVD factor `U` is
a reflection, and the sign correction recovers the rotation. -/
theorem rigid_exact_recovery_witness :
    estimateTransformPointToPointMetricRigid (fun _ => (exampleSwap, 1))
        (exampleSegment.map (fun s => exampleQuarterTurn.mulVec s + ![1, 2])) exampleSegment
        ⟨0, 0⟩
      = (true, { linear := exampleQuarterTurn, translation := ![1, 2] }) :=
  rigid_exact_recovery (fun _ => (exampleSwap, 1)) exampleQuarterTurn ![1, 2] exampleSegment
    ⟨0, 0⟩ ![1, 0]
    (by
      ext i j
      simp only [Matrix.mul_apply, Matrix.transpose_apply, Fin.sum_univ_two]
      fin_cases i <;> fin_cases j <;> norm_num [exampleQuarterTurn])
    (by simp [exampleQuarterTurn, det_fin_two])
    (by decide) (by decide)
    (by
      ext i j
      simp only [Matrix.mul_apply, Matrix.transpose_apply, Fin.sum_univ_two]
      fin_cases i <;> fin_cases j <;> norm_num [exampleSwap])
    (by simp)
    (by
      ext i j
      simp only [Matrix.mul_apply, Matrix.transpose_apply, Fin.sum_univ_two, diagonal_apply,
      Matrix.one_apply]
      fin_cases i <;> fin_cases j <;>
        norm_num [crossCovariance, mulTranspose, colwiseSub, rowwiseMean, exampleSegment,
          exampleQuarterTurn, exampleSwap, vecMulVec_apply, vecHead, vecTail, Matrix.one_apply])
    (by intro i; fin_cases i <;> simp)
    (by intro i hi; fin_cases i <;> simp at hi ⊢)

/-- Claim C7 fails as stated: for two equal source points, the quarter turn
and no translation, `dst_i = R·src_i` holds, `N = Dim = 2`, the cross-covariance
is zero and has the SVD factors `U = V = 1`; the estimator returns true with
the identity as linear part and the translation `(-1, 1)`, not the quarter
turn. -/
theorem rigid_exact_recovery_counterexample :
    exampleQuarterTurn * exampleQuarterTurnᵀ = 1 ∧ exampleQuarterTurn.det = 1 ∧
      2 ≤ exampleCoincident.length ∧
      crossCovariance (exampleCoincident.map (fun s => exampleQuarterTurn.mulVec s + 0))
          exampleCoincident =
        (1 : Matrix (Fin 2) (Fin 2) ℚ) * diagonal 0 * (1 : Matrix (Fin 2) (Fin 2) ℚ)ᵀ ∧
      estimateTransformPointToPointMetricRigid (fun _ => (1, 1))
          (exampleCoincident.map (fun s => exampleQuarterTurn.mulVec s + 0)) exampleCoincident
          ⟨0, 0⟩ = (true, { linear := 1, translation := ![-1, 1] }) ∧
      estimateTransformPointToPointMetricRigid (fun _ => (1, 1))
          (exampleCoincident.map (fun s => exampleQuarterTurn.mulVec s + 0)) exampleCoincident
          ⟨0, 0⟩ ≠ (true, { linear := exampleQuarterTurn, translation := 0 }) := by
  have hest : estimateTransformPointToPointMetricRigid (fun _ => (1, 1))
      (exampleCoincident.map (fun s => exampleQuarterTurn.mulVec s + 0)) exampleCoincident
      ⟨0, 0⟩ = (true, { linear := 1, translation := ![-1, 1] }) := by
    rw [estimateRigid_of_lengths _ _ _ _ (by decide) (by decide)]
    simp only [rigidLinear_one, Matrix.one_mulVec]
    refine Prod.ext (by decide) ?_
    show ({ linear := 1, translation := _ } : Transform ℚ 2) = _
    congr 1
    funext i
    fin_cases i <;>
      norm_num [rowwiseMean, exampleCoincident, exampleQuarterTurn, Matrix.mulVec, dotProduct,
        Fin.sum_univ_two, vecHead, vecTail]
  refine ⟨?_, ?_, by decide, ?_, hest, ?_⟩
  · ext i j
    simp only [Matrix.mul_apply, Matrix.transpose_apply, Fin.sum_univ_two]
    fin_cases i <;> fin_cases j <;> norm_num [exampleQuarterTurn]
  · simp [exampleQuarterTurn, det_fin_two]
  · ext i j
    simp only [Matrix.mul_apply, Matrix.transpose_apply, Fin.sum_univ_two, diagonal_apply,
      Matrix.one_apply]
    fin_cases i <;> fin_cases j <;>
      norm_num [crossCovariance, mulTranspose, colwiseSub, rowwiseMean, exampleCoincident,
        exampleQuarterTurn, vecMulVec_apply, vecHead, vecTail, Matrix.mulVec, dotProduct,
        Fin.sum_univ_two, Matrix.one_apply]
  · rw [hest]
    intro h
    have h1 := congrArg (fun r : Bool × Transform ℚ 2 => r.2.linear 0 0) h
    simp [exampleQuarterTurn] at h1

/-- Claim C8, amended. For every linear map `A` (invertible or not), every
translation `t` and every set of `N ≥ Dim + 1` source points that span the
space affinely (they lie on no common hyperplane), if `dst_i = A·src_i + t` for
all `i` and the solver returned a solution of the accumulated system, then the
affine point-to-point estimator returns true and writes the linear part `A` and
the translation `t`. For every point set the vector made of `A` in row-major
order followed by `t` satisfies the normal equations `AtA·theta = Atb`, and the
unpacking and that packing are inverse to each other. -/
theorem affine_exact_recovery
    (solve : Matrix (Fin (NumUnknowns D)) (Fin (NumUnknowns D)) K →
      (Fin (NumUnknowns D) → K) → (Fin (NumUnknowns D) → K))
    (A : Matrix (Fin D) (Fin D) K) (t : Fin D → K) (src : VectorSet K D)
    (tform : Transform K D) (hN : D + 1 ≤ src.length)
    (hspan : ∀ (a : Fin D → K) (b : K), (∀ s ∈ src, a ⬝ᵥ s + b = 0) → a = 0 ∧ b = 0)
    (hsolve : (affinePointSystem (src.map (fun s => A.mulVec s + t)) src).1.mulVec
        (solve (affinePointSystem (src.map (fun s => A.mulVec s + t)) src).1
          (affinePointSystem (src.map (fun s => A.mulVec s + t)) src).2) =
      (affinePointSystem (src.map (fun s => A.mulVec s + t)) src).2) :
    estimateTransformPointToPointMetricAffine solve (src.map (fun s => A.mulVec s + t)) src tform
        = (true, { linear := A, translation := t }) ∧
      (affinePointSystem (src.map (fun s => A.mulVec s + t)) src).1.mulVec (packAffine A t) =
        (affinePointSystem (src.map (fun s => A.mulVec s + t)) src).2 ∧
      (∀ (B : Matrix (Fin D) (Fin D) K) (u : Fin D → K),
        unpackAffine (packAffine B u) tform = { linear := B, translation := u }) ∧
      (∀ theta : Fin (NumUnknowns D) → K,
        packAffine (unpackAffine theta tform).linear (unpackAffine theta tform).translation
          = theta) :=
  ⟨estimateAffine_recovers solve A t src tform hN hspan hsolve,
    affinePointSystem_normal_equations A t src,
    fun B u => unpackAffine_packAffine B u tform,
    fun theta => packAffine_unpackAffine theta tform⟩

/-- The statement of C8 on three points of the plane that are not on a line,
the linear map `exampleLinear`, the translation `(5, 6)` and the solver
`cramerSolve`. -/
theorem affine_exact_recovery_witness :
    estimateTransformPointToPointMetricAffine cramerSolve
        (exampleTriangle.map (fun s => exampleLinear.mulVec s + ![5, 6])) exampleTriangle
        ⟨0, 0⟩ = (true, { linear := exampleLinear, translation := ![5, 6] }) := by
  have hspan : ∀ (a : Fin 2 → ℚ) (b : ℚ),
      (∀ s ∈ exampleTriangle, a ⬝ᵥ s + b = 0) → a = 0 ∧ b = 0 := by
    intro a b h
    have h0 := h ![0, 0] (by simp [exampleTriangle])
    have h1 := h ![1, 0] (by simp [exampleTriangle])
    have h2 := h ![0, 1] (by simp [exampleTriangle])
    simp [dotProduct, Fin.sum_univ_two] at h0 h1 h2
    subst h0
    simp at h1 h2
    refine ⟨?_, rfl⟩
    funext i
    fin_cases i
    · exact h1
    · exact h2
  exact (affine_exact_recovery cramerSolve exampleLinear ![5, 6] exampleTriangle ⟨0, 0⟩
    (by decide) hspan
    (cramerSolve_of_injective _ _
      (affinePointSystem_injective _ exampleTriangle (by simp) hspan))).1

/-- Claim C8 fails as stated: three equal source points at the origin are
mapped to themselves by the identity and by `exampleLinear`, both invertible,
with `N = Dim + 1`; the two inputs of the estimator are the same, so whatever
the solver returns, the transform written cannot be both linear maps. -/
theorem affine_exact_recovery_counterexample :
    (1 : Matrix (Fin 2) (Fin 2) ℚ).det ≠ 0 ∧ exampleLinear.det ≠ 0 ∧
      2 + 1 ≤ exampleOrigins.length ∧
      ¬ ∃ solve : Matrix (Fin (NumUnknowns 2)) (Fin (NumUnknowns 2)) ℚ →
          (Fin (NumUnknowns 2) → ℚ) → (Fin (NumUnknowns 2) → ℚ),
        estimateTransformPointToPointMetricAffine solve
            (exampleOrigins.map (fun s => (1 : Matrix (Fin 2) (Fin 2) ℚ).mulVec s + 0))
            exampleOrigins ⟨0, 0⟩ = (true, { linear := 1, translation := 0 }) ∧
          estimateTransformPointToPointMetricAffine solve
            (exampleOrigins.map (fun s => exampleLinear.mulVec s + 0))
            exampleOrigins ⟨0, 0⟩ = (true, { linear := exampleLinear, translation := 0 }) := by
  refine ⟨by simp, by simp [exampleLinear, det_fin_two]; norm_num, by decide, ?_⟩
  rintro ⟨solve, h1, h2⟩
  have hsame : exampleOrigins.map (fun s => exampleLinear.mulVec s + 0) =
      exampleOrigins.map (fun s => (1 : Matrix (Fin 2) (Fin 2) ℚ).mulVec s + 0) := by
    simp [exampleOrigins]
  rw [hsame, h1] at h2
  have h3 := congrArg (fun r : Bool × Transform ℚ 2 => r.2.linear 0 1) h2
  simp [exampleLinear] at h3

/-- Claim C9, amended. Let a point set `P` be used as destination and source
with the identity correspondence `i ↔ i`. If `P` has at least `Dim + 1` points
that span the space affinely, the library routines are exact (the SVD returns
orthogonal factors of the cross-covariance, of which at most the last singular
value vanishes; the solver returns a solution of a system that has one and
zero for a zero right-hand side; `cos 0 = 1`, `sin 0 = 0`; `rotation()` of the
identity is the identity), the precondition checks pass, `max_iter ≥ 1`, the
tolerance is positive, and the affine combined system has at least `Dim + 1`
active correspondences and a unique solution, then every estimator (rigid and
affine point-to-point, rigid 2D and 3D combined, affine combined) returns true
and the identity transform. -/
theorem identity_recovery
    (svd : Matrix (Fin D) (Fin D) K → Matrix (Fin D) (Fin D) K × Matrix (Fin D) (Fin D) K)
    (solveP solveC : Matrix (Fin (NumUnknowns D)) (Fin (NumUnknowns D)) K →
      (Fin (NumUnknowns D) → K) → (Fin (NumUnknowns D) → K))
    (solve3 : Matrix (Fin 3) (Fin 3) K → (Fin 3 → K) → (Fin 3 → K))
    (solve6 : Matrix (Fin 6) (Fin 6) K → (Fin 6 → K) → (Fin 6 → K))
    (cos sin : K → K)
    (rot2 : Matrix (Fin 2) (Fin 2) K → Matrix (Fin 2) (Fin 2) K)
    (rot3 : Matrix (Fin 3) (Fin 3) K → Matrix (Fin 3) (Fin 3) K)
    (P : VectorSet K D) (S : Fin D → K)
    (a2 : CombinedArgs K 2 V W) (a3 : CombinedArgs K 3 V W) (a : CombinedArgs K D V W)
    (t2 : Transform K 2) (t3 : Transform K 3) (t : Transform K D)
    (hD : 0 < D) (hN : D + 1 ≤ P.length)
    (hspan : ∀ (u : Fin D → K) (b : K), (∀ s ∈ P, u ⬝ᵥ s + b = 0) → u = 0 ∧ b = 0)
    (hU : (svd (crossCovariance P P)).1 * (svd (crossCovariance P P)).1ᵀ = 1)
    (hV : (svd (crossCovariance P P)).2 * (svd (crossCovariance P P)).2ᵀ = 1)
    (hsvd : crossCovariance P P =
      (svd (crossCovariance P P)).1 * diagonal S * (svd (crossCovariance P P)).2ᵀ)
    (hS0 : ∀ i, 0 ≤ S i) (hSpos : ∀ i : Fin D, i.val + 1 < D → 0 < S i)
    (hsolveP : (affinePointSystem P P).1.mulVec
        (solveP (affinePointSystem P P).1 (affinePointSystem P P).2) =
      (affinePointSystem P P).2)
    (hcos : cos 0 = 1) (hsin : sin 0 = 0) (hrot2 : rot2 1 = 1) (hrot3 : rot3 1 = 1)
    (hsolve3 : ∀ M : Matrix (Fin 3) (Fin 3) K, solve3 M 0 = 0)
    (hsolve6 : ∀ M : Matrix (Fin 6) (Fin 6) K, solve6 M 0 = 0)
    (hpre2 : preconditionViolated a2 = false) (hmax2 : 1 ≤ a2.max_iter)
    (htol2 : 0 < a2.convergence_tol) (hP2 : a2.src_p = a2.dst_p)
    (hpp2 : ∀ c ∈ a2.point_to_point_correspondences, c.indexInFirst = c.indexInSecond)
    (hpl2 : ∀ c ∈ a2.point_to_plane_correspondences, c.indexInFirst = c.indexInSecond)
    (hpre3 : preconditionViolated a3 = false) (hmax3 : 1 ≤ a3.max_iter)
    (htol3 : 0 < a3.convergence_tol) (hP3 : a3.src_p = a3.dst_p)
    (hpp3 : ∀ c ∈ a3.point_to_point_correspondences, c.indexInFirst = c.indexInSecond)
    (hpl3 : ∀ c ∈ a3.point_to_plane_correspondences, c.indexInFirst = c.indexInSecond)
    (hpre : preconditionViolated a = false) (hcount : D + 1 ≤ activeCorrespondenceCount a)
    (hPd : a.dst_p = P) (hPs : a.src_p = P)
    (hpp : ∀ c ∈ a.point_to_point_correspondences, c.indexInFirst = c.indexInSecond)
    (hpl : ∀ c ∈ a.point_to_plane_correspondences, c.indexInFirst = c.indexInSecond)
    (hinj : ∀ theta, (affineSystem a).1.mulVec theta = 0 → theta = 0)
    (hsolveC : (affineSystem a).1.mulVec (solveC (affineSystem a).1 (affineSystem a).2) =
      (affineSystem a).2) :
    estimateTransformPointToPointMetricRigid svd P P t =
        (true, { linear := 1, translation := 0 }) ∧
      estimateTransformPointToPointMetricAffine solveP P P t =
        (true, { linear := 1, translation := 0 }) ∧
      estimateTransformCombinedMetric2D solve3 cos sin rot2 a2 t2 =
        (true, { linear := 1, translation := 0 }) ∧
      estimateTransformCombinedMetric3D solve6 cos sin rot3 a3 t3 =
        (true, { linear := 1, translation := 0 }) ∧
      estimateTransformCombinedMetricAffine solveC a t =
        (true, { linear := 1, translation := 0 }) :=
  ⟨estimateRigid_identity svd P t S hD (by omega) hU hV hsvd hS0 hSpos,
    estimateAffine_identity solveP P t hN hspan hsolveP,
    estimate2D_identity solve3 cos sin rot2 a2 t2 hpre2 hmax2 htol2 hsolve3 hcos hsin hrot2 hP2
      hpp2 hpl2,
    estimate3D_identity solve6 cos sin rot3 a3 t3 hpre3 hmax3 htol3 hsolve6 hcos hsin hrot3 hP3
      hpp3 hpl3,
    estimateAffineCombined_identity solveC a t hpre hcount (by rw [hPd, hPs]) hpp hpl hinj
      hsolveC⟩

/-- The statement of C9 on `examplePoints` (point-to-point estimators and
affine combined estimator, through `exampleArgs2D`), `exampleArgs2D` and
`exampleArgs3D`. -/
theorem identity_recovery_witness :
    estimateTransformPointToPointMetricRigid (fun _ => (1, 1)) examplePoints examplePoints
        ⟨0, 0⟩ = (true, { linear := 1, translation := 0 }) ∧
      estimateTransformPointToPointMetricAffine cramerSolve examplePoints examplePoints
        ⟨0, 0⟩ = (true, { linear := 1, translation := 0 }) ∧
      estimateTransformCombinedMetric2D cramerSolve circleCos circleSin id exampleArgs2D
        ⟨0, 0⟩ = (true, { linear := 1, translation := 0 }) ∧
      estimateTransformCombinedMetric3D cramerSolve circleCos circleSin id exampleArgs3D
        ⟨0, 0⟩ = (true, { linear := 1, translation := 0 }) ∧
      estimateTransformCombinedMetricAffine cramerSolve exampleArgs2D ⟨0, 0⟩ =
        (true, { linear := 1, translation := 0 }) := by
  have hspan : ∀ (u : Fin 2 → ℚ) (b : ℚ),
      (∀ s ∈ examplePoints, u ⬝ᵥ s + b = 0) → u = 0 ∧ b = 0 := by
    intro u b h
    have h0 := h ![1, 0] (by simp [examplePoints])
    have h1 := h ![-1, 0] (by simp [examplePoints])
    have h2 := h ![0, 1] (by simp [examplePoints])
    simp [dotProduct, Fin.sum_univ_two] at h0 h1 h2
    have hb : b = 0 := by linarith
    have hu0 : u 0 = 0 := by linarith
    have hu1 : u 1 = 0 := by linarith
    refine ⟨?_, hb⟩
    funext i
    fin_cases i
    · exact hu0
    · exact hu1
  have hinj : ∀ theta, (affineSystem exampleArgs2D).1.mulVec theta = 0 → theta = 0 :=
    affineSystem_injective exampleArgs2D (by decide)
      (fun c _ => by simp [exampleArgs2D, UnityWeightEvaluator])
      (fun c _ => by simp [exampleArgs2D, UnityWeightEvaluator])
      (fun u b h => hspan u b (fun s hs => by
        simp only [examplePoints, List.mem_cons, List.mem_singleton, List.not_mem_nil,
          or_false] at hs
        rcases hs with rfl | rfl | rfl | rfl
        · exact h ⟨0, 0, 1⟩ (by simp [exampleArgs2D, exampleIdentityCorr])
        · exact h ⟨1, 1, 1⟩ (by simp [exampleArgs2D, exampleIdentityCorr])
        · exact h ⟨2, 2, 1⟩ (by simp [exampleArgs2D, exampleIdentityCorr])
        · exact h ⟨3, 3, 1⟩ (by simp [exampleArgs2D, exampleIdentityCorr])))
  exact identity_recovery (fun _ => (1, 1)) cramerSolve cramerSolve cramerSolve cramerSolve
    circleCos circleSin id id examplePoints ![1 / 2, 1 / 2]
    exampleArgs2D exampleArgs3D exampleArgs2D ⟨0, 0⟩ ⟨0, 0⟩ ⟨0, 0⟩
    (by decide) (by decide) hspan (by simp) (by simp)
    (by
      ext i j
      simp only [Matrix.mul_apply, Matrix.transpose_apply, Fin.sum_univ_two, diagonal_apply,
        Matrix.one_apply]
      fin_cases i <;> fin_cases j <;>
        norm_num [crossCovariance, mulTranspose, colwiseSub, rowwiseMean, examplePoints,
          vecMulVec_apply, vecHead, vecTail])
    (by intro i; fin_cases i <;> norm_num)
    (by intro i _; fin_cases i <;> norm_num)
    (cramerSolve_of_injective _ _
      (affinePointSystem_injective _ examplePoints rfl hspan))
    circleCos_zero circleSin_zero rfl rfl cramerSolve_zero cramerSolve_zero
    (by decide) (by decide) (by norm_num [exampleArgs2D]) rfl (by decide) (by decide)
    (by decide) (by decide) (by norm_num [exampleArgs3D]) rfl (by decide) (by decide)
    (by decide) (by decide) rfl rfl (by decide) (by decide) hinj
    (cramerSolve_of_injective _ _ hinj)

/-- Claim C9 fails as stated: for the point set of one point of the plane, used
as destination and source, the rigid and the affine point-to-point estimators
return false, whatever the SVD and the solver return. -/
theorem identity_recovery_counterexample :
    (¬ ∃ svd : Matrix (Fin 2) (Fin 2) ℚ → Matrix (Fin 2) (Fin 2) ℚ × Matrix (Fin 2) (Fin 2) ℚ,
        (estimateTransformPointToPointMetricRigid svd [![1, 2]] [![1, 2]] ⟨0, 0⟩).1 = true) ∧
      (¬ ∃ solve : Matrix (Fin (NumUnknowns 2)) (Fin (NumUnknowns 2)) ℚ →
          (Fin (NumUnknowns 2) → ℚ) → (Fin (NumUnknowns 2) → ℚ),
        (estimateTransformPointToPointMetricAffine solve [![1, 2]] [![1, 2]] ⟨0, 0⟩).1
          = true) := by
  constructor
  · rintro ⟨svd, h⟩
    rw [estimateRigid_of_lengths svd _ _ _ rfl (by decide)] at h
    simp at h
  · rintro ⟨solve, h⟩
    rw [estimateAffine_of_lengths solve _ _ _ rfl (by decide)] at h
    simp at h

/-- Claim C10, amended. In every combined-metric accumulation path
(point-to-point and point-to-plane; rigid 2D, rigid 3D, affine), for every
correspondence set and every correspondence `c` that occurs exactly once in it,
the `AtA` and `Atb` accumulated when the output of the weight evaluator for `c`
is doubled equal the `AtA` and `Atb` accumulated over any set in which `c`
occurs one additional time, with the original evaluator. -/
theorem weight_doubling_equals_duplication [DecidableEq V] [DecidableEq W]
    (a2 : CombinedArgs K 2 V W) (a3 : CombinedArgs K 3 V W) (a : CombinedArgs K D V W)
    (T2 : Transform K 2) (T3 : Transform K 3)
    (c : Correspondence V) (cs : CorrespondenceSet V)
    (e : Correspondence W) (es : CorrespondenceSet W) :
    (a2.point_to_point_correspondences.count c = 1 →
      cs.Perm (c :: a2.point_to_point_correspondences) →
      rigidSystem2D { a2 with point_corr_evaluator := doubledAt a2.point_corr_evaluator c } T2 =
        rigidSystem2D { a2 with point_to_point_correspondences := cs } T2) ∧
    (a2.point_to_plane_correspondences.count e = 1 →
      es.Perm (e :: a2.point_to_plane_correspondences) →
      rigidSystem2D { a2 with plane_corr_evaluator := doubledAt a2.plane_corr_evaluator e } T2 =
        rigidSystem2D { a2 with point_to_plane_correspondences := es } T2) ∧
    (a3.point_to_point_correspondences.count c = 1 →
      cs.Perm (c :: a3.point_to_point_correspondences) →
      rigidSystem3D { a3 with point_corr_evaluator := doubledAt a3.point_corr_evaluator c } T3 =
        rigidSystem3D { a3 with point_to_point_correspondences := cs } T3) ∧
    (a3.point_to_plane_correspondences.count e = 1 →
      es.Perm (e :: a3.point_to_plane_correspondences) →
      rigidSystem3D { a3 with plane_corr_evaluator := doubledAt a3.plane_corr_evaluator e } T3 =
        rigidSystem3D { a3 with point_to_plane_correspondences := es } T3) ∧
    (a.point_to_point_correspondences.count c = 1 →
      cs.Perm (c :: a.point_to_point_correspondences) →
      affineSystem { a with point_corr_evaluator := doubledAt a.point_corr_evaluator c } =
        affineSystem { a with point_to_point_correspondences := cs }) ∧
    (a.point_to_plane_correspondences.count e = 1 →
      es.Perm (e :: a.point_to_plane_correspondences) →
      affineSystem { a with plane_corr_evaluator := doubledAt a.plane_corr_evaluator e } =
        affineSystem { a with point_to_plane_correspondences := es }) :=
  ⟨rigidSystem2D_point_doubled a2 T2 c cs, rigidSystem2D_plane_doubled a2 T2 e es,
    rigidSystem3D_point_doubled a3 T3 c cs, rigidSystem3D_plane_doubled a3 T3 e es,
    affineSystem_point_doubled a c cs, affineSystem_plane_doubled a e es⟩

/-- The statement of C10 on `exampleArgs2D` and `exampleArgs3D`, for the first
correspondence of each set, appended once more at the end. -/
theorem weight_doubling_equals_duplication_witness :
    rigidSystem2D { exampleArgs2D with
        point_corr_evaluator := doubledAt exampleArgs2D.point_corr_evaluator exampleFirstCorr }
        { linear := 1, translation := 0 } =
      rigidSystem2D { exampleArgs2D with
        point_to_point_correspondences := exampleIdentityCorr ++ [exampleFirstCorr] }
        { linear := 1, translation := 0 } ∧
    rigidSystem3D { exampleArgs3D with
        plane_corr_evaluator := doubledAt exampleArgs3D.plane_corr_evaluator exampleFirstCorr }
        { linear := 1, translation := 0 } =
      rigidSystem3D { exampleArgs3D with
        point_to_plane_correspondences := [exampleFirstCorr, exampleFirstCorr] }
        { linear := 1, translation := 0 } ∧
    affineSystem { exampleArgs2D with
        point_corr_evaluator := doubledAt exampleArgs2D.point_corr_evaluator exampleFirstCorr } =
      affineSystem { exampleArgs2D with
        point_to_point_correspondences := exampleIdentityCorr ++ [exampleFirstCorr] } := by
  have h := weight_doubling_equals_duplication exampleArgs2D exampleArgs3D exampleArgs2D
    { linear := 1, translation := 0 } { linear := 1, translation := 0 }
    exampleFirstCorr (exampleIdentityCorr ++ [exampleFirstCorr]) exampleFirstCorr
    [exampleFirstCorr, exampleFirstCorr]
  have hc2 : exampleArgs2D.point_to_point_correspondences.count exampleFirstCorr = 1 := by
    simp [exampleArgs2D, exampleIdentityCorr, exampleFirstCorr]
  have hc3 : exampleArgs3D.point_to_plane_correspondences.count exampleFirstCorr = 1 := by
    simp [exampleArgs3D, exampleFirstCorr]
  have hp2 : (exampleIdentityCorr ++ [exampleFirstCorr]).Perm
      (exampleFirstCorr :: exampleArgs2D.point_to_point_correspondences) :=
    List.perm_append_singleton _ _
  have hp3 : [exampleFirstCorr, exampleFirstCorr].Perm
      (exampleFirstCorr :: exampleArgs3D.point_to_plane_correspondences) := List.Perm.refl _
  exact ⟨h.1 hc2 hp2, h.2.2.2.1 hc3 hp3, h.2.2.2.2.1 hc2 hp2⟩

/-- Claim C10 fails as stated: in `exampleArgsRepeated` the point-to-point set
holds the correspondence `exampleFirstCorr` twice. Doubling the output of the
evaluator for it doubles both contributions, so entry `(1, 1)` of `AtA` is
`4`, while with one additional occurrence it is `3`. -/
theorem weight_doubling_equals_duplication_counterexample :
    exampleFirstCorr ∈ exampleArgsRepeated.point_to_point_correspondences ∧
      (rigidSystem2D { exampleArgsRepeated with
          point_corr_evaluator :=
            doubledAt exampleArgsRepeated.point_corr_evaluator exampleFirstCorr }
          { linear := 1, translation := 0 }).1 1 1 = 4 ∧
      (rigidSystem2D { exampleArgsRepeated with
          point_to_point_correspondences :=
            exampleFirstCorr :: exampleArgsRepeated.point_to_point_correspondences }
          { linear := 1, translation := 0 }).1 1 1 = 3 ∧
      rigidSystem2D { exampleArgsRepeated with
          point_corr_evaluator :=
            doubledAt exampleArgsRepeated.point_corr_evaluator exampleFirstCorr }
          { linear := 1, translation := 0 } ≠
        rigidSystem2D { exampleArgsRepeated with
          point_to_point_correspondences :=
            exampleFirstCorr :: exampleArgsRepeated.point_to_point_correspondences }
          { linear := 1, translation := 0 } := by
  have h4 : (rigidSystem2D { exampleArgsRepeated with
      point_corr_evaluator := doubledAt exampleArgsRepeated.point_corr_evaluator exampleFirstCorr }
      { linear := 1, translation := 0 }).1 1 1 = 4 := by
    rw [rigidSystem2D_eq_sum]
    have hpp : has_point_to_point_terms { exampleArgsRepeated with
        point_corr_evaluator :=
          doubledAt exampleArgsRepeated.point_corr_evaluator exampleFirstCorr } = true := by decide
    have hpl : has_point_to_plane_terms { exampleArgsRepeated with
        point_corr_evaluator :=
          doubledAt exampleArgsRepeated.point_corr_evaluator exampleFirstCorr } = false := by decide
    rw [hpp, hpl]
    simp only [if_true, Bool.false_eq_true, if_false, add_zero, exampleArgsRepeated,
      List.map_cons, List.map_nil, List.sum_cons, List.sum_nil, Prod.fst_add, Matrix.add_apply,
      pointStep2D_entry_one_one]
    norm_num [doubledAt, exampleArgs2D, UnityWeightEvaluator, exampleFirstCorr]
  have h3 : (rigidSystem2D { exampleArgsRepeated with
      point_to_point_correspondences :=
        exampleFirstCorr :: exampleArgsRepeated.point_to_point_correspondences }
      { linear := 1, translation := 0 }).1 1 1 = 3 := by
    rw [rigidSystem2D_eq_sum]
    have hpp : has_point_to_point_terms { exampleArgsRepeated with
        point_to_point_correspondences :=
          exampleFirstCorr :: exampleArgsRepeated.point_to_point_correspondences } = true := by
      decide
    have hpl : has_point_to_plane_terms { exampleArgsRepeated with
        point_to_point_correspondences :=
          exampleFirstCorr :: exampleArgsRepeated.point_to_point_correspondences } = false := by
      decide
    rw [hpp, hpl]
    simp only [if_true, Bool.false_eq_true, if_false, add_zero, exampleArgsRepeated,
      List.map_cons, List.map_nil, List.sum_cons, List.sum_nil, Prod.fst_add, Matrix.add_apply,
      pointStep2D_entry_one_one]
    norm_num [exampleArgs2D, UnityWeightEvaluator]
  refine ⟨by simp [exampleArgsRepeated, exampleFirstCorr], h4, h3, ?_⟩
  intro h
  have h1 := congrArg (fun s : Matrix (Fin 3) (Fin 3) ℚ × (Fin 3 → ℚ) => s.1 1 1) h
  simp only [h4, h3] at h1
  norm_num at h1

/-- Claim C11. In every estimator that accumulates a system, each accumulation
loop (affine point-to-point; point-to-point and point-to-plane terms of the rigid
2D, rigid 3D and affine combined estimators) accumulates a plain sum started at
zero: its `AtA` and `Atb` are the sums of the contributions of the
correspondences, they are the same for every permutation of the set, and
accumulating over two chunks and adding the results gives the result over the
whole set. The accumulated systems are the sums of their loops and are
unchanged by any permutation of the correspondence sets. -/
theorem accumulation_is_plain_sum
    (a2 : CombinedArgs K 2 V W) (a3 : CombinedArgs K 3 V W) (a : CombinedArgs K D V W)
    (T2 : Transform K 2) (T3 : Transform K 3) (dst src : VectorSet K D) :
    (AccumulatesPlainSum (affinePointStep (K := K) (D := D)) ∧
      AccumulatesPlainSum (pointStep2D a2 T2) ∧ AccumulatesPlainSum (planeStep2D a2 T2) ∧
      AccumulatesPlainSum (pointStep3D a3 T3) ∧ AccumulatesPlainSum (planeStep3D a3 T3) ∧
      AccumulatesPlainSum (pointStepAffine a) ∧ AccumulatesPlainSum (planeStepAffine a)) ∧
    (affinePointSystem dst src = (List.zip dst src).foldl affinePointStep 0 ∧
      rigidSystem2D a2 T2 =
        (if has_point_to_point_terms a2 then
          a2.point_to_point_correspondences.foldl (pointStep2D a2 T2) 0 else 0) +
        (if has_point_to_plane_terms a2 then
          a2.point_to_plane_correspondences.foldl (planeStep2D a2 T2) 0 else 0) ∧
      rigidSystem3D a3 T3 =
        (if has_point_to_point_terms a3 then
          a3.point_to_point_correspondences.foldl (pointStep3D a3 T3) 0 else 0) +
        (if has_point_to_plane_terms a3 then
          a3.point_to_plane_correspondences.foldl (planeStep3D a3 T3) 0 else 0) ∧
      affineSystem a =
        (if has_point_to_point_terms a then
          a.point_to_point_correspondences.foldl (pointStepAffine a) 0 else 0) +
        (if has_point_to_plane_terms a then
          a.point_to_plane_correspondences.foldl (planeStepAffine a) 0 else 0)) ∧
    ((∀ dst2 src2 : VectorSet K D, (List.zip dst2 src2).Perm (List.zip dst src) →
        affinePointSystem dst2 src2 = affinePointSystem dst src) ∧
      (∀ (cs : CorrespondenceSet V) (es : CorrespondenceSet W),
        cs.Perm a2.point_to_point_correspondences →
        es.Perm a2.point_to_plane_correspondences →
        rigidSystem2D { a2 with point_to_point_correspondences := cs,
                                point_to_plane_correspondences := es } T2 =
          rigidSystem2D a2 T2) ∧
      (∀ (cs : CorrespondenceSet V) (es : CorrespondenceSet W),
        cs.Perm a3.point_to_point_correspondences →
        es.Perm a3.point_to_plane_correspondences →
        rigidSystem3D { a3 with point_to_point_correspondences := cs,
                                point_to_plane_correspondences := es } T3 =
          rigidSystem3D a3 T3) ∧
      (∀ (cs : CorrespondenceSet V) (es : CorrespondenceSet W),
        cs.Perm a.point_to_point_correspondences →
        es.Perm a.point_to_plane_correspondences →
        affineSystem { a with point_to_point_correspondences := cs,
                              point_to_plane_correspondences := es } =
          affineSystem a)) := by
  have hA := accumulatesPlainSum_of_add (affinePointStep (K := K) (D := D))
    affinePointStep_eq_add
  have h2p := accumulatesPlainSum_of_add _ (pointStep2D_eq_add a2 T2)
  have h2l := accumulatesPlainSum_of_add _ (planeStep2D_eq_add a2 T2)
  have h3p := accumulatesPlainSum_of_add _ (pointStep3D_eq_add a3 T3)
  have h3l := accumulatesPlainSum_of_add _ (planeStep3D_eq_add a3 T3)
  have hap := accumulatesPlainSum_of_add _ (pointStepAffine_eq_add a)
  have hal := accumulatesPlainSum_of_add _ (planeStepAffine_eq_add a)
  refine ⟨⟨hA, h2p, h2l, h3p, h3l, hap, hal⟩, ⟨rfl, ?_, ?_, ?_⟩, ⟨?_, ?_, ?_, ?_⟩⟩
  · rw [rigidSystem2D_eq_sum, h2p.1, h2l.1]
  · rw [rigidSystem3D_eq_sum, h3p.1, h3l.1]
  · rw [affineSystem_eq_sum, hap.1, hal.1]
  · intro dst2 src2 hp
    exact hA.2.1 _ _ hp
  · exact fun cs es hcs hes => rigidSystem2D_perm a2 T2 cs es hcs hes
  · exact fun cs es hcs hes => rigidSystem3D_perm a3 T3 cs es hcs hes
  · exact fun cs es hcs hes => affineSystem_perm a cs es hcs hes

/-- The statement of C11 on `exampleArgs2D`: the affine and the rigid 2D
combined systems accumulated over the reversed point-to-point set are the
systems accumulated over the set. -/
theorem accumulation_is_plain_sum_witness :
    affineSystem { exampleArgs2D with
        point_to_point_correspondences := exampleIdentityCorr.reverse
        point_to_plane_correspondences := [⟨0, 0, 1⟩] } = affineSystem exampleArgs2D ∧
      rigidSystem2D { exampleArgs2D with
        point_to_point_correspondences := exampleIdentityCorr.reverse
        point_to_plane_correspondences := [⟨0, 0, 1⟩] } ⟨1, 0⟩ =
        rigidSystem2D exampleArgs2D ⟨1, 0⟩ := by
  have h := accumulation_is_plain_sum exampleArgs2D exampleArgs3D exampleArgs2D ⟨1, 0⟩ ⟨1, 0⟩
    examplePoints examplePoints
  exact ⟨h.2.2.2.2.2 exampleIdentityCorr.reverse [⟨0, 0, 1⟩]
      (List.reverse_perm exampleIdentityCorr) (List.Perm.refl _),
    h.2.2.2.1 exampleIdentityCorr.reverse [⟨0, 0, 1⟩]
      (List.reverse_perm exampleIdentityCorr) (List.Perm.refl _)⟩

/-- Claim C12, amended. Re-running a closed-form estimator with the
destination replaced by the transform `T` of the first run applied to the
source points yields `T` again, provided the re-run is well posed.
Rigid point-to-point: equal counts `N ≥ Dim > 0`, orthogonal SVD factors in the
first run, and in the re-run orthogonal SVD factors of the cross-covariance
with at most one vanishing singular value, placed last.
Affine point-to-point: `N ≥ Dim + 1` source points that span the space affinely
and a solver that solved the system of the re-run.
Affine combined: a destination set `dst2` that holds, for every correspondence,
the image under `T` of the source point, a re-run that passes the precondition
check with at least `Dim + 1` active correspondences, an injective `AtA` and a
solver that solved the system of the re-run. -/
theorem closed_form_rerun_reproduces
    (svd : Matrix (Fin D) (Fin D) K → Matrix (Fin D) (Fin D) K × Matrix (Fin D) (Fin D) K)
    (solve : Matrix (Fin (NumUnknowns D)) (Fin (NumUnknowns D)) K →
      (Fin (NumUnknowns D) → K) → (Fin (NumUnknowns D) → K))
    (dst src : VectorSet K D) (a : CombinedArgs K D V W) (dst2 : VectorSet K D)
    (tform tform2 : Transform K D) (S : Fin D → K) :
    (src.length = dst.length → 0 < D → D ≤ src.length →
      (svd (crossCovariance dst src)).1 * (svd (crossCovariance dst src)).1ᵀ = 1 →
      (svd (crossCovariance dst src)).2 * (svd (crossCovariance dst src)).2ᵀ = 1 →
      (svd (crossCovariance (transformPoints
          (estimateTransformPointToPointMetricRigid svd dst src tform).2 src) src)).1 *
        (svd (crossCovariance (transformPoints
          (estimateTransformPointToPointMetricRigid svd dst src tform).2 src) src)).1ᵀ = 1 →
      (svd (crossCovariance (transformPoints
          (estimateTransformPointToPointMetricRigid svd dst src tform).2 src) src)).2 *
        (svd (crossCovariance (transformPoints
          (estimateTransformPointToPointMetricRigid svd dst src tform).2 src) src)).2ᵀ = 1 →
      crossCovariance (transformPoints
          (estimateTransformPointToPointMetricRigid svd dst src tform).2 src) src =
        (svd (crossCovariance (transformPoints
          (estimateTransformPointToPointMetricRigid svd dst src tform).2 src) src)).1 *
          diagonal S *
        (svd (crossCovariance (transformPoints
          (estimateTransformPointToPointMetricRigid svd dst src tform).2 src) src)).2ᵀ →
      (∀ i, 0 ≤ S i) → (∀ i : Fin D, i.val + 1 < D → 0 < S i) →
      estimateTransformPointToPointMetricRigid svd
          (transformPoints (estimateTransformPointToPointMetricRigid svd dst src tform).2 src)
          src tform2 =
        (true, (estimateTransformPointToPointMetricRigid svd dst src tform).2)) ∧
    (D + 1 ≤ src.length →
      (∀ (u : Fin D → K) (b : K), (∀ s ∈ src, u ⬝ᵥ s + b = 0) → u = 0 ∧ b = 0) →
      (affinePointSystem (transformPoints
          (estimateTransformPointToPointMetricAffine solve dst src tform).2 src) src).1.mulVec
        (solve
          (affinePointSystem (transformPoints
            (estimateTransformPointToPointMetricAffine solve dst src tform).2 src) src).1
          (affinePointSystem (transformPoints
            (estimateTransformPointToPointMetricAffine solve dst src tform).2 src) src).2) =
        (affinePointSystem (transformPoints
          (estimateTransformPointToPointMetricAffine solve dst src tform).2 src) src).2 →
      estimateTransformPointToPointMetricAffine solve
          (transformPoints (estimateTransformPointToPointMetricAffine solve dst src tform).2 src)
          src tform2 =
        (true, (estimateTransformPointToPointMetricAffine solve dst src tform).2)) ∧
    ((∀ c ∈ a.point_to_point_correspondences, dst2.col c.indexInFirst =
        (estimateTransformCombinedMetricAffine solve a tform).2.apply
          (a.src_p.col c.indexInSecond)) →
      (∀ c ∈ a.point_to_plane_correspondences, dst2.col c.indexInFirst =
        (estimateTransformCombinedMetricAffine solve a tform).2.apply
          (a.src_p.col c.indexInSecond)) →
      preconditionViolated { a with dst_p := dst2 } = false →
      D + 1 ≤ activeCorrespondenceCount { a with dst_p := dst2 } →
      (∀ theta, (affineSystem { a with dst_p := dst2 }).1.mulVec theta = 0 → theta = 0) →
      (affineSystem { a with dst_p := dst2 }).1.mulVec
          (solve (affineSystem { a with dst_p := dst2 }).1
            (affineSystem { a with dst_p := dst2 }).2) =
        (affineSystem { a with dst_p := dst2 }).2 →
      estimateTransformCombinedMetricAffine solve { a with dst_p := dst2 } tform2 =
        (true, (estimateTransformCombinedMetricAffine solve a tform).2)) := by
  refine ⟨?_, ?_, ?_⟩
  · intro hlen hD hN hU1 hV1
    have hne : src.length ≠ 0 := by omega
    have hlin : (estimateTransformPointToPointMetricRigid svd dst src tform).2.linear =
        rigidLinear (svd (crossCovariance dst src)).1 (svd (crossCovariance dst src)).2 := by
      rw [estimateRigid_of_lengths svd dst src tform hlen hne]
    have hR := rigidLinear_orthogonal _ _ hU1 hV1
    have hdet := rigidLinear_det _ _ hU1 hV1
    rw [← hlin] at hR hdet
    generalize (estimateTransformPointToPointMetricRigid svd dst src tform).2 = T at hR hdet ⊢
    intro hU2 hV2 hsvd hS0 hSpos
    exact estimateRigid_recovers svd T.linear T.translation src tform2 S hR hdet hD hN hU2 hV2
      hsvd hS0 hSpos
  · generalize (estimateTransformPointToPointMetricAffine solve dst src tform).2 = T
    intro hN hspan hsolve
    exact estimateAffine_recovers solve T.linear T.translation src tform2 hN hspan hsolve
  · generalize (estimateTransformCombinedMetricAffine solve a tform).2 = T
    intro hpp hpl hpre hcount hinj hsolve
    exact estimateAffineCombined_recovers solve { a with dst_p := dst2 } T tform2 hpre hcount
      hpp hpl hinj hsolve

/-- The statement of C12 on `examplePoints`: the rigid and the affine
point-to-point estimators, run on the points turned by a quarter and moved by
`(1, 2)`, and the affine combined estimator, run on `exampleArgs2D`, return
their transform again when they are re-run on its images of the source
points. -/
theorem closed_form_rerun_reproduces_witness :
    estimateTransformPointToPointMetricRigid (fun _ => (exampleQuarterTurn, 1))
        (transformPoints (estimateTransformPointToPointMetricRigid
          (fun _ => (exampleQuarterTurn, 1)) exampleTurned examplePoints ⟨0, 0⟩).2
          examplePoints) examplePoints ⟨0, 0⟩ =
      (true, (estimateTransformPointToPointMetricRigid (fun _ => (exampleQuarterTurn, 1))
        exampleTurned examplePoints ⟨0, 0⟩).2) ∧
    estimateTransformPointToPointMetricAffine cramerSolve
        (transformPoints (estimateTransformPointToPointMetricAffine cramerSolve exampleTurned
          examplePoints ⟨0, 0⟩).2 examplePoints) examplePoints ⟨0, 0⟩ =
      (true, (estimateTransformPointToPointMetricAffine cramerSolve exampleTurned
        examplePoints ⟨0, 0⟩).2) ∧
    estimateTransformCombinedMetricAffine cramerSolve
        { exampleArgs2D with dst_p := examplePoints } ⟨0, 0⟩ =
      (true, (estimateTransformCombinedMetricAffine cramerSolve exampleArgs2D ⟨0, 0⟩).2) := by
  obtain ⟨h1, h2, h3⟩ := closed_form_rerun_reproduces (fun _ => (exampleQuarterTurn, 1))
    cramerSolve exampleTurned examplePoints exampleArgs2D examplePoints ⟨0, 0⟩ ⟨0, 0⟩
    ![1 / 2, 1 / 2]
  refine ⟨h1 rfl (by decide) (by decide) exampleQuarterTurn_orthogonal (by simp)
      exampleQuarterTurn_orthogonal (by simp) ?_ (by intro i; fin_cases i <;> norm_num)
      (by intro i _; fin_cases i <;> norm_num),
    h2 (by decide) examplePoints_span
      (cramerSolve_of_injective _ _
        (affinePointSystem_injective _ examplePoints (by simp [transformPoints])
          examplePoints_span)),
    h3 ?_ ?_ (by decide) (by decide) exampleArgs2D_injective
      (cramerSolve_of_injective _ _ exampleArgs2D_injective)⟩
  · rw [exampleTurned_rigid_estimate, transformPoints_exampleTurned]
    exact exampleTurned_crossCovariance
  · intro c hc
    rw [exampleArgs2D_estimate]
    simp only [exampleArgs2D, exampleIdentityCorr, List.mem_cons, List.mem_singleton,
      List.not_mem_nil, or_false] at hc
    rcases hc with rfl | rfl | rfl | rfl <;>
      simp [Transform.apply, exampleArgs2D, examplePoints, VectorSet.col]
  · intro c hc
    rw [exampleArgs2D_estimate]
    simp only [exampleArgs2D, List.mem_cons, List.mem_singleton,
      List.not_mem_nil, or_false] at hc
    rcases hc with rfl
    simp [Transform.apply, exampleArgs2D, examplePoints, VectorSet.col]

/-- Claim C12 fails as stated: on `examplePoints` turned by a quarter and
moved by `(1, 2)`, where the cross-covariance is `R·diag(1/2, 1/2)·1ᵀ` with
`R` the quarter turn, the rigid point-to-point estimator returns true and
writes the quarter turn and the translation `(1, 2)`; re-run with the
destination replaced by that transform applied to the source points, it returns
true and writes the same transform, which is not the identity. -/
theorem closed_form_rerun_reproduces_counterexample :
    crossCovariance exampleTurned examplePoints =
        exampleQuarterTurn * diagonal ![1 / 2, 1 / 2] * (1 : Matrix (Fin 2) (Fin 2) ℚ)ᵀ ∧
      exampleQuarterTurn * exampleQuarterTurnᵀ = 1 ∧
      estimateTransformPointToPointMetricRigid (fun _ => (exampleQuarterTurn, 1))
          exampleTurned examplePoints ⟨0, 0⟩ =
        (true, { linear := exampleQuarterTurn, translation := ![1, 2] }) ∧
      estimateTransformPointToPointMetricRigid (fun _ => (exampleQuarterTurn, 1))
          (transformPoints (estimateTransformPointToPointMetricRigid
            (fun _ => (exampleQuarterTurn, 1)) exampleTurned examplePoints ⟨0, 0⟩).2
            examplePoints) examplePoints ⟨0, 0⟩ =
        (true, { linear := exampleQuarterTurn, translation := ![1, 2] }) ∧
      (estimateTransformPointToPointMetricRigid (fun _ => (exampleQuarterTurn, 1))
          (transformPoints (estimateTransformPointToPointMetricRigid
            (fun _ => (exampleQuarterTurn, 1)) exampleTurned examplePoints ⟨0, 0⟩).2
            examplePoints) examplePoints ⟨0, 0⟩).2 ≠ { linear := 1, translation := 0 } := by
  have hrerun : estimateTransformPointToPointMetricRigid (fun _ => (exampleQuarterTurn, 1))
      (transformPoints (estimateTransformPointToPointMetricRigid
        (fun _ => (exampleQuarterTurn, 1)) exampleTurned examplePoints ⟨0, 0⟩).2
        examplePoints) examplePoints ⟨0, 0⟩ =
      (true, { linear := exampleQuarterTurn, translation := ![1, 2] }) := by
    rw [exampleTurned_rigid_estimate, transformPoints_exampleTurned,
      exampleTurned_rigid_estimate]
  refine ⟨exampleTurned_crossCovariance, exampleQuarterTurn_orthogonal,
    exampleTurned_rigid_estimate _, hrerun, ?_⟩
  rw [hrerun]
  intro h
  have h1 := congrArg (fun T : Transform ℚ 2 => T.linear 0 0) h
  simp [exampleQuarterTurn] at h1

/-- Claim C13. No estimator reads the incoming contents of the output
transform: two calls with the same point sets, normal sets, correspondence
sets, weights and solver parameters but different incoming transforms return
the same flag and write the same transform. -/
theorem result_independent_of_incoming_transform
    (svd : Matrix (Fin D) (Fin D) K → Matrix (Fin D) (Fin D) K × Matrix (Fin D) (Fin D) K)
    (solve : Matrix (Fin (NumUnknowns D)) (Fin (NumUnknowns D)) K →
      (Fin (NumUnknowns D) → K) → (Fin (NumUnknowns D) → K))
    (solve3 : Matrix (Fin 3) (Fin 3) K → (Fin 3 → K) → (Fin 3 → K))
    (solve6 : Matrix (Fin 6) (Fin 6) K → (Fin 6 → K) → (Fin 6 → K))
    (cos sin : K → K)
    (rot2 : Matrix (Fin 2) (Fin 2) K → Matrix (Fin 2) (Fin 2) K)
    (rot3 : Matrix (Fin 3) (Fin 3) K → Matrix (Fin 3) (Fin 3) K)
    (dst src : VectorSet K D) (corr : CorrespondenceSet V)
    (a2 : CombinedArgs K 2 V W) (a3 : CombinedArgs K 3 V W) (a : CombinedArgs K D V W)
    (t1 t2 : Transform K D) (u1 u2 : Transform K 2) (v1 v2 : Transform K 3) :
    estimateTransformPointToPointMetricRigid svd dst src t1 =
        estimateTransformPointToPointMetricRigid svd dst src t2 ∧
      estimateTransformPointToPointMetricAffine solve dst src t1 =
        estimateTransformPointToPointMetricAffine solve dst src t2 ∧
      estimateTransformPointToPointMetricRigidCorr svd dst src corr t1 =
        estimateTransformPointToPointMetricRigidCorr svd dst src corr t2 ∧
      estimateTransformPointToPointMetricAffineCorr solve dst src corr t1 =
        estimateTransformPointToPointMetricAffineCorr solve dst src corr t2 ∧
      estimateTransformCombinedMetric2D solve3 cos sin rot2 a2 u1 =
        estimateTransformCombinedMetric2D solve3 cos sin rot2 a2 u2 ∧
      estimateTransformCombinedMetric3D solve6 cos sin rot3 a3 v1 =
        estimateTransformCombinedMetric3D solve6 cos sin rot3 a3 v2 ∧
      estimateTransformCombinedMetricAffine solve a t1 =
        estimateTransformCombinedMetricAffine solve a t2 :=
  ⟨rfl, rfl, rfl, rfl, rfl, rfl, rfl⟩

/-- Claim C14. On inputs with equal, non-zero point counts the translation
written by the rigid point-to-point estimator is `c_dst - R·c_src`, where `R`
is the linear part written by the same call (whichever branch of the
determinant test was taken) and `c_dst`, `c_src` are the centroids, the sum of
the points divided by their number; entry by entry,
`t[a] = (Σ_i dst_i[a])/N - Σ_b R[a][b]·(Σ_i src_i[b])/N`. Hence the transform
written maps the centroid of the source points onto the centroid of the
destination points. -/
theorem rigid_translation_centroid
    (svd : Matrix (Fin D) (Fin D) K → Matrix (Fin D) (Fin D) K × Matrix (Fin D) (Fin D) K)
    (dst src : VectorSet K D) (tform : Transform K D)
    (hlen : src.length = dst.length) (hpos : src.length ≠ 0) :
    (estimateTransformPointToPointMetricRigid svd dst src tform).2.translation =
        (dst.length : K)⁻¹ • dst.sum -
          (estimateTransformPointToPointMetricRigid svd dst src tform).2.linear.mulVec
            ((src.length : K)⁻¹ • src.sum) ∧
      (∀ a, (estimateTransformPointToPointMetricRigid svd dst src tform).2.translation a =
        (dst.map (fun p => p a)).sum / (dst.length : K) -
          ∑ b, (estimateTransformPointToPointMetricRigid svd dst src tform).2.linear a b *
            ((src.map (fun p => p b)).sum / (src.length : K))) ∧
      (estimateTransformPointToPointMetricRigid svd dst src tform).2.apply
          ((src.length : K)⁻¹ • src.sum) = (dst.length : K)⁻¹ • dst.sum := by
  rw [estimateRigid_of_lengths svd dst src tform hlen hpos]
  refine ⟨?_, fun a => ?_, ?_⟩
  · simp only [rowwiseMean_eq_smul_sum]
  · simp only [rowwiseMean_eq_smul_sum, Pi.sub_apply, Pi.smul_apply, smul_eq_mul, mulVec,
      dotProduct, list_sum_apply, div_eq_inv_mul]
  · simp only [rowwiseMean_eq_smul_sum, Transform.apply]
    abel

/-- The statement of C14 on four points with centroid `(1, 1)` and their
images under the reflection in the first axis followed by the translation
`(1, 2)`, with centroid `(2, 1)`: the determinant test takes the correcting
branch, the linear part written is the identity, the translation written is
`(1, 0) = (2, 1) - 1·(1, 1)`, and the transform written maps `(1, 1)` to
`(2, 1)`. -/
theorem rigid_translation_centroid_witness :
    crossCovariance exampleShiftedMirrored exampleShifted =
        exampleMirror * diagonal ![1 / 2, 1 / 2] * (1 : Matrix (Fin 2) (Fin 2) ℚ)ᵀ ∧
      (exampleMirror * (1 : Matrix (Fin 2) (Fin 2) ℚ)).det < 0 ∧
      ((exampleShifted.length : ℚ))⁻¹ • exampleShifted.sum = ![1, 1] ∧
      ((exampleShiftedMirrored.length : ℚ))⁻¹ • exampleShiftedMirrored.sum = ![2, 1] ∧
      (estimateTransformPointToPointMetricRigid (fun _ => (exampleMirror, 1))
        exampleShiftedMirrored exampleShifted ⟨0, 0⟩).2.translation = ![1, 0] ∧
      (estimateTransformPointToPointMetricRigid (fun _ => (exampleMirror, 1))
        exampleShiftedMirrored exampleShifted ⟨0, 0⟩).2.apply ![1, 1] = ![2, 1] := by
  have h := rigid_translation_centroid (fun _ => (exampleMirror, 1)) exampleShiftedMirrored
    exampleShifted ⟨0, 0⟩ (by decide) (by decide)
  rw [exampleShifted_centroid, exampleShiftedMirrored_centroid] at h
  refine ⟨?_, ?_, exampleShifted_centroid, exampleShiftedMirrored_centroid, ?_, h.2.2⟩
  · ext i j
    simp only [Matrix.mul_apply, Matrix.transpose_apply, Fin.sum_univ_two, diagonal_apply,
      Matrix.one_apply]
    fin_cases i <;> fin_cases j <;>
      norm_num [crossCovariance, mulTranspose, colwiseSub, rowwiseMean, exampleShiftedMirrored,
        exampleShifted, exampleMirror, vecMulVec_apply, vecHead, vecTail, Matrix.one_apply]
  · simp [exampleMirror, det_fin_two]
  · rw [h.1, exampleShiftedMirrored_estimate]
    funext a
    fin_cases a <;> norm_num

/-- Claim C15. The matrix `AtA` accumulated by the affine point-to-point
estimator and by the rigid 2D, rigid 3D and affine combined estimators (for any
current transform) is symmetric, and so is the `AtA` of each of their
point-to-point and point-to-plane loops alone. The `AtA` of the affine
point-to-point estimator is positive-semidefinite; the `AtA` of a loop is when
its global weight and the evaluator outputs on its correspondences are `≥ 0`;
the `AtA` of a combined system is when the evaluator outputs on the
correspondences are `≥ 0` (the global weight of an active term is positive). -/
theorem accumulated_matrix_symmetric_psd
    (a2 : CombinedArgs K 2 V W) (a3 : CombinedArgs K 3 V W) (a : CombinedArgs K D V W)
    (T2 : Transform K 2) (T3 : Transform K 3) (dst src : VectorSet K D) :
    ((affinePointSystem dst src).1ᵀ = (affinePointSystem dst src).1 ∧
      (rigidSystem2D a2 T2).1ᵀ = (rigidSystem2D a2 T2).1 ∧
      (rigidSystem3D a3 T3).1ᵀ = (rigidSystem3D a3 T3).1 ∧
      (affineSystem a).1ᵀ = (affineSystem a).1) ∧
    ((∀ cs : CorrespondenceSet V,
        ((cs.foldl (pointStep2D a2 T2) 0).1)ᵀ = (cs.foldl (pointStep2D a2 T2) 0).1) ∧
      (∀ cs : CorrespondenceSet W,
        ((cs.foldl (planeStep2D a2 T2) 0).1)ᵀ = (cs.foldl (planeStep2D a2 T2) 0).1) ∧
      (∀ cs : CorrespondenceSet V,
        ((cs.foldl (pointStep3D a3 T3) 0).1)ᵀ = (cs.foldl (pointStep3D a3 T3) 0).1) ∧
      (∀ cs : CorrespondenceSet W,
        ((cs.foldl (planeStep3D a3 T3) 0).1)ᵀ = (cs.foldl (planeStep3D a3 T3) 0).1) ∧
      (∀ cs : CorrespondenceSet V,
        ((cs.foldl (pointStepAffine a) 0).1)ᵀ = (cs.foldl (pointStepAffine a) 0).1) ∧
      (∀ cs : CorrespondenceSet W,
        ((cs.foldl (planeStepAffine a) 0).1)ᵀ = (cs.foldl (planeStepAffine a) 0).1)) ∧
    ((∀ x, 0 ≤ x ⬝ᵥ (affinePointSystem dst src).1.mulVec x) ∧
      ((∀ c ∈ a2.point_to_point_correspondences,
          0 ≤ a2.point_corr_evaluator c.indexInFirst c.indexInSecond c.value) →
        (∀ c ∈ a2.point_to_plane_correspondences,
          0 ≤ a2.plane_corr_evaluator c.indexInFirst c.indexInSecond c.value) →
        ∀ x, 0 ≤ x ⬝ᵥ (rigidSystem2D a2 T2).1.mulVec x) ∧
      ((∀ c ∈ a3.point_to_point_correspondences,
          0 ≤ a3.point_corr_evaluator c.indexInFirst c.indexInSecond c.value) →
        (∀ c ∈ a3.point_to_plane_correspondences,
          0 ≤ a3.plane_corr_evaluator c.indexInFirst c.indexInSecond c.value) →
        ∀ x, 0 ≤ x ⬝ᵥ (rigidSystem3D a3 T3).1.mulVec x) ∧
      ((∀ c ∈ a.point_to_point_correspondences,
          0 ≤ a.point_corr_evaluator c.indexInFirst c.indexInSecond c.value) →
        (∀ c ∈ a.point_to_plane_correspondences,
          0 ≤ a.plane_corr_evaluator c.indexInFirst c.indexInSecond c.value) →
        ∀ x, 0 ≤ x ⬝ᵥ (affineSystem a).1.mulVec x)) ∧
    ((∀ cs : CorrespondenceSet V, 0 ≤ a2.point_to_point_weight →
        (∀ c ∈ cs, 0 ≤ a2.point_corr_evaluator c.indexInFirst c.indexInSecond c.value) →
        ∀ x, 0 ≤ x ⬝ᵥ (cs.foldl (pointStep2D a2 T2) 0).1.mulVec x) ∧
      (∀ cs : CorrespondenceSet W, 0 ≤ a2.point_to_plane_weight →
        (∀ c ∈ cs, 0 ≤ a2.plane_corr_evaluator c.indexInFirst c.indexInSecond c.value) →
        ∀ x, 0 ≤ x ⬝ᵥ (cs.foldl (planeStep2D a2 T2) 0).1.mulVec x) ∧
      (∀ cs : CorrespondenceSet V, 0 ≤ a3.point_to_point_weight →
        (∀ c ∈ cs, 0 ≤ a3.point_corr_evaluator c.indexInFirst c.indexInSecond c.value) →
        ∀ x, 0 ≤ x ⬝ᵥ (cs.foldl (pointStep3D a3 T3) 0).1.mulVec x) ∧
      (∀ cs : CorrespondenceSet W, 0 ≤ a3.point_to_plane_weight →
        (∀ c ∈ cs, 0 ≤ a3.plane_corr_evaluator c.indexInFirst c.indexInSecond c.value) →
        ∀ x, 0 ≤ x ⬝ᵥ (cs.foldl (planeStep3D a3 T3) 0).1.mulVec x) ∧
      (∀ cs : CorrespondenceSet V, 0 ≤ a.point_to_point_weight →
        (∀ c ∈ cs, 0 ≤ a.point_corr_evaluator c.indexInFirst c.indexInSecond c.value) →
        ∀ x, 0 ≤ x ⬝ᵥ (cs.foldl (pointStepAffine a) 0).1.mulVec x) ∧
      (∀ cs : CorrespondenceSet W, 0 ≤ a.point_to_plane_weight →
        (∀ c ∈ cs, 0 ≤ a.plane_corr_evaluator c.indexInFirst c.indexInSecond c.value) →
        ∀ x, 0 ≤ x ⬝ᵥ (cs.foldl (planeStepAffine a) 0).1.mulVec x)) := by
  refine ⟨⟨affinePointSystem_symm dst src, rigidSystem2D_symm a2 T2, rigidSystem3D_symm a3 T3,
      affineSystem_symm a⟩, ⟨?_, ?_, ?_, ?_, ?_, ?_⟩,
    ⟨affinePointSystem_psd dst src, rigidSystem2D_psd a2 T2, rigidSystem3D_psd a3 T3,
      affineSystem_psd a⟩, ⟨?_, ?_, ?_, ?_, ?_, ?_⟩⟩
  · refine loop_symm _ (pointStep2D_eq_add a2 T2) (fun c => ?_)
    simp only [pointStep2D, Prod.fst_zero, zero_add]
    exact smul_mul_transpose_symm _ _
  · refine loop_symm _ (planeStep2D_eq_add a2 T2) (fun c => ?_)
    simp only [planeStep2D, Prod.fst_zero, zero_add]
    exact vecMulVec_smul_symm _ _
  · refine loop_symm _ (pointStep3D_eq_add a3 T3) (fun c => ?_)
    simp only [pointStep3D, Prod.fst_zero, zero_add]
    exact smul_mul_transpose_symm _ _
  · refine loop_symm _ (planeStep3D_eq_add a3 T3) (fun c => ?_)
    simp only [planeStep3D, Prod.fst_zero, zero_add]
    exact vecMulVec_smul_symm _ _
  · refine loop_symm _ (pointStepAffine_eq_add a) (fun c => ?_)
    simp only [pointStepAffine, Prod.fst_zero, zero_add]
    exact smul_mul_transpose_symm _ _
  · refine loop_symm _ (planeStepAffine_eq_add a) (fun c => ?_)
    simp only [planeStepAffine, Prod.fst_zero, zero_add]
    exact vecMulVec_smul_symm _ _
  · intro cs hw he x
    refine loop_psd _ (pointStep2D_eq_add a2 T2) cs x (fun c hc => ?_)
    simp only [pointStep2D, Prod.fst_zero, zero_add]
    exact smul_mul_transpose_psd _ (mul_nonneg hw (he c hc)) _ _
  · intro cs hw he x
    refine loop_psd _ (planeStep2D_eq_add a2 T2) cs x (fun c hc => ?_)
    simp only [planeStep2D, Prod.fst_zero, zero_add]
    exact vecMulVec_smul_psd _ (mul_nonneg hw (he c hc)) _ _
  · intro cs hw he x
    refine loop_psd _ (pointStep3D_eq_add a3 T3) cs x (fun c hc => ?_)
    simp only [pointStep3D, Prod.fst_zero, zero_add]
    exact smul_mul_transpose_psd _ (mul_nonneg hw (he c hc)) _ _
  · intro cs hw he x
    refine loop_psd _ (planeStep3D_eq_add a3 T3) cs x (fun c hc => ?_)
    simp only [planeStep3D, Prod.fst_zero, zero_add]
    exact vecMulVec_smul_psd _ (mul_nonneg hw (he c hc)) _ _
  · intro cs hw he x
    refine loop_psd _ (pointStepAffine_eq_add a) cs x (fun c hc => ?_)
    simp only [pointStepAffine, Prod.fst_zero, zero_add]
    exact smul_mul_transpose_psd _ (mul_nonneg hw (he c hc)) _ _
  · intro cs hw he x
    refine loop_psd _ (planeStepAffine_eq_add a) cs x (fun c hc => ?_)
    simp only [planeStepAffine, Prod.fst_zero, zero_add]
    exact vecMulVec_smul_psd _ (mul_nonneg hw (he c hc)) _ _

/-- The statement of C15 on `exampleArgs2D`, whose weights are all one: the
quadratic forms of the `AtA` of the rigid 2D system at the identity and of the
affine combined system are non-negative at the vectors `(1, -2, 3)` and
`(1, -2, 3, -4, 5, -6)`. -/
theorem accumulated_matrix_symmetric_psd_witness :
    0 ≤ (![1, -2, 3] : Fin 3 → ℚ) ⬝ᵥ
        (rigidSystem2D exampleArgs2D ⟨1, 0⟩).1.mulVec ![1, -2, 3] ∧
      0 ≤ (![1, -2, 3, -4, 5, -6] : Fin (NumUnknowns 2) → ℚ) ⬝ᵥ
        (affineSystem exampleArgs2D).1.mulVec ![1, -2, 3, -4, 5, -6] := by
  have h := accumulated_matrix_symmetric_psd exampleArgs2D exampleArgs3D exampleArgs2D ⟨1, 0⟩
    ⟨1, 0⟩ examplePoints examplePoints
  exact ⟨h.2.2.1.2.1 (fun c _ => by simp [exampleArgs2D, UnityWeightEvaluator])
      (fun c _ => by simp [exampleArgs2D, UnityWeightEvaluator]) ![1, -2, 3],
    h.2.2.1.2.2.2 (fun c _ => by simp [exampleArgs2D, UnityWeightEvaluator])
      (fun c _ => by simp [exampleArgs2D, UnityWeightEvaluator]) ![1, -2, 3, -4, 5, -6]⟩

/-- Claim C16. In the rigid combined-metric estimators (2D and 3D), with
`cos² + sin² = 1` and `rotation()` returning a proper rotation unchanged, the
linear part of the transform is a proper rotation (orthogonal, determinant
`+1`) at the start, after every update and on return: for every solved
`d_theta` the 2D increment `Rotation2D(d_theta[0])` and the 3D increment
`Rz(d_theta[2])·Ry(d_theta[1])·Rx(d_theta[0])` are proper rotations, and
multiplying a proper rotation by them on the left gives a proper rotation. -/
theorem rigid_linear_part_proper_rotation
    (solve3 : Matrix (Fin 3) (Fin 3) K → (Fin 3 → K) → (Fin 3 → K))
    (solve6 : Matrix (Fin 6) (Fin 6) K → (Fin 6 → K) → (Fin 6 → K))
    (cos sin : K → K)
    (rot2 : Matrix (Fin 2) (Fin 2) K → Matrix (Fin 2) (Fin 2) K)
    (rot3 : Matrix (Fin 3) (Fin 3) K → Matrix (Fin 3) (Fin 3) K)
    (a2 : CombinedArgs K 2 V W) (a3 : CombinedArgs K 3 V W)
    (t2 : Transform K 2) (t3 : Transform K 3)
    (hcs : ∀ x, cos x * cos x + sin x * sin x = 1)
    (hrot2 : ∀ M : Matrix (Fin 2) (Fin 2) K, IsProperRotation M → rot2 M = M)
    (hrot3 : ∀ M : Matrix (Fin 3) (Fin 3) K, IsProperRotation M → rot3 M = M) :
    (IsProperRotation (t2.setIdentity).linear ∧
      (∀ d : Fin 3 → K, IsProperRotation (rotation2D cos sin (d 0))) ∧
      (∀ (T : Transform K 2) (d : Fin 3 → K), IsProperRotation T.linear →
        IsProperRotation (rotation2D cos sin (d 0) * T.linear) ∧
          IsProperRotation (update2D cos sin rot2 T d).linear) ∧
      (∀ k, IsProperRotation
        (updatesFrom (iterStep2D solve3 cos sin rot2 a2) t2.setIdentity k).linear) ∧
      IsProperRotation
        (estimateTransformCombinedMetric2D solve3 cos sin rot2 a2 t2).2.linear) ∧
    (IsProperRotation (t3.setIdentity).linear ∧
      (∀ d : Fin 6 → K, IsProperRotation
        (angleAxisZ cos sin (d 2) * angleAxisY cos sin (d 1) * angleAxisX cos sin (d 0))) ∧
      (∀ (T : Transform K 3) (d : Fin 6 → K), IsProperRotation T.linear →
        IsProperRotation (angleAxisZ cos sin (d 2) * angleAxisY cos sin (d 1) *
            angleAxisX cos sin (d 0) * T.linear) ∧
          IsProperRotation (update3D cos sin rot3 T d).linear) ∧
      (∀ k, IsProperRotation
        (updatesFrom (iterStep3D solve6 cos sin rot3 a3) t3.setIdentity k).linear) ∧
      IsProperRotation
        (estimateTransformCombinedMetric3D solve6 cos sin rot3 a3 t3).2.linear) := by
  refine ⟨⟨isProperRotation_one, fun d => rotation2D_proper cos sin hcs (d 0), ?_, ?_,
      estimate2DTrace_proper solve3 cos sin rot2 hcs hrot2 a2 t2⟩,
    ⟨isProperRotation_one, angleAxisZYX_proper cos sin hcs, ?_, ?_,
      estimate3DTrace_proper solve6 cos sin rot3 hcs hrot3 a3 t3⟩⟩
  · exact fun T d hT => ⟨(rotation2D_proper cos sin hcs (d 0)).mul hT,
      update2D_proper cos sin rot2 hcs hrot2 T d hT⟩
  · exact updatesFrom_invariant (fun T => IsProperRotation T.linear) _
      (fun T hT => update2D_proper cos sin rot2 hcs hrot2 T _ hT) _ isProperRotation_one
  · exact fun T d hT => ⟨(angleAxisZYX_proper cos sin hcs d).mul hT,
      update3D_proper cos sin rot3 hcs hrot3 T d hT⟩
  · exact updatesFrom_invariant (fun T => IsProperRotation T.linear) _
      (fun T hT => update3D_proper cos sin rot3 hcs hrot3 T _ hT) _ isProperRotation_one

/-- The statement of C16 with the rational parametrisation of the circle for
`cos` and `sin` and the identity for `rotation()`: the linear parts returned
on `exampleArgs2D` and `exampleArgs3D` are proper rotations. -/
theorem rigid_linear_part_proper_rotation_witness :
    IsProperRotation (estimateTransformCombinedMetric2D cramerSolve circleCos circleSin id
        exampleArgs2D ⟨0, 0⟩).2.linear ∧
      IsProperRotation (estimateTransformCombinedMetric3D cramerSolve circleCos circleSin id
        exampleArgs3D ⟨0, 0⟩).2.linear := by
  have h := rigid_linear_part_proper_rotation cramerSolve cramerSolve circleCos circleSin id id
    exampleArgs2D exampleArgs3D ⟨0, 0⟩ ⟨0, 0⟩ circle_identity (fun _ _ => rfl) (fun _ _ => rfl)
  exact ⟨h.1.2.2.2.2, h.2.2.2.2.2⟩

/-- Claim C17. In the rigid combined-metric estimators, under the same
assumptions on `cos`, `sin` and `rotation()`: if the transform before an update
is `x ↦ R·x + t` with `R` a proper rotation (as it is in every pass of the
loop) and the solved increment has rotation `R_inc` and translation `t_inc`,
the transform after the update has rotation `R_inc·R` and translation
`R_inc·t + t_inc`, so that `T_new(x) = R_inc·T_old(x) + t_inc` for every point
`x`; this holds for every pass of the loop started at the identity. -/
theorem rigid_update_composition
    (solve3 : Matrix (Fin 3) (Fin 3) K → (Fin 3 → K) → (Fin 3 → K))
    (solve6 : Matrix (Fin 6) (Fin 6) K → (Fin 6 → K) → (Fin 6 → K))
    (cos sin : K → K)
    (rot2 : Matrix (Fin 2) (Fin 2) K → Matrix (Fin 2) (Fin 2) K)
    (rot3 : Matrix (Fin 3) (Fin 3) K → Matrix (Fin 3) (Fin 3) K)
    (a2 : CombinedArgs K 2 V W) (a3 : CombinedArgs K 3 V W)
    (hcs : ∀ x, cos x * cos x + sin x * sin x = 1)
    (hrot2 : ∀ M : Matrix (Fin 2) (Fin 2) K, IsProperRotation M → rot2 M = M)
    (hrot3 : ∀ M : Matrix (Fin 3) (Fin 3) K, IsProperRotation M → rot3 M = M) :
    ((∀ (T : Transform K 2) (d : Fin 3 → K), IsProperRotation T.linear →
        (update2D cos sin rot2 T d).linear = rotation2D cos sin (d 0) * T.linear ∧
        (update2D cos sin rot2 T d).translation =
          (rotation2D cos sin (d 0)).mulVec T.translation + ![d 1, d 2] ∧
        ∀ x, (update2D cos sin rot2 T d).apply x =
          (rotation2D cos sin (d 0)).mulVec (T.apply x) + ![d 1, d 2]) ∧
      (∀ (k : ℕ) (x : Fin 2 → K),
        (updatesFrom (iterStep2D solve3 cos sin rot2 a2)
            { linear := 1, translation := 0 } (k + 1)).apply x =
          (rotation2D cos sin
            (incrementAt (iterStep2D solve3 cos sin rot2 a2)
              { linear := 1, translation := 0 } (k + 1) 0)).mulVec
            ((updatesFrom (iterStep2D solve3 cos sin rot2 a2)
              { linear := 1, translation := 0 } k).apply x) +
          ![incrementAt (iterStep2D solve3 cos sin rot2 a2)
              { linear := 1, translation := 0 } (k + 1) 1,
            incrementAt (iterStep2D solve3 cos sin rot2 a2)
              { linear := 1, translation := 0 } (k + 1) 2])) ∧
    ((∀ (T : Transform K 3) (d : Fin 6 → K), IsProperRotation T.linear →
        (update3D cos sin rot3 T d).linear =
          angleAxisZ cos sin (d 2) * angleAxisY cos sin (d 1) * angleAxisX cos sin (d 0) *
            T.linear ∧
        (update3D cos sin rot3 T d).translation =
          (angleAxisZ cos sin (d 2) * angleAxisY cos sin (d 1) *
            angleAxisX cos sin (d 0)).mulVec T.translation + ![d 3, d 4, d 5] ∧
        ∀ x, (update3D cos sin rot3 T d).apply x =
          (angleAxisZ cos sin (d 2) * angleAxisY cos sin (d 1) *
            angleAxisX cos sin (d 0)).mulVec (T.apply x) + ![d 3, d 4, d 5]) ∧
      (∀ (k : ℕ) (x : Fin 3 → K),
        (updatesFrom (iterStep3D solve6 cos sin rot3 a3)
            { linear := 1, translation := 0 } (k + 1)).apply x =
          (angleAxisZ cos sin
              (incrementAt (iterStep3D solve6 cos sin rot3 a3)
                { linear := 1, translation := 0 } (k + 1) 2) *
            angleAxisY cos sin
              (incrementAt (iterStep3D solve6 cos sin rot3 a3)
                { linear := 1, translation := 0 } (k + 1) 1) *
            angleAxisX cos sin
              (incrementAt (iterStep3D solve6 cos sin rot3 a3)
                { linear := 1, translation := 0 } (k + 1) 0)).mulVec
            ((updatesFrom (iterStep3D solve6 cos sin rot3 a3)
              { linear := 1, translation := 0 } k).apply x) +
          ![incrementAt (iterStep3D solve6 cos sin rot3 a3)
              { linear := 1, translation := 0 } (k + 1) 3,
            incrementAt (iterStep3D solve6 cos sin rot3 a3)
              { linear := 1, translation := 0 } (k + 1) 4,
            incrementAt (iterStep3D solve6 cos sin rot3 a3)
              { linear := 1, translation := 0 } (k + 1) 5])) := by
  have apply2 : ∀ (T : Transform K 2) (d : Fin 3 → K), IsProperRotation T.linear →
      ∀ x, (update2D cos sin rot2 T d).apply x =
        (rotation2D cos sin (d 0)).mulVec (T.apply x) + ![d 1, d 2] := by
    intro T d hT x
    rw [update2D_eq cos sin rot2 hcs hrot2 T d hT]
    simp only [Transform.apply, mulVec_add, mulVec_mulVec]
    abel
  have apply3 : ∀ (T : Transform K 3) (d : Fin 6 → K), IsProperRotation T.linear →
      ∀ x, (update3D cos sin rot3 T d).apply x =
        (angleAxisZ cos sin (d 2) * angleAxisY cos sin (d 1) *
          angleAxisX cos sin (d 0)).mulVec (T.apply x) + ![d 3, d 4, d 5] := by
    intro T d hT x
    rw [update3D_eq cos sin rot3 hcs hrot3 T d hT]
    simp only [Transform.apply, mulVec_add, mulVec_mulVec]
    abel
  refine ⟨⟨fun T d hT => ⟨?_, ?_, apply2 T d hT⟩, ?_⟩, ⟨fun T d hT => ⟨?_, ?_, apply3 T d hT⟩, ?_⟩⟩
  · rw [update2D_eq cos sin rot2 hcs hrot2 T d hT]
  · rw [update2D_eq cos sin rot2 hcs hrot2 T d hT]
  · intro k x
    exact apply2 _ _ (updatesFrom_invariant (fun T => IsProperRotation T.linear) _
      (fun T hT => update2D_proper cos sin rot2 hcs hrot2 T _ hT) _ isProperRotation_one k) x
  · rw [update3D_eq cos sin rot3 hcs hrot3 T d hT]
  · rw [update3D_eq cos sin rot3 hcs hrot3 T d hT]
  · intro k x
    exact apply3 _ _ (updatesFrom_invariant (fun T => IsProperRotation T.linear) _
      (fun T hT => update3D_proper cos sin rot3 hcs hrot3 T _ hT) _ isProperRotation_one k) x

/-- The statement of C17 with the rational parametrisation of the circle for
`cos` and `sin` and the identity for `rotation()`, on the quarter turn with
translation `(1, 2)`, the increment `(1, 2, 3)` and the point `(1, 0)`. -/
theorem rigid_update_composition_witness :
    (update2D circleCos circleSin id
        ({ linear := exampleQuarterTurn, translation := ![1, 2] } : Transform ℚ 2)
        ![1, 2, 3]).apply ![1, 0] =
      (rotation2D circleCos circleSin ((![1, 2, 3] : Fin 3 → ℚ) 0)).mulVec
        (({ linear := exampleQuarterTurn, translation := ![1, 2] } : Transform ℚ 2).apply
          ![1, 0]) +
        ![(![1, 2, 3] : Fin 3 → ℚ) 1, (![1, 2, 3] : Fin 3 → ℚ) 2] := by
  have h := rigid_update_composition (V := ℚ) (W := ℚ) cramerSolve cramerSolve circleCos
    circleSin id id exampleArgs2D exampleArgs3D circle_identity (fun _ _ => rfl)
    (fun _ _ => rfl)
  exact (h.1.1 ⟨exampleQuarterTurn, ![1, 2]⟩ ![1, 2, 3]
    (isProperRotation_of_orthogonal_det exampleQuarterTurn_orthogonal
      (by simp [exampleQuarterTurn, det_fin_two]))).2.2 ![1, 0]

/-- Claim C18. With the point-to-plane terms inactive, unity weight evaluators
and a global weight `w > 0` on a non-empty point-to-point set, the `AtA` and
`Atb` of the affine combined-metric estimator are `w` times the `AtA` and `Atb`
that the affine point-to-point estimator accumulates over the selected points
`(dst[c.indexInFirst], src[c.indexInSecond])`; the two estimators return the
same flag (`count ≥ Dim + 1`), unpack the solution the same way and, when `AtA`
is nonsingular and the solver returned a solution of each system, return the
same transform. -/
theorem affine_combined_point_only_agrees
    (solve : Matrix (Fin (NumUnknowns D)) (Fin (NumUnknowns D)) K →
      (Fin (NumUnknowns D) → K) → (Fin (NumUnknowns D) → K))
    (a : CombinedArgs K D V W) (tform : Transform K D)
    (hne : a.point_to_point_correspondences ≠ []) (hw : 0 < a.point_to_point_weight)
    (hpl : ¬ (a.point_to_plane_correspondences ≠ [] ∧ 0 < a.point_to_plane_weight))
    (hunity : ∀ c ∈ a.point_to_point_correspondences,
      a.point_corr_evaluator c.indexInFirst c.indexInSecond c.value = 1) :
    (affineSystem a).1 = a.point_to_point_weight •
        (affinePointSystem
          (selectCorrespondingPoints a.point_to_point_correspondences a.dst_p a.src_p).1
          (selectCorrespondingPoints a.point_to_point_correspondences a.dst_p a.src_p).2).1 ∧
      (affineSystem a).2 = a.point_to_point_weight •
        (affinePointSystem
          (selectCorrespondingPoints a.point_to_point_correspondences a.dst_p a.src_p).1
          (selectCorrespondingPoints a.point_to_point_correspondences a.dst_p a.src_p).2).2 ∧
      (estimateTransformCombinedMetricAffine solve a tform).1 =
        (estimateTransformPointToPointMetricAffineCorr solve a.dst_p a.src_p
          a.point_to_point_correspondences tform).1 ∧
      ((estimateTransformCombinedMetricAffine solve a tform).1 = true ↔
        D + 1 ≤ a.point_to_point_correspondences.length) ∧
      (estimateTransformCombinedMetricAffine solve a tform).2 =
        unpackAffine (solve (affineSystem a).1 (affineSystem a).2) tform ∧
      (estimateTransformPointToPointMetricAffineCorr solve a.dst_p a.src_p
          a.point_to_point_correspondences tform).2 =
        unpackAffine (solve
          (affinePointSystem
            (selectCorrespondingPoints a.point_to_point_correspondences a.dst_p a.src_p).1
            (selectCorrespondingPoints a.point_to_point_correspondences a.dst_p a.src_p).2).1
          (affinePointSystem
            (selectCorrespondingPoints a.point_to_point_correspondences a.dst_p a.src_p).1
            (selectCorrespondingPoints a.point_to_point_correspondences a.dst_p a.src_p).2).2)
          tform ∧
      ((affineSystem a).1.det ≠ 0 →
        (affineSystem a).1.mulVec (solve (affineSystem a).1 (affineSystem a).2) =
          (affineSystem a).2 →
        (affinePointSystem
            (selectCorrespondingPoints a.point_to_point_correspondences a.dst_p a.src_p).1
            (selectCorrespondingPoints a.point_to_point_correspondences a.dst_p a.src_p).2).1.mulVec
          (solve
            (affinePointSystem
              (selectCorrespondingPoints a.point_to_point_correspondences a.dst_p a.src_p).1
              (selectCorrespondingPoints a.point_to_point_correspondences a.dst_p a.src_p).2).1
            (affinePointSystem
              (selectCorrespondingPoints a.point_to_point_correspondences a.dst_p a.src_p).1
              (selectCorrespondingPoints a.point_to_point_correspondences a.dst_p a.src_p).2).2) =
          (affinePointSystem
            (selectCorrespondingPoints a.point_to_point_correspondences a.dst_p a.src_p).1
            (selectCorrespondingPoints a.point_to_point_correspondences a.dst_p a.src_p).2).2 →
        estimateTransformCombinedMetricAffine solve a tform =
          estimateTransformPointToPointMetricAffineCorr solve a.dst_p a.src_p
            a.point_to_point_correspondences tform) := by
  have hact : has_point_to_point_terms a = true :=
    (has_point_to_point_terms_iff a).mpr ⟨hne, hw⟩
  have hplf : has_point_to_plane_terms a = false := has_point_to_plane_terms_false a hpl
  have hsys := affineSystem_point_only a hact hplf hunity
  have hpre := preconditionViolated_of_point_only a hact hplf
  have hcnt := activeCorrespondenceCount_point_only a hact hplf
  have hcomb : estimateTransformCombinedMetricAffine solve a tform =
      (decide (D + 1 ≤ a.point_to_point_correspondences.length),
        unpackAffine (solve (affineSystem a).1 (affineSystem a).2) tform) := by
    simp only [estimateTransformCombinedMetricAffine, hpre, Bool.false_eq_true, if_false, hcnt]
  have hcorr := estimateAffineCorr_of_nonempty solve a.dst_p a.src_p
    a.point_to_point_correspondences tform hne
  refine ⟨congrArg Prod.fst hsys, congrArg Prod.snd hsys, ?_, ?_, ?_, ?_, ?_⟩
  · rw [hcomb, hcorr]
  · rw [hcomb]; simp
  · rw [hcomb]
  · rw [hcorr]
  · intro hdet h1 h2
    rw [hcomb, hcorr]
    have h2w : (affineSystem a).1.mulVec (solve
        (affinePointSystem
          (selectCorrespondingPoints a.point_to_point_correspondences a.dst_p a.src_p).1
          (selectCorrespondingPoints a.point_to_point_correspondences a.dst_p a.src_p).2).1
        (affinePointSystem
          (selectCorrespondingPoints a.point_to_point_correspondences a.dst_p a.src_p).1
          (selectCorrespondingPoints a.point_to_point_correspondences a.dst_p a.src_p).2).2) =
        (affineSystem a).2 := by
      rw [congrArg Prod.fst hsys, congrArg Prod.snd hsys]
      simp only [Prod.smul_fst, Prod.smul_snd, Matrix.smul_mulVec_assoc, h2]
    have hd := eq_zero_of_mulVec_eq_zero hdet
      (show (affineSystem a).1.mulVec (solve (affineSystem a).1 (affineSystem a).2 - solve
        (affinePointSystem
          (selectCorrespondingPoints a.point_to_point_correspondences a.dst_p a.src_p).1
          (selectCorrespondingPoints a.point_to_point_correspondences a.dst_p a.src_p).2).1
        (affinePointSystem
          (selectCorrespondingPoints a.point_to_point_correspondences a.dst_p a.src_p).1
          (selectCorrespondingPoints a.point_to_point_correspondences a.dst_p a.src_p).2).2) = 0
        by rw [mulVec_sub, h1, h2w, sub_self])
    rw [sub_eq_zero.mp hd]

/-- The statement of C18 on `exampleArgsMismatch`, where the point-to-plane
weight is zero: with the solver `cramerSolve` the affine combined estimator and
the affine point-to-point estimator over the selected points return the same
flag and transform. -/
theorem affine_combined_point_only_agrees_witness :
    estimateTransformCombinedMetricAffine cramerSolve exampleArgsMismatch ⟨0, 0⟩ =
      estimateTransformPointToPointMetricAffineCorr cramerSolve exampleArgsMismatch.dst_p
        exampleArgsMismatch.src_p exampleArgsMismatch.point_to_point_correspondences
        ⟨0, 0⟩ := by
  have h := affine_combined_point_only_agrees cramerSolve exampleArgsMismatch ⟨0, 0⟩
    (by simp [exampleArgsMismatch, exampleArgs2D, exampleIdentityCorr])
    (by norm_num [exampleArgsMismatch, exampleArgs2D])
    (by simp [exampleArgsMismatch])
    (fun c _ => by simp [exampleArgsMismatch, exampleArgs2D, UnityWeightEvaluator])
  refine h.2.2.2.2.2.2 (det_ne_zero_of_mulVec_injective _ exampleArgsMismatch_injective)
    (cramerSolve_of_injective _ _ exampleArgsMismatch_injective) ?_
  rw [exampleArgsMismatch_selected]
  exact cramerSolve_of_injective _ _
    (affinePointSystem_injective _ examplePoints rfl examplePoints_span)

/-- Claim C19. In the three combined-metric estimators, for the same
(transformed) source point `s` and normal `n`, the point-to-plane design vector
`eq_vec` is the point-to-point design matrix `eq_vecs` times `n` (2D:
`(s0·n1 - s1·n0, n0, n1)`; 3D: `(s × n, n)`; affine: `n_j·src` stacked for
`j < Dim`, then `n`). Hence a point-to-plane term adds to `AtA` and `Atb` what
the point-to-point term adds once its Jacobian `eq_vecs` is replaced by
`eq_vecs·n` and its residual `r` by `n·r`, and `eq_vec·theta =
n·(eq_vecsᵀ·theta)` for every parameter vector `theta`. -/
theorem plane_design_is_projected_point_design
    (a2 : CombinedArgs K 2 V W) (a3 : CombinedArgs K 3 V W) (a : CombinedArgs K D V W)
    (T2 : Transform K 2) (T3 : Transform K 3) :
    ((∀ n s : Fin 2 → K, eqVec2D n s = (eqVecs2D s).mulVec n) ∧
      (∀ n s : Fin 2 → K, eqVec2D n s = ![s 0 * n 1 - s 1 * n 0, n 0, n 1]) ∧
      (∀ (n s : Fin 2 → K) (theta : Fin 3 → K),
        eqVec2D n s ⬝ᵥ theta = n ⬝ᵥ (eqVecs2D s)ᵀ.mulVec theta) ∧
      (∀ acc (c : Correspondence V), pointStep2D a2 T2 acc c =
        (acc.1 + ((a2.point_to_point_weight *
              a2.point_corr_evaluator c.indexInFirst c.indexInSecond c.value) •
            eqVecs2D (T2.apply (a2.src_p.col c.indexInSecond))) *
            (eqVecs2D (T2.apply (a2.src_p.col c.indexInSecond)))ᵀ,
          acc.2 + (eqVecs2D (T2.apply (a2.src_p.col c.indexInSecond))).mulVec
            ((a2.point_to_point_weight *
                a2.point_corr_evaluator c.indexInFirst c.indexInSecond c.value) •
              (a2.dst_p.col c.indexInFirst - T2.apply (a2.src_p.col c.indexInSecond))))) ∧
      (∀ acc (c : Correspondence W), planeStep2D a2 T2 acc c =
        (acc.1 + vecMulVec
            ((a2.point_to_plane_weight *
                a2.plane_corr_evaluator c.indexInFirst c.indexInSecond c.value) •
              (eqVecs2D (T2.apply (a2.src_p.col c.indexInSecond))).mulVec
                (a2.dst_n.col c.indexInFirst))
            ((eqVecs2D (T2.apply (a2.src_p.col c.indexInSecond))).mulVec
              (a2.dst_n.col c.indexInFirst)),
          acc.2 + ((a2.point_to_plane_weight *
                a2.plane_corr_evaluator c.indexInFirst c.indexInSecond c.value) *
              (a2.dst_n.col c.indexInFirst ⬝ᵥ
                (a2.dst_p.col c.indexInFirst - T2.apply (a2.src_p.col c.indexInSecond)))) •
            (eqVecs2D (T2.apply (a2.src_p.col c.indexInSecond))).mulVec
              (a2.dst_n.col c.indexInFirst)))) ∧
    ((∀ n s : Fin 3 → K, eqVec3D n s = (eqVecs3D s).mulVec n) ∧
      (∀ n s : Fin 3 → K, eqVec3D n s =
        ![s 1 * n 2 - s 2 * n 1, s 2 * n 0 - s 0 * n 2, s 0 * n 1 - s 1 * n 0,
          n 0, n 1, n 2]) ∧
      (∀ (n s : Fin 3 → K) (theta : Fin 6 → K),
        eqVec3D n s ⬝ᵥ theta = n ⬝ᵥ (eqVecs3D s)ᵀ.mulVec theta) ∧
      (∀ acc (c : Correspondence V), pointStep3D a3 T3 acc c =
        (acc.1 + ((a3.point_to_point_weight *
              a3.point_corr_evaluator c.indexInFirst c.indexInSecond c.value) •
            eqVecs3D (T3.apply (a3.src_p.col c.indexInSecond))) *
            (eqVecs3D (T3.apply (a3.src_p.col c.indexInSecond)))ᵀ,
          acc.2 + (eqVecs3D (T3.apply (a3.src_p.col c.indexInSecond))).mulVec
            ((a3.point_to_point_weight *
                a3.point_corr_evaluator c.indexInFirst c.indexInSecond c.value) •
              (a3.dst_p.col c.indexInFirst - T3.apply (a3.src_p.col c.indexInSecond))))) ∧
      (∀ acc (c : Correspondence W), planeStep3D a3 T3 acc c =
        (acc.1 + vecMulVec
            ((a3.point_to_plane_weight *
                a3.plane_corr_evaluator c.indexInFirst c.indexInSecond c.value) •
              (eqVecs3D (T3.apply (a3.src_p.col c.indexInSecond))).mulVec
                (a3.dst_n.col c.indexInFirst))
            ((eqVecs3D (T3.apply (a3.src_p.col c.indexInSecond))).mulVec
              (a3.dst_n.col c.indexInFirst)),
          acc.2 + ((a3.point_to_plane_weight *
                a3.plane_corr_evaluator c.indexInFirst c.indexInSecond c.value) *
              (a3.dst_n.col c.indexInFirst ⬝ᵥ
                (a3.dst_p.col c.indexInFirst - T3.apply (a3.src_p.col c.indexInSecond)))) •
            (eqVecs3D (T3.apply (a3.src_p.col c.indexInSecond))).mulVec
              (a3.dst_n.col c.indexInFirst)))) ∧
    ((∀ n s : Fin D → K, affineEqVec n s = (affineEqVecs s).mulVec n) ∧
      (∀ (n s : Fin D → K) (j k : Fin D),
        affineEqVec n s (linIndex j k) = n j * s k ∧ affineEqVec n s (tailIndex j) = n j) ∧
      (∀ (n s : Fin D → K) (theta : Fin (NumUnknowns D) → K),
        affineEqVec n s ⬝ᵥ theta = n ⬝ᵥ (affineEqVecs s)ᵀ.mulVec theta) ∧
      (∀ acc (c : Correspondence V), pointStepAffine a acc c =
        (acc.1 + ((a.point_to_point_weight *
              a.point_corr_evaluator c.indexInFirst c.indexInSecond c.value) •
            affineEqVecs (a.src_p.col c.indexInSecond)) *
            (affineEqVecs (a.src_p.col c.indexInSecond))ᵀ,
          acc.2 + (affineEqVecs (a.src_p.col c.indexInSecond)).mulVec
            ((a.point_to_point_weight *
                a.point_corr_evaluator c.indexInFirst c.indexInSecond c.value) •
              a.dst_p.col c.indexInFirst))) ∧
      (∀ acc (c : Correspondence W), planeStepAffine a acc c =
        (acc.1 + vecMulVec
            ((a.point_to_plane_weight *
                a.plane_corr_evaluator c.indexInFirst c.indexInSecond c.value) •
              (affineEqVecs (a.src_p.col c.indexInSecond)).mulVec
                (a.dst_n.col c.indexInFirst))
            ((affineEqVecs (a.src_p.col c.indexInSecond)).mulVec (a.dst_n.col c.indexInFirst)),
          acc.2 + ((a.point_to_plane_weight *
                a.plane_corr_evaluator c.indexInFirst c.indexInSecond c.value) *
              (a.dst_n.col c.indexInFirst ⬝ᵥ a.dst_p.col c.indexInFirst)) •
            (affineEqVecs (a.src_p.col c.indexInSecond)).mulVec
              (a.dst_n.col c.indexInFirst)))) := by
  refine ⟨⟨eqVec2D_eq, fun _ _ => rfl, ?_, fun _ _ => rfl, planeStep2D_eq_projected a2 T2⟩,
    ⟨eqVec3D_eq, ?_, ?_, fun _ _ => rfl, planeStep3D_eq_projected a3 T3⟩,
    ⟨affineEqVec_eq, fun n s j k => ⟨affineEqVec_linIndex n s j k, affineEqVec_tailIndex n s j⟩,
      ?_, fun _ _ => rfl, planeStepAffine_eq_projected a⟩⟩
  · intro n s theta
    rw [eqVec2D_eq, mulVec_dotProduct_eq]
  · intro n s
    have e0 : n 2 * s 1 - n 1 * s 2 = s 1 * n 2 - s 2 * n 1 := by ring
    have e1 : n 0 * s 2 - n 2 * s 0 = s 2 * n 0 - s 0 * n 2 := by ring
    have e2 : n 1 * s 0 - n 0 * s 1 = s 0 * n 1 - s 1 * n 0 := by ring
    simp only [eqVec3D, e0, e1, e2]
  · intro n s theta
    rw [eqVec3D_eq, mulVec_dotProduct_eq]
  · intro n s theta
    rw [affineEqVec_eq, mulVec_dotProduct_eq]

/-- Claim C20. In the affine combined-metric estimator with the
point-to-point terms inactive, a positive point-to-plane weight, as many
normals as destination points and `M` point-to-plane correspondences, where
`Dim + 1 ≤ M < Dim·(Dim+1)`: the accumulated system is the sum of the `M`
contributions, each contribution to `AtA` has rank at most one, `AtA` has rank
at most `M`, the call returns true, and the determinant of `AtA` is zero. Such
an `M` exists only for `Dim ≥ 2`. -/
theorem affine_plane_only_success_singular
    (solve : Matrix (Fin (NumUnknowns D)) (Fin (NumUnknowns D)) K →
      (Fin (NumUnknowns D) → K) → (Fin (NumUnknowns D) → K))
    (a : CombinedArgs K D V W) (tform : Transform K D)
    (hpp : ¬ (a.point_to_point_correspondences ≠ [] ∧ 0 < a.point_to_point_weight))
    (hw : 0 < a.point_to_plane_weight)
    (hcols : a.dst_p.length = a.dst_n.length)
    (hlow : D + 1 ≤ a.point_to_plane_correspondences.length)
    (hhigh : a.point_to_plane_correspondences.length < D * (D + 1)) :
    2 ≤ D ∧
      affineSystem a = (a.point_to_plane_correspondences.map (planeStepAffine a 0)).sum ∧
      (∀ c ∈ a.point_to_plane_correspondences, (planeStepAffine a 0 c).1.rank ≤ 1) ∧
      (affineSystem a).1.rank ≤ a.point_to_plane_correspondences.length ∧
      (estimateTransformCombinedMetricAffine solve a tform).1 = true ∧
      (affineSystem a).1.det = 0 := by
  have hppf := has_point_to_point_terms_false a hpp
  have hne : a.point_to_plane_correspondences ≠ [] := by
    intro h
    rw [h] at hlow
    simp at hlow
  have hplt : has_point_to_plane_terms a = true := (has_point_to_plane_terms_iff a).mpr ⟨hne, hw⟩
  have hpre : preconditionViolated a = false := by
    simp [preconditionViolated, hppf, hplt, hcols]
  have hcount : activeCorrespondenceCount a = a.point_to_plane_correspondences.length := by
    simp [activeCorrespondenceCount, hppf, hplt]
  have hrank := affineSystem_plane_only_rank a hppf
  refine ⟨?_, affineSystem_plane_only a hppf hplt,
    fun c _ => planeStepAffine_rank_le_one a c, hrank, ?_, ?_⟩
  · by_contra h
    have hD : D = 0 ∨ D = 1 := by omega
    rcases hD with rfl | rfl <;> omega
  · simp only [estimateTransformCombinedMetricAffine, hpre, Bool.false_eq_true, if_false,
      hcount, decide_eq_true_eq]
    exact hlow
  · refine det_eq_zero_of_rank_lt _ ?_
    have hn : NumUnknowns D = D * (D + 1) := rfl
    omega

/-- The statement of C20 on a plane-only 2D input with four correspondences:
`3 ≤ 4 < 6`, the call returns true and the 6×6 matrix `AtA` has determinant
zero. -/
theorem affine_plane_only_success_singular_witness :
    (estimateTransformCombinedMetricAffine cramerSolve exampleArgsPlaneOnly ⟨0, 0⟩).1 = true ∧
      (affineSystem exampleArgsPlaneOnly).1.det = 0 := by
  have hlen : exampleArgsPlaneOnly.point_to_plane_correspondences.length = 4 := rfl
  have h := affine_plane_only_success_singular cramerSolve exampleArgsPlaneOnly ⟨0, 0⟩
    (by simp [exampleArgsPlaneOnly]) (by norm_num [exampleArgsPlaneOnly, exampleArgs2D])
    rfl (by rw [hlen]; norm_num) (by rw [hlen]; norm_num)
  have h1 := h.2.2.2.2.1
  have h2 := h.2.2.2.2.2
  refine ⟨h1, ?_⟩
  convert h2

/-- Claim C21. In the rigid combined-metric estimators (2D and 3D), with a
solver that returns zero for a zero right-hand side, `cos 0 = 1`, `sin 0 = 0`,
`cos² + sin² = 1` and `rotation()` returning a proper rotation unchanged: if
the current transform `T` aligns the input exactly (`d = T·s` on every active
point-to-point correspondence, `n·(d - T·s) = 0` on every active point-to-plane
correspondence), the accumulated `Atb` is zero and the solved increment is
zero; if moreover the linear part of `T` is a proper rotation, as it is in
every pass of the loop, the update leaves `T` unchanged and a loop that enters
a pass at `T` returns true in that pass with `T`, for every
`convergence_tol > 0`. For the call: if the passes before pass `k + 1 ≤
max_iter` did not converge and the transform after them aligns the input
exactly, the call returns true with that transform and `iter = k + 1`. -/
theorem exact_alignment_fixed_point
    (solve3 : Matrix (Fin 3) (Fin 3) K → (Fin 3 → K) → (Fin 3 → K))
    (solve6 : Matrix (Fin 6) (Fin 6) K → (Fin 6 → K) → (Fin 6 → K))
    (cos sin : K → K)
    (rot2 : Matrix (Fin 2) (Fin 2) K → Matrix (Fin 2) (Fin 2) K)
    (rot3 : Matrix (Fin 3) (Fin 3) K → Matrix (Fin 3) (Fin 3) K)
    (a2 : CombinedArgs K 2 V W) (a3 : CombinedArgs K 3 V W)
    (t2 : Transform K 2) (t3 : Transform K 3)
    (hsolve3 : ∀ M : Matrix (Fin 3) (Fin 3) K, solve3 M 0 = 0)
    (hsolve6 : ∀ M : Matrix (Fin 6) (Fin 6) K, solve6 M 0 = 0)
    (hcos : cos 0 = 1) (hsin : sin 0 = 0)
    (hcs : ∀ x, cos x * cos x + sin x * sin x = 1)
    (hrot2 : ∀ M : Matrix (Fin 2) (Fin 2) K, IsProperRotation M → rot2 M = M)
    (hrot3 : ∀ M : Matrix (Fin 3) (Fin 3) K, IsProperRotation M → rot3 M = M) :
    ((∀ T : Transform K 2, ExactlyAligned a2 T →
        (rigidSystem2D a2 T).2 = 0 ∧
        (iterStep2D solve3 cos sin rot2 a2 T).1 = 0 ∧
        (IsProperRotation T.linear →
          (iterStep2D solve3 cos sin rot2 a2 T).2 = T ∧
          ∀ (tol : K) (r iter : ℕ), 0 < tol →
            gaussNewtonLoop (iterStep2D solve3 cos sin rot2 a2) tol (r + 1) iter T =
              (true, T, iter + 1))) ∧
      (∀ k : ℕ, k < a2.max_iter → preconditionViolated a2 = false →
        0 < a2.convergence_tol →
        (∀ j, 1 ≤ j → j ≤ k →
          normLt (incrementAt (iterStep2D solve3 cos sin rot2 a2) t2.setIdentity j)
            a2.convergence_tol = false) →
        ExactlyAligned a2
          (updatesFrom (iterStep2D solve3 cos sin rot2 a2) t2.setIdentity k) →
        estimateTransformCombinedMetric2DTrace solve3 cos sin rot2 a2 t2 =
          (true, updatesFrom (iterStep2D solve3 cos sin rot2 a2) t2.setIdentity k, k + 1))) ∧
    ((∀ T : Transform K 3, ExactlyAligned a3 T →
        (rigidSystem3D a3 T).2 = 0 ∧
        (iterStep3D solve6 cos sin rot3 a3 T).1 = 0 ∧
        (IsProperRotation T.linear →
          (iterStep3D solve6 cos sin rot3 a3 T).2 = T ∧
          ∀ (tol : K) (r iter : ℕ), 0 < tol →
            gaussNewtonLoop (iterStep3D solve6 cos sin rot3 a3) tol (r + 1) iter T =
              (true, T, iter + 1))) ∧
      (∀ k : ℕ, k < a3.max_iter → preconditionViolated a3 = false →
        0 < a3.convergence_tol →
        (∀ j, 1 ≤ j → j ≤ k →
          normLt (incrementAt (iterStep3D solve6 cos sin rot3 a3) t3.setIdentity j)
            a3.convergence_tol = false) →
        ExactlyAligned a3
          (updatesFrom (iterStep3D solve6 cos sin rot3 a3) t3.setIdentity k) →
        estimateTransformCombinedMetric3DTrace solve6 cos sin rot3 a3 t3 =
          (true, updatesFrom (iterStep3D solve6 cos sin rot3 a3) t3.setIdentity k, k + 1))) := by
  refine ⟨⟨fun T hT => ⟨rigidSystem2D_aligned_rhs a2 T hT, ?_, fun hR => ?_⟩, ?_⟩,
    ⟨fun T hT => ⟨rigidSystem3D_aligned_rhs a3 T hT, ?_, fun hR => ?_⟩, ?_⟩⟩
  · simp only [iterStep2D, rigidSystem2D_aligned_rhs a2 T hT, hsolve3]
  · have hstep := iterStep2D_aligned solve3 cos sin rot2 a2 T hsolve3 hcos hsin (hrot2 _ hR) hT
    exact ⟨by rw [hstep], fun tol r iter htol =>
      gaussNewtonLoop_fixed_point _ tol htol T hstep r iter⟩
  · intro k hk hpre htol hbefore hal
    have hR : IsProperRotation
        (updatesFrom (iterStep2D solve3 cos sin rot2 a2) t2.setIdentity k).linear :=
      updatesFrom_invariant (fun T => IsProperRotation T.linear) _
        (fun T hT => update2D_proper cos sin rot2 hcs hrot2 T _ hT) _ isProperRotation_one k
    have hstep := iterStep2D_aligned solve3 cos sin rot2 a2 _ hsolve3 hcos hsin (hrot2 _ hR) hal
    simp only [estimateTransformCombinedMetric2DTrace, hpre, Bool.false_eq_true, if_false]
    exact gaussNewtonLoop_fixed_point_at _ _ htol _ _ k hk hbefore hstep
  · simp only [iterStep3D, rigidSystem3D_aligned_rhs a3 T hT, hsolve6]
  · have hstep := iterStep3D_aligned solve6 cos sin rot3 a3 T hsolve6 hcos hsin (hrot3 _ hR) hT
    exact ⟨by rw [hstep], fun tol r iter htol =>
      gaussNewtonLoop_fixed_point _ tol htol T hstep r iter⟩
  · intro k hk hpre htol hbefore hal
    have hR : IsProperRotation
        (updatesFrom (iterStep3D solve6 cos sin rot3 a3) t3.setIdentity k).linear :=
      updatesFrom_invariant (fun T => IsProperRotation T.linear) _
        (fun T hT => update3D_proper cos sin rot3 hcs hrot3 T _ hT) _ isProperRotation_one k
    have hstep := iterStep3D_aligned solve6 cos sin rot3 a3 _ hsolve6 hcos hsin (hrot3 _ hR) hal
    simp only [estimateTransformCombinedMetric3DTrace, hpre, Bool.false_eq_true, if_false]
    exact gaussNewtonLoop_fixed_point_at _ _ htol _ _ k hk hbefore hstep

/-- The statement of C21 with the solver `cramerSolve`, the rational
parametrisation of the circle for `cos` and `sin` and the identity for
`rotation()`: on `examplePoints` turned by a quarter and moved by `(1, 2)` a
pass of the 2D loop entered at that transform returns true with it, and the 3D
call on `exampleArgs3D`, aligned by the identity, returns true in its first
pass. -/
theorem exact_alignment_fixed_point_witness :
    gaussNewtonLoop (iterStep2D cramerSolve circleCos circleSin id exampleArgsTurned)
        (1 / 100000) (0 + 1) 0
        ({ linear := exampleQuarterTurn, translation := ![1, 2] } : Transform ℚ 2) =
      (true, { linear := exampleQuarterTurn, translation := ![1, 2] }, 0 + 1) ∧
    estimateTransformCombinedMetric3DTrace cramerSolve circleCos circleSin id exampleArgs3D
        ⟨0, 0⟩ =
      (true, updatesFrom (iterStep3D cramerSolve circleCos circleSin id exampleArgs3D)
        (Transform.setIdentity ⟨0, 0⟩) 0, 0 + 1) := by
  have h := exact_alignment_fixed_point cramerSolve cramerSolve circleCos circleSin id id
    exampleArgsTurned exampleArgs3D ⟨0, 0⟩ ⟨0, 0⟩ cramerSolve_zero cramerSolve_zero
    circleCos_zero circleSin_zero circle_identity (fun _ _ => rfl) (fun _ _ => rfl)
  refine ⟨((h.1.1 ⟨exampleQuarterTurn, ![1, 2]⟩ exampleArgsTurned_aligned).2.2
      (isProperRotation_of_orthogonal_det exampleQuarterTurn_orthogonal
        (by simp [exampleQuarterTurn, det_fin_two]))).2 (1 / 100000) 0 0 (by norm_num),
    h.2.2 0 (by simp [exampleArgs3D]) (by decide) (by norm_num [exampleArgs3D])
      (fun j h1 h0 => absurd h1 (by omega)) exampleArgs3D_aligned⟩

end Cilantro
